import Mathlib

/-!
# bomi (cmplayer): generated enumeration metadata and the deinterlacing widget

Shallow embedding of

* `src/cmplayer/enum/deintmode.hpp`, `staysontop.hpp`, `subtitleautoselect.hpp`,
  `verticalalignment.hpp`: the four `EnumInfo<...>` specialisations;
* `src/cmplayer/widget/deintwidget.cpp`: the `DeintWidget` settings widget.

C++ `int` values are embedded as `Int`: the embedded code compares them and applies the
bitwise operators `&`, `|` and `~`, none of which leaves the range of `int`, so no wrap-around
can occur. `QString` is embedded as `String`.
-/

namespace Bomi

/-! ## Qt value types used by the headers -/

/-- The Qt string type; a null `QString()` and an empty string are both `""`. -/
abbrev QString := String

/-- The call `a.compare(b)` of `QString` with the default `Qt::CaseSensitive`: negative, zero or
positive as `a` is less than, equal to or greater than `b`. -/
def QString.compare (a b : QString) : Int :=
  if a = b then 0 else if a < b then -1 else 1

/-- The values of `QVariant` an item table can hold: the invalid variant `QVariant()`, an
integer or a string. The comparison `QVariant::operator==` is not the equality of this type:
it converts between types; it belongs to Qt and is an argument where the code applies it. -/
inductive QVariant where
  | invalid : QVariant
  | ofInt (i : Int) : QVariant
  | ofString (s : QString) : QVariant
deriving DecidableEq, Repr

/-- The flag set `Qt::Alignment` (a `QFlags` over an `int`); `Qt::Alignment()` is `0`. -/
structure QtAlignment where
  flags : Int
deriving DecidableEq, Repr

/-! ## Bitwise operators on `int`

Two's-complement `&`, `|` and `~` on `Int`, written so that they evaluate on literals; they are
proved below to be `Int.land`, `Int.lor` and `Int.lnot`. -/

namespace CInt

/-- The bits of `m` that are not bits of `n`. -/
def natDiff (m n : Nat) : Nat := m ^^^ (m &&& n)

/-- The operator `a & b` on `int`. -/
def and : Int → Int → Int
  | Int.ofNat m, Int.ofNat n => Int.ofNat (m &&& n)
  | Int.ofNat m, Int.negSucc n => Int.ofNat (natDiff m n)
  | Int.negSucc m, Int.ofNat n => Int.ofNat (natDiff n m)
  | Int.negSucc m, Int.negSucc n => Int.negSucc (m ||| n)

/-- The operator `a | b` on `int`. -/
def or : Int → Int → Int
  | Int.ofNat m, Int.ofNat n => Int.ofNat (m ||| n)
  | Int.ofNat m, Int.negSucc n => Int.negSucc (natDiff n m)
  | Int.negSucc m, Int.ofNat n => Int.negSucc (natDiff m n)
  | Int.negSucc m, Int.negSucc n => Int.negSucc (m &&& n)

/-- The operator `~a` on `int`. -/
def not (a : Int) : Int := -a - 1

end CInt

/-! ## The four enumerations -/

/-- Selects one of the four generated headers. -/
inductive EnumTag where
  | DeintMode
  | StaysOnTop
  | SubtitleAutoselect
  | VerticalAlignment
deriving DecidableEq, Repr

/-- A value of the `enum class ... : int` selected by `t`: any `int` can be cast to it, so it is
its underlying integer. `val` is the cast `(int)e`, the constructor is the cast `(Enum)v`. -/
structure Enum (t : EnumTag) where
  val : Int
deriving DecidableEq, Repr

abbrev DeintMode := Enum EnumTag.DeintMode
abbrev StaysOnTop := Enum EnumTag.StaysOnTop
abbrev SubtitleAutoselect := Enum EnumTag.SubtitleAutoselect
abbrev VerticalAlignment := Enum EnumTag.VerticalAlignment

def DeintMode.None : DeintMode := ⟨0⟩
def DeintMode.Auto : DeintMode := ⟨1⟩

def StaysOnTop.None : StaysOnTop := ⟨0⟩
def StaysOnTop.Playing : StaysOnTop := ⟨1⟩
def StaysOnTop.Always : StaysOnTop := ⟨2⟩

def SubtitleAutoselect.Matched : SubtitleAutoselect := ⟨0⟩
def SubtitleAutoselect.First : SubtitleAutoselect := ⟨1⟩
def SubtitleAutoselect.All : SubtitleAutoselect := ⟨2⟩
def SubtitleAutoselect.EachLanguage : SubtitleAutoselect := ⟨3⟩

def VerticalAlignment.Top : VerticalAlignment := ⟨0⟩
def VerticalAlignment.Center : VerticalAlignment := ⟨1⟩
def VerticalAlignment.Bottom : VerticalAlignment := ⟨2⟩

/-- The enumerators declared in the `enum class` body, in declaration order. -/
def enumerators : (t : EnumTag) → List (Enum t)
  | .DeintMode => [DeintMode.None, DeintMode.Auto]
  | .StaysOnTop => [StaysOnTop.None, StaysOnTop.Playing, StaysOnTop.Always]
  | .SubtitleAutoselect =>
      [SubtitleAutoselect.Matched, SubtitleAutoselect.First, SubtitleAutoselect.All,
       SubtitleAutoselect.EachLanguage]
  | .VerticalAlignment => [VerticalAlignment.Top, VerticalAlignment.Center, VerticalAlignment.Bottom]

/-- The mixed comparison `operator <= (int i, Enum e)`: `i <= (int)e`. -/
def Enum.int_le {t : EnumTag} (i : Int) (e : Enum t) : Bool := decide (i ≤ e.val)

/-- The mixed comparison `operator < (Enum e, int i)`: `(int)e < i`. -/
def Enum.lt_int {t : EnumTag} (e : Enum t) (i : Int) : Bool := decide (e.val < i)

/-- The mixed comparison `operator == (Enum e, int i)`: `(int)e == i`. -/
def Enum.eq_int {t : EnumTag} (e : Enum t) (i : Int) : Bool := decide (e.val = i)

/-- The mixed comparison `operator != (Enum e, int i)`: `(int)e != i`. -/
def Enum.ne_int {t : EnumTag} (e : Enum t) (i : Int) : Bool := decide (e.val ≠ i)

/-- The mixed comparison `operator == (int i, Enum e)`: `(int)e == i`. -/
def Enum.int_eq {t : EnumTag} (i : Int) (e : Enum t) : Bool := decide (e.val = i)

/-- The mixed comparison `operator != (int i, Enum e)`: `(int)e != i`. -/
def Enum.int_ne {t : EnumTag} (i : Int) (e : Enum t) : Bool := decide (e.val ≠ i)

/-- The mixed comparison `operator > (Enum e, int i)`: `(int)e > i`. -/
def Enum.gt_int {t : EnumTag} (e : Enum t) (i : Int) : Bool := decide (e.val > i)

/-- The mixed comparison `operator >= (Enum e, int i)`: `(int)e >= i`. -/
def Enum.ge_int {t : EnumTag} (e : Enum t) (i : Int) : Bool := decide (e.val ≥ i)

/-- The mixed comparison `operator <= (Enum e, int i)`: `(int)e <= i`. -/
def Enum.le_int {t : EnumTag} (e : Enum t) (i : Int) : Bool := decide (e.val ≤ i)

/-- The mixed comparison `operator > (int i, Enum e)`: `i > (int)e`. -/
def Enum.int_gt {t : EnumTag} (i : Int) (e : Enum t) : Bool := decide (i > e.val)

/-- The mixed comparison `operator < (int i, Enum e)`: `i < (int)e`. -/
def Enum.int_lt {t : EnumTag} (i : Int) (e : Enum t) : Bool := decide (i < e.val)

/-- The mixed comparison `operator >= (int i, Enum e)`: `i >= (int)e`. -/
def Enum.int_ge {t : EnumTag} (i : Int) (e : Enum t) : Bool := decide (i ≥ e.val)

/-- The operator `operator & (Enum e, int i)`: `(int)e & i` (the `#else` branch, every
`..._IS_FLAG` being `0`). -/
def Enum.and_int {t : EnumTag} (e : Enum t) (i : Int) : Int := CInt.and e.val i

/-- The operator `operator & (int i, Enum e)`: `(int)e & i`. -/
def Enum.int_and {t : EnumTag} (i : Int) (e : Enum t) : Int := CInt.and e.val i

/-- The operator `operator &= (int &i, Enum e)`: the new value of `i`, `i & (int)e`. -/
def Enum.and_assign {t : EnumTag} (i : Int) (e : Enum t) : Int := CInt.and i e.val

/-- The operator `operator ~ (Enum e)`: `~(int)e`. -/
def Enum.not {t : EnumTag} (e : Enum t) : Int := CInt.not e.val

/-- The operator `operator | (Enum e, int i)`: `(int)e | i`. -/
def Enum.or_int {t : EnumTag} (e : Enum t) (i : Int) : Int := CInt.or e.val i

/-- The operator `operator | (int i, Enum e)`: `(int)e | i`. -/
def Enum.int_or {t : EnumTag} (i : Int) (e : Enum t) : Int := CInt.or e.val i

/-- The operator `operator | (Enum e1, Enum e2)`: `(int)e1 | (int)e2`. -/
def Enum.or {t : EnumTag} (e1 e2 : Enum t) : Int := CInt.or e1.val e2.val

/-- The operator `operator |= (int &i, Enum e)`: the new value of `i`, `i | (int)e`. -/
def Enum.or_assign {t : EnumTag} (i : Int) (e : Enum t) : Int := CInt.or i e.val

/-! ## `EnumInfo<Enum>`

The four specialisations are the same generated text up to the enumeration, the array size, the
`Data` type, the `description` switch and `default_`; `t` selects the specialisation. The item
table `info` is declared `static const ItemList info` in the headers and defined elsewhere, so
it is an argument of every function that reads it. -/

namespace EnumInfo

/-- The member type `Data`: `Qt::Alignment` for `VerticalAlignment`, `QVariant` otherwise. -/
abbrev Data : EnumTag → Type
  | .VerticalAlignment => QtAlignment
  | _ => QVariant

instance instDecidableEqData : (t : EnumTag) → DecidableEq (Data t)
  | .DeintMode => inferInstanceAs (DecidableEq QVariant)
  | .StaysOnTop => inferInstanceAs (DecidableEq QVariant)
  | .SubtitleAutoselect => inferInstanceAs (DecidableEq QVariant)
  | .VerticalAlignment => inferInstanceAs (DecidableEq QtAlignment)

/-- The value-initialised `Data`: `QVariant()`, resp. `Qt::Alignment()`. -/
def Data.empty : (t : EnumTag) → Data t
  | .DeintMode => QVariant.invalid
  | .StaysOnTop => QVariant.invalid
  | .SubtitleAutoselect => QVariant.invalid
  | .VerticalAlignment => (⟨0⟩ : QtAlignment)

/-- The comparison `a == b` on `Data`. For `Qt::Alignment` (a `QFlags`) it compares the flag
values. For `QVariant` it is `QVariant::operator==`, which is part of Qt and not of the
sources: the argument `veq`. -/
def Data.eq (veq : QVariant → QVariant → Bool) : (t : EnumTag) → Data t → Data t → Bool
  | .DeintMode, a, b => veq a b
  | .StaysOnTop, a, b => veq a b
  | .SubtitleAutoselect, a, b => veq a b
  | .VerticalAlignment, a, b => decide (a.flags = b.flags)

/-- The member `struct Item`. -/
structure Item (t : EnumTag) where
  value : Enum t
  name : QString
  key : QString
  data : Data t

/-- The template argument `N` of `using ItemList = std::array<Item, N>`. -/
def arraySize : EnumTag → Nat
  | .DeintMode => 2
  | .StaysOnTop => 3
  | .SubtitleAutoselect => 4
  | .VerticalAlignment => 3

/-- The type `ItemList = std::array<Item, N>`: exactly `N` items. -/
structure ItemList (t : EnumTag) where
  items : List (Item t)
  length_eq : items.length = arraySize t

/-- The member `size()`. -/
def size : EnumTag → Int
  | .DeintMode => 2
  | .StaysOnTop => 3
  | .SubtitleAutoselect => 4
  | .VerticalAlignment => 3

/-- The member `item(e)`: `0 <= e && e < size() ? &info[(int)e] : nullptr`; `none` is the null
pointer, and the array is only indexed under the guard. -/
def item {t : EnumTag} (info : ItemList t) (e : Enum t) : Option (Item t) :=
  if h : Enum.int_le 0 e = true ∧ Enum.lt_int e (size t) = true then
    some (info.items.get ⟨e.val.toNat, by
      have h1 : 0 ≤ e.val := by simpa [Enum.int_le] using h.1
      have h2 : e.val < size t := by simpa [Enum.lt_int] using h.2
      rw [info.length_eq]
      cases t <;> simp only [size, arraySize] at h2 ⊢ <;> omega⟩)
  else none

/-- The member `name(e)`. -/
def name {t : EnumTag} (info : ItemList t) (e : Enum t) : QString :=
  match item info e with
  | some i => i.name
  | none => ""

/-- The member `key(e)`. -/
def key {t : EnumTag} (info : ItemList t) (e : Enum t) : QString :=
  match item info e with
  | some i => i.key
  | none => ""

/-- The member `data(e)`. -/
def data {t : EnumTag} (info : ItemList t) (e : Enum t) : Data t :=
  match item info e with
  | some i => i.data
  | none => Data.empty t

/-- The member `description(Enum e)`: the `switch` over the declared enumerators; `tr` is
`qApp->translate`, applied to the context `"EnumInfo"` and the source text. -/
def description (tr : String → String → QString) : (t : EnumTag) → Enum t → QString
  | .DeintMode, e =>
      if e = DeintMode.None then tr "EnumInfo" "Off"
      else if e = DeintMode.Auto then tr "EnumInfo" "Auto"
      else ""
  | .StaysOnTop, e =>
      if e = StaysOnTop.None then tr "EnumInfo" "Off"
      else if e = StaysOnTop.Playing then tr "EnumInfo" "Playing"
      else if e = StaysOnTop.Always then tr "EnumInfo" "Always"
      else ""
  | .SubtitleAutoselect, e =>
      if e = SubtitleAutoselect.Matched then
        tr "EnumInfo" "Subtitle which has the same name as that of playing file"
      else if e = SubtitleAutoselect.First then tr "EnumInfo" "First subtitle from loaded ones"
      else if e = SubtitleAutoselect.All then tr "EnumInfo" "All loaded subtitles"
      else if e = SubtitleAutoselect.EachLanguage then tr "EnumInfo" "Each language subtitle"
      else ""
  | .VerticalAlignment, e =>
      if e = VerticalAlignment.Top then tr "EnumInfo" "Top"
      else if e = VerticalAlignment.Center then tr "EnumInfo" "Vertical Center"
      else if e = VerticalAlignment.Bottom then tr "EnumInfo" "Bottom"
      else ""

/-- The member `description(int e)`: `description((Enum)e)`. -/
def description_int (tr : String → String → QString) (t : EnumTag) (e : Int) : QString :=
  description tr t (⟨e⟩ : Enum t)

/-- The algorithm `std::find_if(first, last, p)` over a list: the position of the first element
satisfying `p`, and the length of the list (the past-the-end iterator) when there is none. -/
def find_if {α : Type} (p : α → Bool) : List α → Nat
  | [] => 0
  | x :: xs => if p x then 0 else find_if p xs + 1

/-- The two statements shared by the three reverse lookups:
`auto it = std::find_if(info.cbegin(), info.cend(), p);` and
`return it != info.cend() ? it->value : def;`. -/
def find_deref {t : EnumTag} (info : ItemList t) (p : Item t → Bool) (def_ : Enum t) : Enum t :=
  let it := find_if p info.items
  if h : it ≠ info.items.length then
    (info.items.get ⟨it, by
      have hle : ∀ l : List (Item t), find_if p l ≤ l.length := by
        intro l
        induction l with
        | nil => simp [find_if]
        | cons x xs ih => simp only [find_if, List.length_cons]; split <;> omega
      exact Nat.lt_of_le_of_ne (hle _) h⟩).value
  else def_

/-- The member `default_()`. -/
def default_ : (t : EnumTag) → Enum t
  | .DeintMode => DeintMode.Auto
  | .StaysOnTop => StaysOnTop.Playing
  | .SubtitleAutoselect => SubtitleAutoselect.Matched
  | .VerticalAlignment => VerticalAlignment.Center

/-- The table lists each declared enumerator at the index equal to its integer value, the
layout `item()` indexes by. -/
def Layout {t : EnumTag} (info : ItemList t) : Prop :=
  ∀ e ∈ enumerators t, (info.items.get? e.val.toNat).map Item.value = some e

instance instDecidableLayout {t : EnumTag} (info : ItemList t) : Decidable (Layout info) := by
  unfold Layout; infer_instance

/-- The member `from(int id, Enum def)`. -/
def from_ {t : EnumTag} (info : ItemList t) (id : Int) (def_ : Enum t) : Enum t :=
  find_deref info (fun item : Item t => Enum.eq_int item.value id) def_

/-- The call `from(id)` with the default argument `def = default_()`. -/
def from_default_arg {t : EnumTag} (info : ItemList t) (id : Int) : Enum t :=
  from_ info id (default_ t)

/-- The member `from(const QString &name, Enum def)`. -/
def from_QString {t : EnumTag} (info : ItemList t) (name : QString) (def_ : Enum t) : Enum t :=
  find_deref info (fun item : Item t => decide (QString.compare name item.name = 0)) def_

/-- The member `fromData(const Data &data, Enum def)`; the predicate of the search is
`item.data == data`, with `veq` for `QVariant::operator==`. -/
def fromData (veq : QVariant → QVariant → Bool) {t : EnumTag} (info : ItemList t)
    (data : Data t) (def_ : Enum t) : Enum t :=
  find_deref info (fun item : Item t => Data.eq veq t item.data data) def_

end EnumInfo

/-! ## `DeintWidget`

The widget uses declarations of `video/deintcaps.hpp`, `misc/record.hpp`, `datacombobox.hpp` and
the `DeintMethod`, `DeintDevice` and `DecoderDevice` enumerations, none of which is part of the
sources at hand. What the widget needs of them is collected in `Decls` and passed around. -/

/-- Modelled from the spec: the class `DeintCaps` of `video/deintcaps.hpp`, "a small
capability-bitmask settings object": the method, the fields `m_decoder`, `m_device` and
`m_doubler` that the widget accesses as a friend. -/
structure DeintCaps where
  m_method : Int
  m_decoder : Int
  m_device : Int
  m_doubler : Bool
deriving DecidableEq, Repr

namespace DeintCaps

/-- Modelled from the spec: the accessor `method()` of `video/deintcaps.hpp`. -/
def method (c : DeintCaps) : Int := c.m_method

/-- Modelled from the spec: the accessor `doubler()` of `video/deintcaps.hpp`, the
"framerate-doubler flag". -/
def doubler (c : DeintCaps) : Bool := c.m_doubler

/-- Modelled from the spec: the test `supports(dev)` of `video/deintcaps.hpp`, a "support flag"
of the device bitmask: some bit of `dev` is set in `m_device`. -/
def supports (c : DeintCaps) (dev : Int) : Bool := decide (CInt.and c.m_device dev ≠ 0)

end DeintCaps

/-- The declarations the widget uses and the sources do not contain. -/
structure Decls where
  /-- The value `(int)DeintDevice::GPU`. -/
  GPU : Int
  /-- The value `(int)DeintDevice::CPU`. -/
  CPU : Int
  /-- The value `(int)DeintDevice::OpenGL`. -/
  OpenGL : Int
  /-- The value `(int)DecoderDevice::GPU`. -/
  DecoderDevice_GPU : Int
  /-- The value `(int)DeintMethod::Bob`. -/
  Bob : Int
  /-- The default-constructed `DeintCaps()`. -/
  ctor : DeintCaps
  /-- The test `DeintCaps::isAvailable()`. -/
  isAvailable : DeintCaps → Bool
  /-- The test `DeintCaps::hwdec()`. -/
  hwdec : DeintCaps → Bool
  /-- The test `DeintCaps::swdec()`. -/
  swdec : DeintCaps → Bool
  /-- The parser `DeintCaps::fromString`. -/
  fromString : QString → DeintCaps
  /-- The printer `DeintCaps::toString`. -/
  toString : DeintCaps → QString
  /-- The defaults `DeintCaps::list()`. -/
  list : List DeintCaps
  /-- The name `DecoderDeviceInfo::name(decoder)`. -/
  DecoderDeviceInfo_name : Int → QString
  /-- The name `DeintMethodInfo::name(method)`. -/
  DeintMethodInfo_name : Int → QString

/-- The container `QMap<DeintMethod, DeintCaps>`: its entries, which the operations below keep
in ascending key order with one entry per key. -/
structure QMap where
  entries : List (Int × DeintCaps)
deriving DecidableEq, Repr

namespace QMap

/-- The empty map. -/
def empty : QMap := ⟨[]⟩

/-- Entries in strictly ascending key order. -/
def WF (m : QMap) : Prop := m.entries.Pairwise (fun a b => a.1 < b.1)

instance instDecidableWF (m : QMap) : Decidable m.WF := by
  unfold WF; infer_instance

/-- Every entry is stored under its own method. -/
def Keyed (m : QMap) : Prop := ∀ e ∈ m.entries, e.2.method = e.1

instance instDecidableKeyed (m : QMap) : Decidable m.Keyed := by
  unfold Keyed; infer_instance

/-- Insertion into the ordered entry list, replacing the value of an existing key. -/
def insertEntry (k : Int) (v : DeintCaps) : List (Int × DeintCaps) → List (Int × DeintCaps)
  | [] => [(k, v)]
  | (k1, v1) :: rest =>
      if k < k1 then (k, v) :: (k1, v1) :: rest
      else if k = k1 then (k, v) :: rest
      else (k1, v1) :: insertEntry k v rest

/-- The call `m.insert(k, v)`, which is also the assignment `m[k] = v`. -/
def insert (m : QMap) (k : Int) (v : DeintCaps) : QMap := ⟨insertEntry k v m.entries⟩

/-- The lookup `m.find(k)`: the value stored under `k`, if any. -/
def find (m : QMap) (k : Int) : Option DeintCaps :=
  (m.entries.find? (fun e => decide (e.1 = k))).map (fun e => e.2)

/-- The test `m.contains(k)`. -/
def contains (m : QMap) (k : Int) : Bool := (m.find k).isSome

/-- The map after evaluating the non-const `m[k]`: a default-constructed value is inserted when
`k` is missing. -/
def subscript (ctor : DeintCaps) (m : QMap) (k : Int) : QMap :=
  if m.contains k then m else m.insert k ctor

/-- The value the reference `m[k]` denotes. -/
def ref (ctor : DeintCaps) (m : QMap) (k : Int) : DeintCaps := (m.find k).getD ctor

/-- A write through the reference `m[k]`: `f` is applied to the value stored under `k`, after
the default insertion of `subscript`. -/
def modify (ctor : DeintCaps) (m : QMap) (k : Int) (f : DeintCaps → DeintCaps) : QMap :=
  (subscript ctor m k).insert k (f (ref ctor m k))

/-- The values in iteration order (`begin()` to `end()`), that is by ascending key. -/
def values (m : QMap) : List DeintCaps := m.entries.map (fun e => e.2)

end QMap

/-- Modelled from the spec: the class `Record` of `misc/record.hpp`, opened on the group
`"deint_caps"`, a "key-value store" of "tokenized strings": the string list stored under each
key. -/
abbrev Record := QString → List QString

/-- Modelled from the spec: the read `r.value(name).toStringList()` of `misc/record.hpp`. -/
def Record.value (r : Record) (name : QString) : List QString := r name

/-- Modelled from the spec: the write `r.write(tokens, name)` of `misc/record.hpp`: the value
under `name` is replaced. -/
def Record.write (r : Record) (tokens : List QString) (name : QString) : Record :=
  fun key => if key = name then tokens else r key

/-- The state of a `QCheckBox` that the widget reads and writes. -/
structure QCheckBox where
  enabled : Bool
  checked : Bool
deriving DecidableEq, Repr

/-- Modelled from the spec: the class `DataComboBox` of `datacombobox.hpp`, "a combo box": the
items as pairs of text and data, and the current index (`-1` while there is no item). -/
structure DataComboBox where
  items : List (QString × Int)
  currentIndex : Int
deriving DecidableEq, Repr

namespace DataComboBox

/-- Modelled from the spec: the call `addItem(text, data)`; the first item added becomes the
current one. -/
def addItem (c : DataComboBox) (text : QString) (data : Int) : DataComboBox :=
  ⟨c.items ++ [(text, data)], if c.items.isEmpty then 0 else c.currentIndex⟩

/-- Modelled from the spec: the call `findData(data)` of the combo box: the index of the first
item that holds `data`, and `-1` when there is none. -/
def findData (c : DataComboBox) (data : Int) : Int :=
  let i := c.items.findIdx (fun item => decide (item.2 = data))
  if i < c.items.length then (i : Int) else -1

/-- Modelled from the spec: the value `currentData().toInt()`: the data of the current item,
and `0` (an invalid `QVariant` converted to `int`) when there is none. -/
def currentData_toInt (c : DataComboBox) : Int :=
  if 0 ≤ c.currentIndex then
    match c.items.get? c.currentIndex.toNat with
    | some item => item.2
    | none => 0
  else 0

end DataComboBox

namespace DeintWidget

/-- The member `struct DeintWidget::Data`. -/
structure Data where
  updating : Bool
  hwdec : Bool
  combo : DataComboBox
  gl : QCheckBox
  doubler : QCheckBox
  gpu : QCheckBox
  caps : QMap
  defaults : List DeintCaps
  decoder : Int
deriving DecidableEq, Repr

/-- The key of `Data::current()`: `(DeintMethod)combo->currentData().toInt()`. -/
def Data.currentKey (d : Data) : Int := d.combo.currentData_toInt

/-- The load loop of the constructor (lines 30-34): each token is parsed and stored under its
method when it is available. -/
def load (env : Decls) (tokens : List QString) (caps : QMap) : QMap :=
  tokens.foldl
    (fun m token =>
      let c := env.fromString token
      if env.isAvailable c then m.insert c.method c else m)
    caps

/-- The guard of the merge loop (lines 38-41): the default is available and matches the
decoder. -/
def accepts (env : Decls) (hwdec : Bool) (caps : DeintCaps) : Bool :=
  if !env.isAvailable caps then false
  else if (hwdec && !env.hwdec caps) || (!hwdec && !env.swdec caps) then false
  else true

/-- One iteration of the merge loop (lines 37-47). -/
def mergeStep (env : Decls) (d : Data) (caps : DeintCaps) : Data :=
  if !env.isAvailable caps then d
  else if (d.hwdec && !env.hwdec caps) || (!d.hwdec && !env.swdec caps) then d
  else
    let method := caps.method
    let combo := d.combo.addItem (env.DeintMethodInfo_name method) method
    let m := if !d.caps.contains method then d.caps.insert method caps else d.caps
    let m := m.modify env.ctor method (fun c => { c with m_decoder := d.decoder })
    { d with combo := combo, caps := m }

/-- Among the tokens, the capability parsed from the last token that parses to an available
capability of method `k`. -/
def lastAvailable (env : Decls) (tokens : List QString) (k : Int) : Option DeintCaps :=
  ((tokens.map env.fromString).filter env.isAvailable).reverse.find?
    (fun c => decide (c.method = k))

/-- The first capability of `defaults` that passes the guard of the merge loop and has method
`k`. -/
def firstAccepted (env : Decls) (hwdec : Bool) (defaults : List DeintCaps) (k : Int) :
    Option DeintCaps :=
  (defaults.filter (accepts env hwdec)).find? (fun c => decide (c.method = k))

/-- The record access and the load loop of the constructor (lines 27-34): the tokens stored
under the decoder's name, loaded into an empty map. -/
def loadRecord (env : Decls) (r : Record) (decoder : Int) : QMap :=
  let name := env.DecoderDeviceInfo_name decoder
  let tokens := Record.value r name
  load env tokens QMap.empty

/-- The constructor up to the end of the merge loop (lines 25-47), with the three check boxes
of lines 48-50 in their initial state (enabled, unchecked). -/
def constructLoops (env : Decls) (r : Record) (decoder : Int) : Data :=
  let hwdec := decide (decoder = env.DecoderDevice_GPU)
  let caps := loadRecord env r decoder
  let d : Data :=
    { updating := false, hwdec := hwdec, combo := ⟨[], -1⟩,
      gl := ⟨true, false⟩, doubler := ⟨true, false⟩, gpu := ⟨true, false⟩,
      caps := caps, defaults := env.list, decoder := decoder }
  d.defaults.foldl (mergeStep env) d

/-- The slot connected to `doubler`'s `toggled` (lines 84-86). -/
def onDoublerToggled (env : Decls) (d : Data) (on_ : Bool) : Data :=
  if !d.updating then
    { d with caps := d.caps.modify env.ctor d.currentKey (fun c => { c with m_doubler := on_ }) }
  else d

/-- The slot connected to `gl`'s `toggled` (lines 87-94). -/
def onGlToggled (env : Decls) (d : Data) (on_ : Bool) : Data :=
  if !d.updating then
    if on_ then
      { d with caps := (d.caps.modify env.ctor d.currentKey
          (fun c => { c with m_device := CInt.or c.m_device env.OpenGL })) }
    else
      { d with caps := (d.caps.modify env.ctor d.currentKey
          (fun c => { c with m_device := CInt.and c.m_device (CInt.not env.OpenGL) })) }
  else d

/-- The slot connected to `gpu`'s `toggled` (lines 95-102). -/
def onGpuToggled (env : Decls) (d : Data) (on_ : Bool) : Data :=
  if !d.updating then
    if on_ then
      { d with caps := (d.caps.modify env.ctor d.currentKey
          (fun c => { c with m_device := CInt.or c.m_device env.GPU })) }
    else
      { d with caps := (d.caps.modify env.ctor d.currentKey
          (fun c => { c with m_device := CInt.and c.m_device (CInt.not env.GPU) })) }
  else d

/-- The record that the bodies of the slots of `gl` and `gpu` leave (lines 89-92 and 97-100):
`m_device |= flag` when `on_`, and `m_device &= ~flag` otherwise. -/
def toggledDevice (flag : Int) (on_ : Bool) (c : DeintCaps) : DeintCaps :=
  match on_ with
  | true => { c with m_device := CInt.or c.m_device flag }
  | false => { c with m_device := CInt.and c.m_device (CInt.not flag) }

/-- The call `d->gpu->setChecked(b)`: the state changes and, when it did change, `toggled(b)`
runs the connected slot. -/
def gpuSetChecked (env : Decls) (d : Data) (b : Bool) : Data :=
  if d.gpu.checked = b then d
  else onGpuToggled env { d with gpu := { d.gpu with checked := b } } b

/-- The call `d->gl->setChecked(b)`. -/
def glSetChecked (env : Decls) (d : Data) (b : Bool) : Data :=
  if d.gl.checked = b then d
  else onGlToggled env { d with gl := { d.gl with checked := b } } b

/-- The call `d->doubler->setChecked(b)`. -/
def doublerSetChecked (env : Decls) (d : Data) (b : Bool) : Data :=
  if d.doubler.checked = b then d
  else onDoublerToggled env { d with doubler := { d.doubler with checked := b } } b

/-- The lambda `update` (lines 62-79). The result is `none` when `(int)method` is not an index
of `d->defaults`, where `d->defaults[(int)method]` has no defined value. -/
def update (env : Decls) (d : Data) (method : Int) : Option Data :=
  let d := { d with updating := true }
  -- auto &cap = d->caps[method];
  let d := { d with caps := d.caps.subscript env.ctor method }
  if h : 0 ≤ method ∧ method.toNat < d.defaults.length then
    let def_ := d.defaults.get ⟨method.toNat, h.2⟩
    let dev := if d.hwdec then env.GPU else env.CPU
    let d := { d with gpu := { d.gpu with enabled := d.hwdec && def_.supports env.GPU } }
    let d := gpuSetChecked env d (d.hwdec && (d.caps.ref env.ctor method).supports env.GPU)
    let d := { d with gl := { d.gl with
                enabled := def_.supports dev && def_.supports env.OpenGL } }
    let d := glSetChecked env d
      (!def_.supports dev || (d.caps.ref env.ctor method).supports env.OpenGL)
    let d := { d with doubler := { d.doubler with enabled := def_.doubler } }
    let d := doublerSetChecked env d (d.caps.ref env.ctor method).doubler
    let d := { d with updating := false }
    let d := { d with caps := (d.caps.modify env.ctor method
                (fun c => { c with m_device := def_.m_device })) }
    let d := if !d.gl.checked then
        { d with caps := (d.caps.modify env.ctor method
            (fun c => { c with m_device := CInt.and c.m_device (CInt.not env.OpenGL) })) }
      else d
    let d := if !d.gpu.checked then
        { d with caps := (d.caps.modify env.ctor method
            (fun c => { c with m_device := CInt.and c.m_device (CInt.not env.GPU) })) }
      else d
    some d
  else none

/-- The record that `update` leaves under `method` (lines 74-78), from the default `def_`, the
record `cap` stored before the call and the checked states given to `gl` and `gpu`
(lines 68 and 70). -/
def updatedCaps (env : Decls) (hwdec : Bool) (def_ cap : DeintCaps) : DeintCaps :=
  let dev := if hwdec then env.GPU else env.CPU
  let glChecked := !def_.supports dev || cap.supports env.OpenGL
  let gpuChecked := hwdec && cap.supports env.GPU
  let c1 : DeintCaps := { cap with m_device := def_.m_device }
  let c2 : DeintCaps :=
    if !glChecked then { c1 with m_device := CInt.and c1.m_device (CInt.not env.OpenGL) } else c1
  if !gpuChecked then { c2 with m_device := CInt.and c2.m_device (CInt.not env.GPU) } else c2

/-- The constructor (lines 21-104): the loops, then `update(DeintMethod::Bob)`. -/
def construct (env : Decls) (r : Record) (decoder : Int) : Option Data :=
  update env (constructLoops env r decoder) env.Bob

/-- The call `d->combo->setCurrentData(data)` with the lambda of lines 80-83 connected to
`currentDataChanged`. Modelled from the spec: `DataComboBox::setCurrentData` of
`datacombobox.hpp` makes the first item that holds `data` the current one; when the current
index changes, `currentDataChanged` is emitted with the data of the new current item and the
lambda runs `update` on it. -/
def comboSetCurrentData (env : Decls) (d : Data) (data : Int) : Option Data :=
  let idx := d.combo.findData data
  if idx < 0 then some d
  else if idx = d.combo.currentIndex then some d
  else
    let d := { d with combo := { d.combo with currentIndex := idx } }
    update env d d.combo.currentData_toInt

/-- The member `DeintWidget::set` (lines 115-119). -/
def set (env : Decls) (d : Data) (caps : DeintCaps) : Option Data :=
  -- (d->caps[caps.method()] = caps).m_decoder = (int)d->decoder;
  let d := { d with caps := (d.caps.modify env.ctor caps.method
              (fun _ => { caps with m_decoder := d.decoder })) }
  comboSetCurrentData env d caps.method

/-- The member `DeintWidget::get` (lines 121-124): the value of `d->current()`, and the state
after evaluating the reference `caps[...]`. -/
def get (env : Decls) (d : Data) : DeintCaps × Data :=
  (d.caps.ref env.ctor d.currentKey,
    { d with caps := d.caps.subscript env.ctor d.currentKey })

/-- The destructor (lines 106-113): the record after the write. -/
def destruct (env : Decls) (d : Data) (r : Record) : Record :=
  let tokens := d.caps.values.map env.toString
  Record.write r tokens (env.DecoderDeviceInfo_name d.decoder)

/-- What happens to a constructed widget before it is destroyed: a call of `set` or of `get`,
a change of the combo selection to an index (the combo emits `currentDataChanged` with the data
of the item then current, and the lambda of lines 80-83 runs `update` on it), or a `toggled` of
one of the three check boxes with its new checked state (the slot of lines 84-102 runs). -/
inductive Action where
  | callSet (caps : DeintCaps)
  | callGet
  | select (index : Int)
  | toggleGl (on_ : Bool)
  | toggleGpu (on_ : Bool)
  | toggleDoubler (on_ : Bool)
deriving DecidableEq, Repr

/-- The state after one action; `none` when the `update` it runs has no defined result. -/
def perform (env : Decls) (d : Data) : Action → Option Data
  | .callSet caps => set env d caps
  | .callGet => some (get env d).2
  | .select index =>
      let d := { d with combo := { d.combo with currentIndex := index } }
      update env d d.combo.currentData_toInt
  | .toggleGl on_ => some (onGlToggled env { d with gl := { d.gl with checked := on_ } } on_)
  | .toggleGpu on_ => some (onGpuToggled env { d with gpu := { d.gpu with checked := on_ } } on_)
  | .toggleDoubler on_ =>
      some (onDoublerToggled env { d with doubler := { d.doubler with checked := on_ } } on_)

/-- The state after a sequence of actions. -/
def performAll (env : Decls) (d : Data) : List Action → Option Data
  | [] => some d
  | a :: rest =>
      match perform env d a with
      | some d2 => performAll env d2 rest
      | none => none

/-- An entry of the map is settled for `decoder` when it is stored under its own method and
carries `decoder` in `m_decoder` if a default of its method is available and matches the
decoder, or when it has the method and `m_decoder` of a default-constructed `DeintCaps()` (a
record that `caps[key]` inserted, whose device mask and doubler flag may have been written). -/
def Settled (env : Decls) (decoder : Int) (e : Int × DeintCaps) : Prop :=
  (e.2.method = e.1
    ∧ ∀ c0 ∈ env.list, accepts env (decide (decoder = env.DecoderDevice_GPU)) c0 = true →
        c0.method = e.2.method → e.2.m_decoder = decoder)
  ∨ (e.2.m_method = env.ctor.m_method ∧ e.2.m_decoder = env.ctor.m_decoder)

/-- The state is that of a widget for `decoder` whose map is in key order with settled
entries. -/
def Consistent (env : Decls) (decoder : Int) (d : Data) : Prop :=
  d.decoder = decoder ∧ d.caps.WF ∧ ∀ e ∈ d.caps.entries, Settled env decoder e

end DeintWidget

/-! ## Concrete tables and declarations used to evaluate the definitions -/

/-- A table for each enumeration that lists the enumerators in declaration order, with
distinct names and data. -/
def sampleInfo : (t : EnumTag) → EnumInfo.ItemList t
  | .DeintMode =>
      ⟨[⟨DeintMode.None, "None", "off", QVariant.ofInt 0⟩,
        ⟨DeintMode.Auto, "Auto", "auto", QVariant.ofInt 1⟩], rfl⟩
  | .StaysOnTop =>
      ⟨[⟨StaysOnTop.None, "None", "off", QVariant.ofInt 0⟩,
        ⟨StaysOnTop.Playing, "Playing", "playing", QVariant.ofInt 1⟩,
        ⟨StaysOnTop.Always, "Always", "always", QVariant.ofInt 2⟩], rfl⟩
  | .SubtitleAutoselect =>
      ⟨[⟨SubtitleAutoselect.Matched, "Matched", "", QVariant.ofInt 0⟩,
        ⟨SubtitleAutoselect.First, "First", "", QVariant.ofInt 1⟩,
        ⟨SubtitleAutoselect.All, "All", "", QVariant.ofInt 2⟩,
        ⟨SubtitleAutoselect.EachLanguage, "EachLanguage", "", QVariant.ofInt 3⟩], rfl⟩
  | .VerticalAlignment =>
      ⟨[⟨VerticalAlignment.Top, "Top", "top", (⟨32⟩ : QtAlignment)⟩,
        ⟨VerticalAlignment.Center, "Center", "v-center", (⟨128⟩ : QtAlignment)⟩,
        ⟨VerticalAlignment.Bottom, "Bottom", "bottom", (⟨64⟩ : QtAlignment)⟩], rfl⟩

/-- The number a non-empty list of decimal digits spells. -/
def decimalValue (cs : List Char) : Option Nat :=
  if cs ≠ [] ∧ cs.all Char.isDigit = true then
    some (cs.foldl (fun n c => 10 * n + (c.toNat - 48)) 0)
  else none

/-- The integer a string spells in decimal, with an optional sign. -/
def spelledInt (s : QString) : Option Int :=
  match s.data with
  | '-' :: cs => (decimalValue cs).map (fun n => -(n : Int))
  | '+' :: cs => (decimalValue cs).map (fun n => (n : Int))
  | cs => (decimalValue cs).map (fun n => (n : Int))

/-- A comparison of variants to evaluate `fromData` with, after the description of
`QVariant::operator==` in the Qt 5 documentation: variants of the same type are compared by
content; when the types differ, the right operand is converted to the type of the left one (a
string to the integer it spells, an integer to its decimal spelling) and the comparison is
false when there is no such conversion. The theorems on `fromData` do not depend on it. -/
def sampleEq : QVariant → QVariant → Bool
  | .invalid, .invalid => true
  | .ofInt a, .ofInt b => decide (a = b)
  | .ofString a, .ofString b => decide (a = b)
  | .ofInt a, .ofString s => decide (spelledInt s = some a)
  | .ofString s, .ofInt b => decide (s = toString b)
  | _, _ => false

/-- Declarations to evaluate the widget on: `DeintDevice` flags `CPU = 1`, `GPU = 2`,
`OpenGL = 4`; `DecoderDevice` flags `CPU = 1`, `GPU = 2`; `Bob = 1`; a capability is available
when no field is negative and its device mask is not empty; `hwdec()`/`swdec()` test the GPU/CPU
bit of `m_decoder`; a token spells the four fields in unary (`m`, `d`, `v`, and `x` for the
doubler). `list()` holds one default per method `0 .. 3`, indexed by method: method `0` without
any device, `Bob` for hardware decoding only, methods `2` and `3` for both decoders. -/
def sampleDecls : Decls where
  GPU := 2
  CPU := 1
  OpenGL := 4
  DecoderDevice_GPU := 2
  Bob := 1
  ctor := ⟨0, 0, 0, false⟩
  isAvailable := fun c =>
    decide (0 ≤ c.m_method) && decide (0 ≤ c.m_decoder) && decide (0 < c.m_device)
  hwdec := fun c => decide (CInt.and c.m_decoder 2 ≠ 0)
  swdec := fun c => decide (CInt.and c.m_decoder 1 ≠ 0)
  fromString := fun s =>
    ⟨(s.data.count 'm' : Nat), (s.data.count 'd' : Nat), (s.data.count 'v' : Nat),
      decide ('x' ∈ s.data)⟩
  toString := fun c =>
    String.mk (List.replicate c.m_method.toNat 'm' ++ List.replicate c.m_decoder.toNat 'd'
      ++ List.replicate c.m_device.toNat 'v' ++ (if c.m_doubler then ['x'] else []))
  list := [⟨0, 0, 0, false⟩, ⟨1, 2, 3, true⟩, ⟨2, 3, 5, false⟩, ⟨3, 3, 7, true⟩]
  DecoderDeviceInfo_name := fun dec => if dec = 2 then "GPU" else if dec = 1 then "CPU" else ""
  DeintMethodInfo_name := fun m =>
    if m = 1 then "Bob" else if m = 2 then "LinearBob" else if m = 3 then "CubicBob" else ""

/-- The declarations `sampleDecls` with the availability test of a capability whose method,
decoder mask and device mask are all positive: a default-constructed `DeintCaps()` is
unavailable whatever its device mask and doubler flag, and a token of an unavailable capability
parses to an unavailable capability. -/
def persistDecls : Decls :=
  { sampleDecls with
    isAvailable := fun c =>
      decide (0 < c.m_method) && decide (0 < c.m_decoder) && decide (0 < c.m_device) }

/-- The empty record: no tokens under any key. -/
def emptyRecord : Record := fun _ => []

/-- A record that holds, for the software decoder, one token of method `0` (decoder `1`, device
`1`, doubler set) and one of method `2` (decoder `1`, device `4`). -/
def sampleRecord : Record := fun key => if key = "CPU" then ["dvx", "mmdvvvv"] else []

/-- A record that holds, for the GPU decoder, one token of method `Bob` whose device mask `7`
has the OpenGL bit, which the `Bob` default of `sampleDecls` (mask `3`) lacks. -/
def openglRecord : Record := fun key => if key = "GPU" then ["mddvvvvvvv"] else []

/-- The widget state after the constructor loops for the software decoder on `sampleRecord`. -/
def sampleData : DeintWidget.Data := DeintWidget.constructLoops sampleDecls sampleRecord 1

/-- A `DeintMode` table in declaration order whose two items carry the same data, the invalid
`QVariant()`. -/
def sameDataInfo : EnumInfo.ItemList EnumTag.DeintMode :=
  ⟨[⟨DeintMode.None, "None", "off", QVariant.invalid⟩,
    ⟨DeintMode.Auto, "Auto", "auto", QVariant.invalid⟩], rfl⟩

/-- A `DeintMode` table in declaration order whose two items carry data of different types
that compare equal after conversion: `QVariant(1)` and `QVariant("1")`. -/
def convertedDataInfo : EnumInfo.ItemList EnumTag.DeintMode :=
  ⟨[⟨DeintMode.None, "None", "off", QVariant.ofInt 1⟩,
    ⟨DeintMode.Auto, "Auto", "auto", QVariant.ofString "1"⟩], rfl⟩

/-! ## Theorems: the enumeration metadata -/

namespace EnumInfo

theorem find_if_eq_findIdx {α : Type} (p : α → Bool) (l : List α) :
    find_if p l = l.findIdx p := by
  induction l with
  | nil => rfl
  | cons x xs ih =>
    simp only [find_if, List.findIdx_cons, ih]
    cases p x <;> simp

theorem find_if_le_length {α : Type} (p : α → Bool) (l : List α) : find_if p l ≤ l.length := by
  rw [find_if_eq_findIdx]; exact List.findIdx_le_length p

/-- What `find_if` followed by the dereference returns: the value of the first item satisfying
`p`, at the position `find_if` reports, or `def_` when no item satisfies `p`. -/
theorem deref_find_if {t : EnumTag} (info : ItemList t) (p : Item t → Bool) (def_ : Enum t) :
    (∃ (i : Nat) (h : i < info.items.length),
        find_if p info.items = i ∧
        p (info.items.get ⟨i, h⟩) = true ∧
        (∀ (j : Nat) (hj : j < info.items.length), j < i → p (info.items.get ⟨j, hj⟩) = false) ∧
        find_deref info p def_ = (info.items.get ⟨i, h⟩).value)
    ∨ (find_if p info.items = info.items.length ∧
        (∀ item ∈ info.items, p item = false) ∧
        find_deref info p def_ = def_) := by
  by_cases hlt : find_if p info.items < info.items.length
  · left
    refine ⟨find_if p info.items, hlt, rfl, ?_, ?_, ?_⟩
    · have h2 : List.findIdx p info.items < info.items.length := by
        rw [← find_if_eq_findIdx]; exact hlt
      have := @List.findIdx_getElem _ p info.items h2
      simpa [find_if_eq_findIdx] using this
    · intro j hj hji
      have hji2 : j < List.findIdx p info.items := by rw [← find_if_eq_findIdx]; exact hji
      have := List.not_of_lt_findIdx hji2
      simpa using this
    · unfold find_deref
      simp only
      rw [dif_pos (Nat.ne_of_lt hlt)]
  · right
    have hle := find_if_le_length p info.items
    have heq : find_if p info.items = info.items.length := by omega
    refine ⟨heq, ?_, ?_⟩
    · intro item hitem
      by_contra hp
      have hp2 : p item = true := by simpa using hp
      have : List.findIdx p info.items < info.items.length :=
        List.findIdx_lt_length.mpr ⟨item, hitem, hp2⟩
      rw [← find_if_eq_findIdx] at this
      omega
    · unfold find_deref
      simp only
      rw [dif_neg (by rw [heq]; exact fun hh => hh rfl)]

theorem find_deref_of_find_if {t : EnumTag} (info : ItemList t) (p : Item t → Bool)
    (def_ : Enum t) (i : Nat) (h : i < info.items.length) (hi : find_if p info.items = i) :
    find_deref info p def_ = (info.items.get ⟨i, h⟩).value := by
  subst hi
  unfold find_deref
  simp only
  rw [dif_pos (Nat.ne_of_lt h)]

theorem size_eq_arraySize (t : EnumTag) : size t = (arraySize t : Int) := by
  cases t <;> rfl

theorem mem_enumerators_iff (t : EnumTag) (e : Enum t) :
    e ∈ enumerators t ↔ 0 ≤ e.val ∧ e.val < size t := by
  obtain ⟨v⟩ := e
  cases t <;>
    simp only [enumerators, size, DeintMode.None, DeintMode.Auto, StaysOnTop.None,
      StaysOnTop.Playing, StaysOnTop.Always, SubtitleAutoselect.Matched,
      SubtitleAutoselect.First, SubtitleAutoselect.All, SubtitleAutoselect.EachLanguage,
      VerticalAlignment.Top, VerticalAlignment.Center, VerticalAlignment.Bottom,
      List.mem_cons, List.mem_singleton, Enum.mk.injEq, List.mem_nil_iff, or_false] <;>
    omega

theorem item_eq_some_iff {t : EnumTag} (info : ItemList t) (e : Enum t) :
    (item info e).isSome = true ↔ 0 ≤ e.val ∧ e.val < size t := by
  unfold item
  split
  · rename_i h
    simp only [Enum.int_le, Enum.lt_int, decide_eq_true_eq] at h
    simpa using h
  · rename_i h
    simp only [Enum.int_le, Enum.lt_int, decide_eq_true_eq] at h
    simpa using h

theorem item_eq_get? {t : EnumTag} (info : ItemList t) (e : Enum t)
    (h : 0 ≤ e.val ∧ e.val < size t) : item info e = info.items.get? e.val.toNat := by
  have hlt : e.val.toNat < info.items.length := by
    rw [info.length_eq]
    have := size_eq_arraySize t
    omega
  unfold item
  rw [dif_pos (by simpa [Enum.int_le, Enum.lt_int] using h)]
  simp [List.get?_eq_get hlt]

theorem item_eq_none {t : EnumTag} (info : ItemList t) (e : Enum t)
    (h : ¬ (0 ≤ e.val ∧ e.val < size t)) : item info e = none := by
  unfold item
  rw [dif_neg (by simpa [Enum.int_le, Enum.lt_int] using h)]

theorem layout_value {t : EnumTag} (info : ItemList t) (hl : Layout info) (i : Nat)
    (h : i < info.items.length) : (info.items.get ⟨i, h⟩).value.val = (i : Int) := by
  have hlen := info.length_eq
  have hsz := size_eq_arraySize t
  have he : (⟨(i : Int)⟩ : Enum t) ∈ enumerators t := by
    rw [mem_enumerators_iff]
    simp only
    omega
  have := hl _ he
  simp only [Int.toNat_ofNat, List.get?_eq_get h, Option.map_some'] at this
  have h2 := congrArg Enum.val (Option.some.inj this)
  simpa using h2

/-- What `from(id, def)` returns, as a case distinction on the table. -/
theorem from_int_cases {t : EnumTag} (info : ItemList t) (id : Int) (def_ : Enum t) :
    (∃ (i : Nat) (h : i < info.items.length),
        (info.items.get ⟨i, h⟩).value.val = id ∧
        from_ info id def_ = (info.items.get ⟨i, h⟩).value)
    ∨ ((∀ item ∈ info.items, item.value.val ≠ id) ∧ from_ info id def_ = def_) := by
  have key := deref_find_if info (fun item : Item t => Enum.eq_int item.value id) def_
  have hfrom : from_ info id def_ =
      find_deref info (fun item : Item t => Enum.eq_int item.value id) def_ :=
    rfl
  rcases key with ⟨i, h, _, hp, _, hres⟩ | ⟨_, hnone, hres⟩
  · left
    exact ⟨i, h, by simpa [Enum.eq_int] using hp, by rw [hfrom, hres]⟩
  · right
    refine ⟨?_, by rw [hfrom, hres]⟩
    intro item hitem
    simpa [Enum.eq_int] using hnone item hitem

/-- C1: for each of the four specialisations, every `id` and every `def`, `from(id, def)` is
the value of the first table item whose value equals `id` when there is one, and `def` when no
item has that value; so the result is `def` or has integer value `id`. -/
theorem from_int_first_match_or_default (t : EnumTag) (info : ItemList t) (id : Int)
    (def_ : Enum t) :
    ((∃ (i : Nat) (h : i < info.items.length),
        (info.items.get ⟨i, h⟩).value.val = id ∧
        (∀ (j : Nat) (hj : j < info.items.length), j < i →
          (info.items.get ⟨j, hj⟩).value.val ≠ id) ∧
        from_ info id def_ = (info.items.get ⟨i, h⟩).value)
      ∨ ((∀ item ∈ info.items, item.value.val ≠ id) ∧ from_ info id def_ = def_))
    ∧ (from_ info id def_ = def_ ∨ (from_ info id def_).val = id) := by
  have key := deref_find_if info (fun item : Item t => Enum.eq_int item.value id) def_
  have hfrom : from_ info id def_ =
      find_deref info (fun item : Item t => Enum.eq_int item.value id) def_ :=
    rfl
  rcases key with ⟨i, h, _, hp, hbefore, hres⟩ | ⟨_, hnone, hres⟩
  · have hval : (info.items.get ⟨i, h⟩).value.val = id := by
      simpa [Enum.eq_int] using hp
    refine ⟨Or.inl ⟨i, h, hval, ?_, ?_⟩, Or.inr ?_⟩
    · intro j hj hji
      have := hbefore j hj hji
      simpa [Enum.eq_int] using this
    · rw [hfrom, hres]
    · rw [hfrom, hres, hval]
  · refine ⟨Or.inr ⟨?_, ?_⟩, Or.inl ?_⟩
    · intro item hitem
      have := hnone item hitem
      simpa [Enum.eq_int] using this
    · rw [hfrom, hres]
    · rw [hfrom, hres]

/-- C2: on a table that holds each declared enumerator at the index equal to its integer value,
for every declared enumerator `e` and every `def`: `from((int)e, def) = e`, `item(e)` is
non-null with `item(e)->value = e`, and the linear search of `from((int)e)` stops at the entry
`item(e)` points to. -/
theorem from_int_cast_roundtrip (t : EnumTag) (info : ItemList t) (hl : Layout info)
    (e : Enum t) (he : e ∈ enumerators t) (def_ : Enum t) :
    from_ info e.val def_ = e
    ∧ (item info e).map Item.value = some e
    ∧ find_if (fun item : Item t => Enum.eq_int item.value e.val) info.items = e.val.toNat
    ∧ item info e =
        info.items.get? (find_if (fun item : Item t => Enum.eq_int item.value e.val) info.items)
    := by
  have hrange := (mem_enumerators_iff t e).mp he
  have hitem := item_eq_get? info e hrange
  have hfind : find_if (fun item : Item t => Enum.eq_int item.value e.val) info.items
      = e.val.toNat := by
    have key := deref_find_if info (fun item : Item t => Enum.eq_int item.value e.val) def_
    have hlt : e.val.toNat < info.items.length := by
      rw [info.length_eq]
      have := size_eq_arraySize t
      omega
    have hat := layout_value info hl e.val.toNat hlt
    rcases key with ⟨i, h, hi, hp, hbefore, _⟩ | ⟨_, hnone, _⟩
    · rw [hi]
      have hv : (info.items.get ⟨i, h⟩).value.val = e.val := by simpa [Enum.eq_int] using hp
      have := layout_value info hl i h
      omega
    · exfalso
      have := hnone _ (List.get_mem info.items e.val.toNat hlt)
      simp only [Enum.eq_int, decide_eq_false_iff_not] at this
      apply this
      rw [hat]
      omega
  have hmap : (item info e).map Item.value = some e := by
    rw [hitem]
    exact hl e he
  refine ⟨?_, hmap, hfind, ?_⟩
  · have h1 := from_int_cases info e.val def_
    rcases h1 with ⟨i, h, hv, hres⟩ | ⟨hnone, _⟩
    · rw [hres]
      cases hx : (info.items.get ⟨i, h⟩).value
      rw [hx] at hv
      cases e
      simp_all
    · exfalso
      rw [hitem] at hmap
      cases hg : info.items.get? e.val.toNat with
      | none => rw [hg] at hmap; simp at hmap
      | some it =>
        rw [hg] at hmap
        have hmem : it ∈ info.items := List.get?_mem hg
        have hv : it.value = e := by simpa using hmap
        exact hnone it hmem (by rw [hv])
  · rw [hfind, hitem]

/-- Evaluation of C2 on the sample `StaysOnTop` table at `Always`. -/
theorem from_int_cast_roundtrip_witness :
    Layout (sampleInfo EnumTag.StaysOnTop)
    ∧ StaysOnTop.Always ∈ enumerators EnumTag.StaysOnTop
    ∧ from_ (sampleInfo EnumTag.StaysOnTop) StaysOnTop.Always.val StaysOnTop.None
        = StaysOnTop.Always
    ∧ (item (sampleInfo EnumTag.StaysOnTop) StaysOnTop.Always).map Item.value
        = some StaysOnTop.Always
    ∧ find_if (fun item : Item EnumTag.StaysOnTop => Enum.eq_int item.value StaysOnTop.Always.val)
        (sampleInfo EnumTag.StaysOnTop).items = StaysOnTop.Always.val.toNat
    ∧ item (sampleInfo EnumTag.StaysOnTop) StaysOnTop.Always =
        (sampleInfo EnumTag.StaysOnTop).items.get?
          (find_if (fun item : Item EnumTag.StaysOnTop =>
            Enum.eq_int item.value StaysOnTop.Always.val) (sampleInfo EnumTag.StaysOnTop).items) :=
  ⟨by decide, by decide,
    from_int_cast_roundtrip EnumTag.StaysOnTop (sampleInfo EnumTag.StaysOnTop) (by decide)
      StaysOnTop.Always (by decide) StaysOnTop.None⟩

/-- C4: an `id` that is the value of no table item makes `from(id)`, called with the default
argument, return `default_()`; `default_()` is `Auto`, `Playing`, `Matched`, `Center`; it is a
declared enumerator that `item()` accepts, and `from((int)default_()) = default_()`. -/
theorem from_unknown_id_is_default (t : EnumTag) (info : ItemList t) (id : Int)
    (hid : ∀ item ∈ info.items, item.value.val ≠ id) :
    from_default_arg info id = default_ t
    ∧ (default_ EnumTag.DeintMode = DeintMode.Auto
        ∧ default_ EnumTag.StaysOnTop = StaysOnTop.Playing
        ∧ default_ EnumTag.SubtitleAutoselect = SubtitleAutoselect.Matched
        ∧ default_ EnumTag.VerticalAlignment = VerticalAlignment.Center)
    ∧ default_ t ∈ enumerators t
    ∧ (item info (default_ t)).isSome = true
    ∧ from_default_arg info (default_ t).val = default_ t := by
  have hmem : default_ t ∈ enumerators t := by cases t <;> decide
  refine ⟨?_, ⟨rfl, rfl, rfl, rfl⟩, hmem, ?_, ?_⟩
  · rcases from_int_cases info id (default_ t) with ⟨i, h, hv, _⟩ | ⟨_, hres⟩
    · exact absurd hv (hid _ (List.get_mem info.items i h))
    · exact hres
  · rw [item_eq_some_iff]
    exact (mem_enumerators_iff t _).mp hmem
  · unfold from_default_arg
    rcases from_int_cases info (default_ t).val (default_ t) with ⟨i, h, hv, hres⟩ | ⟨_, hres⟩
    · rw [hres]
      cases hx : (info.items.get ⟨i, h⟩).value
      rw [hx] at hv
      cases hd : default_ t
      rw [hd] at hv
      simp_all
    · exact hres

/-- Evaluation of C4 on the sample `SubtitleAutoselect` table at the unknown id `7`. -/
theorem from_unknown_id_is_default_witness :
    (∀ item ∈ (sampleInfo EnumTag.SubtitleAutoselect).items, item.value.val ≠ 7)
    ∧ from_default_arg (sampleInfo EnumTag.SubtitleAutoselect) 7 = SubtitleAutoselect.Matched :=
  ⟨by decide,
    (from_unknown_id_is_default EnumTag.SubtitleAutoselect
      (sampleInfo EnumTag.SubtitleAutoselect) 7 (by decide)).1⟩

theorem compare_eq_zero_iff (a b : QString) : QString.compare a b = 0 ↔ a = b := by
  unfold QString.compare
  by_cases h : a = b
  · simp [h]
  · simp only [h, if_false, iff_false]
    split <;> decide

/-- In a list whose images under `f` are pairwise distinct, the linear search for the image of
the element at index `i` stops at `i`. -/
theorem find_if_of_nodup {α β : Type} [DecidableEq β] (f : α → β) (l : List α)
    (hn : (l.map f).Nodup) (i : Nat) (hi : i < l.length) :
    find_if (fun x => decide (f x = f (l.get ⟨i, hi⟩))) l = i := by
  induction l generalizing i with
  | nil => simp at hi
  | cons x xs ih =>
    rw [List.map_cons, List.nodup_cons] at hn
    cases i with
    | zero => simp [find_if]
    | succ k =>
      have hk : k < xs.length := by simpa using hi
      have hne : f x ≠ f (xs.get ⟨k, hk⟩) := by
        intro heq
        apply hn.1
        rw [heq]
        exact List.mem_map_of_mem f (List.get_mem xs k hk)
      have := ih hn.2 k hk
      have hd : decide (f x = f (xs.get ⟨k, hk⟩)) = false := by simpa using hne
      simp only [find_if, List.get_cons_succ]
      rw [hd, this]
      simp

/-- C5: for every string `s` and every `def`, `from(s, def)` is the value of the first table
item whose name equals `s` exactly (the comparison distinguishes case) and `def` when no item
has that name; hence `from(name(e), def) = e` for a declared `e` whenever the item names are
pairwise distinct and the table lists `e` at index `(int)e`. -/
theorem from_name_first_match_or_default (t : EnumTag) (info : ItemList t) (def_ : Enum t) :
    (∀ s : QString,
      (∃ (i : Nat) (h : i < info.items.length),
          (info.items.get ⟨i, h⟩).name = s ∧
          (∀ (j : Nat) (hj : j < info.items.length), j < i →
            (info.items.get ⟨j, hj⟩).name ≠ s) ∧
          from_QString info s def_ = (info.items.get ⟨i, h⟩).value)
      ∨ ((∀ item ∈ info.items, item.name ≠ s) ∧ from_QString info s def_ = def_))
    ∧ ((∀ a b : QString, QString.compare a b = 0 ↔ a = b) ∧ QString.compare "auto" "Auto" ≠ 0)
    ∧ (∀ e ∈ enumerators t,
        (info.items.map Item.name).Nodup →
        (info.items.get? e.val.toNat).map Item.value = some e →
        from_QString info (name info e) def_ = e) := by
  have hspec : ∀ s : QString,
      (∃ (i : Nat) (h : i < info.items.length),
          (info.items.get ⟨i, h⟩).name = s ∧
          (∀ (j : Nat) (hj : j < info.items.length), j < i →
            (info.items.get ⟨j, hj⟩).name ≠ s) ∧
          from_QString info s def_ = (info.items.get ⟨i, h⟩).value)
      ∨ ((∀ item ∈ info.items, item.name ≠ s) ∧ from_QString info s def_ = def_) := by
    intro s
    have key := deref_find_if info
      (fun item : Item t => decide (QString.compare s item.name = 0)) def_
    have hfrom : from_QString info s def_ = find_deref info
        (fun item : Item t => decide (QString.compare s item.name = 0)) def_ := rfl
    rcases key with ⟨i, h, _, hp, hbefore, hres⟩ | ⟨_, hnone, hres⟩
    · left
      refine ⟨i, h, ?_, ?_, ?_⟩
      · have := (compare_eq_zero_iff _ _).mp (of_decide_eq_true hp)
        exact this.symm
      · intro j hj hji hname
        have := hbefore j hj hji
        rw [decide_eq_false_iff_not, compare_eq_zero_iff] at this
        exact this hname.symm
      · rw [hfrom, hres]
    · right
      refine ⟨?_, ?_⟩
      · intro item hitem hname
        have := hnone item hitem
        rw [decide_eq_false_iff_not, compare_eq_zero_iff] at this
        exact this hname.symm
      · rw [hfrom, hres]
  refine ⟨hspec, ⟨compare_eq_zero_iff, by rw [Ne, compare_eq_zero_iff]; decide⟩, ?_⟩
  intro e he hnodup hlists
  have hrange := (mem_enumerators_iff t e).mp he
  have hlt : e.val.toNat < info.items.length := by
    rw [info.length_eq]
    have := size_eq_arraySize t
    omega
  have hitem : item info e = some (info.items.get ⟨e.val.toNat, hlt⟩) := by
    rw [item_eq_get? info e hrange, List.get?_eq_get hlt]
  have hname : name info e = (info.items.get ⟨e.val.toNat, hlt⟩).name := by
    simp [name, hitem]
  have hvalue : (info.items.get ⟨e.val.toNat, hlt⟩).value = e := by
    rw [List.get?_eq_get hlt] at hlists
    simpa using hlists
  have hfind := find_if_of_nodup Item.name info.items hnodup e.val.toNat hlt
  have hpred : (fun item : Item t => decide (QString.compare (name info e) item.name = 0))
      = (fun item : Item t =>
          decide (item.name = (info.items.get ⟨e.val.toNat, hlt⟩).name)) := by
    funext item
    rw [hname]
    apply Bool.eq_iff_iff.mpr
    simp only [decide_eq_true_eq, compare_eq_zero_iff]
    exact eq_comm
  have hfrom : from_QString info (name info e) def_ = find_deref info
      (fun item : Item t => decide (QString.compare (name info e) item.name = 0)) def_ := rfl
  rw [hfrom, hpred, find_deref_of_find_if info _ def_ e.val.toNat hlt hfind]
  exact hvalue

/-- Evaluation of C5 on the sample `VerticalAlignment` table at `Bottom`. -/
theorem from_name_first_match_or_default_witness :
    VerticalAlignment.Bottom ∈ enumerators EnumTag.VerticalAlignment
    ∧ ((sampleInfo EnumTag.VerticalAlignment).items.map Item.name).Nodup
    ∧ ((sampleInfo EnumTag.VerticalAlignment).items.get? VerticalAlignment.Bottom.val.toNat).map
        Item.value = some VerticalAlignment.Bottom
    ∧ from_QString (sampleInfo EnumTag.VerticalAlignment)
        (name (sampleInfo EnumTag.VerticalAlignment) VerticalAlignment.Bottom)
        VerticalAlignment.Top = VerticalAlignment.Bottom :=
  ⟨by decide, by decide, by decide,
    (from_name_first_match_or_default EnumTag.VerticalAlignment
      (sampleInfo EnumTag.VerticalAlignment) VerticalAlignment.Top).2.2
      VerticalAlignment.Bottom (by decide) (by decide) (by decide)⟩

/-- C6 as stated fails: on a `DeintMode` table in declaration order whose two items carry the
same data, `fromData(data(Auto), None)` is `None`, the first item whose data compares equal,
not `Auto`; this holds for `QVariant()` in both items under every comparison with
`QVariant() == QVariant()`, and for the data `QVariant(1)` and `QVariant("1")` under a
comparison that converts. -/
theorem fromData_roundtrip_fails_on_equal_data :
    Layout sameDataInfo
    ∧ DeintMode.Auto ∈ enumerators EnumTag.DeintMode
    ∧ (∀ veq : QVariant → QVariant → Bool, veq QVariant.invalid QVariant.invalid = true →
        fromData veq sameDataInfo (data sameDataInfo DeintMode.Auto) DeintMode.None
          = DeintMode.None)
    ∧ fromData sampleEq sameDataInfo (data sameDataInfo DeintMode.Auto) DeintMode.None
        = DeintMode.None
    ∧ Layout convertedDataInfo
    ∧ fromData sampleEq convertedDataInfo (data convertedDataInfo DeintMode.Auto) DeintMode.None
        = DeintMode.None
    ∧ ¬ (∀ (t : EnumTag) (info : ItemList t) (e : Enum t), e ∈ enumerators t →
          ∀ def_ : Enum t, fromData sampleEq info (data info e) def_ = e) := by
  have hall : ∀ veq : QVariant → QVariant → Bool, veq QVariant.invalid QVariant.invalid = true →
      fromData veq sameDataInfo (data sameDataInfo DeintMode.Auto) DeintMode.None
        = DeintMode.None := by
    intro veq hveq
    have hdata : data sameDataInfo DeintMode.Auto = QVariant.invalid := by decide
    rw [hdata]
    show find_deref sameDataInfo
      (fun item : Item EnumTag.DeintMode => veq item.data QVariant.invalid) DeintMode.None = _
    have hfind : find_if (fun item : Item EnumTag.DeintMode => veq item.data QVariant.invalid)
        sameDataInfo.items = 0 := by
      show (if veq QVariant.invalid QVariant.invalid = true then 0 else _) = 0
      rw [if_pos hveq]
    rw [find_deref_of_find_if sameDataInfo _ DeintMode.None 0 (by decide) hfind]
    rfl
  have hsame := hall sampleEq rfl
  refine ⟨by decide, by decide, hall, hsame, by decide, by decide, ?_⟩
  intro h
  have h2 := h EnumTag.DeintMode sameDataInfo DeintMode.Auto (by decide) DeintMode.None
  rw [hsame] at h2
  revert h2
  decide

/-- C6, amended: `fromData(d, def)` is the value of the first table item whose data compares
equal to `d` (`item.data == d`) and `def` when there is none; for a declared enumerator `e`,
`fromData(data(e), def) = e` whenever the table lists `e` at index `(int)e`, `data(e)` compares
equal to itself and the data of no item before that index compares equal to `data(e)`. This
holds for whatever `QVariant::operator==` computes. -/
theorem fromData_data_roundtrip (veq : QVariant → QVariant → Bool) (t : EnumTag)
    (info : ItemList t) (def_ : Enum t) :
    (∀ d : Data t,
      (∃ (i : Nat) (h : i < info.items.length),
          Data.eq veq t (info.items.get ⟨i, h⟩).data d = true ∧
          (∀ (j : Nat) (hj : j < info.items.length), j < i →
            Data.eq veq t (info.items.get ⟨j, hj⟩).data d = false) ∧
          fromData veq info d def_ = (info.items.get ⟨i, h⟩).value)
      ∨ ((∀ item ∈ info.items, Data.eq veq t item.data d = false)
          ∧ fromData veq info d def_ = def_))
    ∧ (∀ e ∈ enumerators t,
        (info.items.get? e.val.toNat).map Item.value = some e →
        Data.eq veq t (data info e) (data info e) = true →
        (∀ (j : Nat) (hj : j < info.items.length), j < e.val.toNat →
          Data.eq veq t (info.items.get ⟨j, hj⟩).data (data info e) = false) →
        fromData veq info (data info e) def_ = e) := by
  have hspec : ∀ d : Data t,
      (∃ (i : Nat) (h : i < info.items.length),
          Data.eq veq t (info.items.get ⟨i, h⟩).data d = true ∧
          (∀ (j : Nat) (hj : j < info.items.length), j < i →
            Data.eq veq t (info.items.get ⟨j, hj⟩).data d = false) ∧
          fromData veq info d def_ = (info.items.get ⟨i, h⟩).value)
      ∨ ((∀ item ∈ info.items, Data.eq veq t item.data d = false)
          ∧ fromData veq info d def_ = def_) := by
    intro d
    have key := deref_find_if info (fun item : Item t => Data.eq veq t item.data d) def_
    have hfrom : fromData veq info d def_ = find_deref info
        (fun item : Item t => Data.eq veq t item.data d) def_ := rfl
    rcases key with ⟨i, h, _, hp, hbefore, hres⟩ | ⟨_, hnone, hres⟩
    · left
      exact ⟨i, h, hp, hbefore, by rw [hfrom, hres]⟩
    · right
      exact ⟨hnone, by rw [hfrom, hres]⟩
  refine ⟨hspec, ?_⟩
  intro e he hlists hrefl hbefore
  have hrange := (mem_enumerators_iff t e).mp he
  have hlt : e.val.toNat < info.items.length := by
    rw [info.length_eq]
    have := size_eq_arraySize t
    omega
  have hitem : item info e = some (info.items.get ⟨e.val.toNat, hlt⟩) := by
    rw [item_eq_get? info e hrange, List.get?_eq_get hlt]
  have hdata : data info e = (info.items.get ⟨e.val.toNat, hlt⟩).data := by
    simp [data, hitem]
  have hvalue : (info.items.get ⟨e.val.toNat, hlt⟩).value = e := by
    rw [List.get?_eq_get hlt] at hlists
    simpa using hlists
  rcases hspec (data info e) with ⟨i, h, hp, hb, hres⟩ | ⟨hnone, _⟩
  · have hie : i = e.val.toNat := by
      rcases Nat.lt_trichotomy i e.val.toNat with hlt1 | heq | hgt
      · have := hbefore i h hlt1
        rw [this] at hp
        exact absurd hp (by decide)
      · exact heq
      · have := hb e.val.toNat hlt hgt
        rw [← hdata, hrefl] at this
        exact absurd this (by decide)
    subst hie
    rw [hres]
    exact hvalue
  · have := hnone (info.items.get ⟨e.val.toNat, hlt⟩) (List.get_mem _ _ _)
    rw [← hdata, hrefl] at this
    exact absurd this (by decide)

/-- Evaluation of the amended C6 on the sample `DeintMode` table at `Auto`, whose data
`QVariant(1)` differs from the `QVariant(0)` of the item before it. -/
theorem fromData_data_roundtrip_witness :
    DeintMode.Auto ∈ enumerators EnumTag.DeintMode
    ∧ ((sampleInfo EnumTag.DeintMode).items.get? DeintMode.Auto.val.toNat).map Item.value
        = some DeintMode.Auto
    ∧ Data.eq sampleEq EnumTag.DeintMode (data (sampleInfo EnumTag.DeintMode) DeintMode.Auto)
        (data (sampleInfo EnumTag.DeintMode) DeintMode.Auto) = true
    ∧ (∀ (j : Nat) (hj : j < (sampleInfo EnumTag.DeintMode).items.length),
        j < DeintMode.Auto.val.toNat →
        Data.eq sampleEq EnumTag.DeintMode ((sampleInfo EnumTag.DeintMode).items.get ⟨j, hj⟩).data
          (data (sampleInfo EnumTag.DeintMode) DeintMode.Auto) = false)
    ∧ fromData sampleEq (sampleInfo EnumTag.DeintMode)
        (data (sampleInfo EnumTag.DeintMode) DeintMode.Auto) DeintMode.None = DeintMode.Auto :=
  ⟨by decide, by decide, by decide, by decide,
    (fromData_data_roundtrip sampleEq EnumTag.DeintMode (sampleInfo EnumTag.DeintMode)
      DeintMode.None).2 DeintMode.Auto (by decide) (by decide) (by decide) (by decide)⟩

/-- C7: `description(v)` is `description((Enum)v)`; for each declared enumerator it is the
translation of a fixed non-empty source text (`None` gives "Off", `Auto` "Auto", `Always`
"Always", `Center` "Vertical Center", `All` "All loaded subtitles") and for every other `v`
the empty string; with the identity as translation, `description(v)` is empty exactly when
`item((Enum)v)` is null. -/
theorem description_empty_iff_item_null (t : EnumTag) (info : ItemList t)
    (tr : String → String → QString) :
    (∀ v : Int, description_int tr t v = description tr t (⟨v⟩ : Enum t))
    ∧ (description tr EnumTag.DeintMode DeintMode.None = tr "EnumInfo" "Off"
        ∧ description tr EnumTag.DeintMode DeintMode.Auto = tr "EnumInfo" "Auto"
        ∧ description tr EnumTag.StaysOnTop StaysOnTop.Always = tr "EnumInfo" "Always"
        ∧ description tr EnumTag.VerticalAlignment VerticalAlignment.Center
            = tr "EnumInfo" "Vertical Center"
        ∧ description tr EnumTag.SubtitleAutoselect SubtitleAutoselect.All
            = tr "EnumInfo" "All loaded subtitles")
    ∧ (∀ e ∈ enumerators t, ∃ text : String, text ≠ "" ∧
        ∀ tr2 : String → String → QString, description tr2 t e = tr2 "EnumInfo" text)
    ∧ (∀ v : Int, (⟨v⟩ : Enum t) ∉ enumerators t → description_int tr t v = "")
    ∧ (∀ v : Int, description_int (fun _ text => text) t v = "" ↔
        item info (⟨v⟩ : Enum t) = none) := by
  have h3 : ∀ e ∈ enumerators t, ∃ text : String, text ≠ "" ∧
      ∀ tr2 : String → String → QString, description tr2 t e = tr2 "EnumInfo" text := by
    intro e he
    cases t
    · simp only [enumerators, List.mem_cons, List.mem_singleton, List.mem_nil_iff,
        or_false] at he
      rcases he with rfl | rfl
      · exact ⟨"Off", by decide, fun _ => rfl⟩
      · exact ⟨"Auto", by decide, fun _ => rfl⟩
    · simp only [enumerators, List.mem_cons, List.mem_singleton, List.mem_nil_iff,
        or_false] at he
      rcases he with rfl | rfl | rfl
      · exact ⟨"Off", by decide, fun _ => rfl⟩
      · exact ⟨"Playing", by decide, fun _ => rfl⟩
      · exact ⟨"Always", by decide, fun _ => rfl⟩
    · simp only [enumerators, List.mem_cons, List.mem_singleton, List.mem_nil_iff,
        or_false] at he
      rcases he with rfl | rfl | rfl | rfl
      · exact ⟨"Subtitle which has the same name as that of playing file", by decide,
          fun _ => rfl⟩
      · exact ⟨"First subtitle from loaded ones", by decide, fun _ => rfl⟩
      · exact ⟨"All loaded subtitles", by decide, fun _ => rfl⟩
      · exact ⟨"Each language subtitle", by decide, fun _ => rfl⟩
    · simp only [enumerators, List.mem_cons, List.mem_singleton, List.mem_nil_iff,
        or_false] at he
      rcases he with rfl | rfl | rfl
      · exact ⟨"Top", by decide, fun _ => rfl⟩
      · exact ⟨"Vertical Center", by decide, fun _ => rfl⟩
      · exact ⟨"Bottom", by decide, fun _ => rfl⟩
  have h4 : ∀ (tr2 : String → String → QString) (v : Int),
      (⟨v⟩ : Enum t) ∉ enumerators t → description_int tr2 t v = "" := by
    intro tr2 v hv
    cases t <;>
      simp only [enumerators, List.mem_cons, List.mem_singleton, List.mem_nil_iff, or_false,
        not_or] at hv <;>
      simp [description_int, description, hv]
  refine ⟨fun _ => rfl, ⟨rfl, rfl, rfl, rfl, rfl⟩, h3, h4 tr, ?_⟩
  intro v
  constructor
  · intro hdesc
    apply item_eq_none
    intro hrange
    have hmem := (mem_enumerators_iff t (⟨v⟩ : Enum t)).mpr hrange
    obtain ⟨text, hne, htext⟩ := h3 _ hmem
    apply hne
    rw [← hdesc]
    exact (htext (fun _ text => text)).symm
  · intro hnone
    apply h4
    intro hmem
    have hrange := (mem_enumerators_iff t (⟨v⟩ : Enum t)).mp hmem
    have hsome := (item_eq_some_iff info (⟨v⟩ : Enum t)).mpr hrange
    rw [hnone] at hsome
    simp at hsome

end EnumInfo

/-! ## Theorems: bitwise operators -/

namespace CInt

theorem natDiff_eq_ldiff (m n : Nat) : natDiff m n = Nat.ldiff m n := by
  apply Nat.eq_of_testBit_eq
  intro i
  simp only [natDiff, Nat.testBit_xor, Nat.testBit_and, Nat.testBit_ldiff]
  cases m.testBit i <;> cases n.testBit i <;> rfl

theorem and_eq_land (a b : Int) : CInt.and a b = Int.land a b := by
  cases a <;> cases b <;> simp [CInt.and, Int.land, natDiff_eq_ldiff]

theorem or_eq_lor (a b : Int) : CInt.or a b = Int.lor a b := by
  cases a <;> cases b <;> simp [CInt.or, Int.lor, natDiff_eq_ldiff]

theorem not_eq_lnot (a : Int) : CInt.not a = Int.lnot a := by
  cases a with
  | ofNat m => simp only [CInt.not, Int.lnot]; rw [Int.negSucc_eq]; simp; omega
  | negSucc m => simp only [CInt.not, Int.lnot]; rw [Int.negSucc_eq]; simp

theorem testBit_and (a b : Int) (k : Nat) :
    Int.testBit (CInt.and a b) k = (Int.testBit a k && Int.testBit b k) := by
  rw [and_eq_land, Int.testBit_land]

theorem testBit_or (a b : Int) (k : Nat) :
    Int.testBit (CInt.or a b) k = (Int.testBit a k || Int.testBit b k) := by
  rw [or_eq_lor, Int.testBit_lor]

theorem testBit_not (a : Int) (k : Nat) : Int.testBit (CInt.not a) k = !Int.testBit a k := by
  rw [not_eq_lnot, Int.testBit_lnot]

theorem testBit_zero (k : Nat) : Int.testBit 0 k = false := by
  show Nat.testBit 0 k = false
  simp

theorem eq_of_testBit_eq (a b : Int) (h : ∀ k, Int.testBit a k = Int.testBit b k) : a = b := by
  have hbig : ∀ m n : Nat, ∃ k, m.testBit k = false ∧ n.testBit k = false := by
    intro m n
    refine ⟨max m n, ?_, ?_⟩
    · apply Nat.testBit_lt_two_pow
      exact lt_of_le_of_lt (le_max_left m n) (Nat.lt_two_pow _)
    · apply Nat.testBit_lt_two_pow
      exact lt_of_le_of_lt (le_max_right m n) (Nat.lt_two_pow _)
  cases a with
  | ofNat m =>
    cases b with
    | ofNat n =>
      congr 1
      exact Nat.eq_of_testBit_eq (fun k => by simpa [Int.testBit] using h k)
    | negSucc n =>
      exfalso
      obtain ⟨k, h1, h2⟩ := hbig m n
      have := h k
      simp [Int.testBit, h1, h2] at this
  | negSucc m =>
    cases b with
    | ofNat n =>
      exfalso
      obtain ⟨k, h1, h2⟩ := hbig m n
      have := h k
      simp [Int.testBit, h1, h2] at this
    | negSucc n =>
      congr 1
      exact Nat.eq_of_testBit_eq (fun k => by simpa [Int.testBit] using h k)

theorem and_comm (a b : Int) : CInt.and a b = CInt.and b a := by
  apply eq_of_testBit_eq
  intro k
  rw [testBit_and, testBit_and, Bool.and_comm]

theorem or_comm (a b : Int) : CInt.or a b = CInt.or b a := by
  apply eq_of_testBit_eq
  intro k
  rw [testBit_or, testBit_or, Bool.or_comm]

end CInt

/-! ## Theorems: the mixed operators of the enumerations -/

/-- C16: the mixed enum/int operators of each enumeration are the integer operators on the
underlying value and agree with one another: `(e == i) = (i == e) = ((int)e == i)`,
`(e != i) = !(e == i)`, `(e < i) = (i > e)`, `(e <= i) = (i >= e) = !(e > i)`,
`(e & i) = (i & e)`, `(e | i) = (i | e)`, `e1 | e2 = e2 | e1` and `~e = ~(int)e`. -/
theorem enum_operators_agree (t : EnumTag) (e e1 e2 : Enum t) (i : Int) :
    (Enum.eq_int e i = Enum.int_eq i e ∧ Enum.int_eq i e = decide (e.val = i))
    ∧ (Enum.ne_int e i = !Enum.eq_int e i ∧ Enum.int_ne i e = !Enum.int_eq i e
        ∧ Enum.ne_int e i = Enum.int_ne i e)
    ∧ (Enum.lt_int e i = Enum.int_gt i e ∧ Enum.lt_int e i = decide (e.val < i))
    ∧ (Enum.gt_int e i = Enum.int_lt i e ∧ Enum.gt_int e i = decide (i < e.val))
    ∧ (Enum.le_int e i = Enum.int_ge i e ∧ Enum.int_ge i e = !Enum.gt_int e i
        ∧ Enum.le_int e i = decide (e.val ≤ i))
    ∧ (Enum.ge_int e i = Enum.int_le i e ∧ Enum.int_le i e = !Enum.lt_int e i
        ∧ Enum.ge_int e i = decide (i ≤ e.val))
    ∧ (Enum.and_int e i = Enum.int_and i e ∧ Enum.and_int e i = Int.land e.val i
        ∧ Enum.and_assign i e = Enum.int_and i e)
    ∧ (Enum.or_int e i = Enum.int_or i e ∧ Enum.or_int e i = Int.lor e.val i
        ∧ Enum.or_assign i e = Enum.int_or i e)
    ∧ (Enum.or e1 e2 = Enum.or e2 e1 ∧ Enum.or e1 e2 = Int.lor e1.val e2.val)
    ∧ (Enum.not e = CInt.not e.val ∧ Enum.not e = Int.lnot e.val ∧ Enum.not e = -e.val - 1) := by
  refine ⟨⟨rfl, rfl⟩, ⟨?_, ?_, rfl⟩, ⟨?_, rfl⟩, ⟨?_, ?_⟩, ⟨?_, ?_, rfl⟩, ⟨?_, ?_, ?_⟩,
    ⟨rfl, CInt.and_eq_land _ _, CInt.and_comm _ _⟩, ⟨rfl, CInt.or_eq_lor _ _, CInt.or_comm _ _⟩,
    ⟨CInt.or_comm _ _, CInt.or_eq_lor _ _⟩, ⟨rfl, CInt.not_eq_lnot _, rfl⟩⟩
  · simp [Enum.ne_int, Enum.eq_int]
  · simp [Enum.int_ne, Enum.int_eq]
  · simp [Enum.lt_int, Enum.int_gt]
  · simp [Enum.gt_int, Enum.int_lt]
  · simp [Enum.gt_int]
  · simp [Enum.le_int, Enum.int_ge]
  · simp only [Enum.int_ge, Enum.gt_int, ge_iff_le, gt_iff_lt]
    by_cases h : e.val ≤ i
    · have h2 : ¬ i < e.val := by omega
      simp [h, h2]
    · have h2 : i < e.val := by omega
      simp [h, h2]
  · simp [Enum.ge_int, Enum.int_le]
  · simp only [Enum.int_le, Enum.lt_int]
    by_cases h : i ≤ e.val
    · have h2 : ¬ e.val < i := by omega
      simp [h, h2]
    · have h2 : e.val < i := by omega
      simp [h, h2]
  · simp [Enum.ge_int]

/-! ## Theorems: the map -/

namespace QMap

theorem find?_insertEntry (k : Int) (v : DeintCaps) (l : List (Int × DeintCaps)) (k2 : Int) :
    (insertEntry k v l).find? (fun e => decide (e.1 = k2)) =
      if k = k2 then some (k, v) else l.find? (fun e => decide (e.1 = k2)) := by
  induction l with
  | nil =>
    by_cases h : k = k2 <;> simp [insertEntry, List.find?, h]
  | cons x rest ih =>
    obtain ⟨k1, v1⟩ := x
    unfold insertEntry
    by_cases h1 : k < k1
    · rw [if_pos h1]
      by_cases h : k = k2 <;> simp [List.find?, h]
    · rw [if_neg h1]
      by_cases h2 : k = k1
      · rw [if_pos h2]
        subst h2
        by_cases h : k = k2 <;> simp [List.find?, h]
      · rw [if_neg h2]
        by_cases h : k = k2
        · subst h
          have hk : ¬ k1 = k := fun hh => h2 hh.symm
          simp [List.find?, hk, ih]
        · by_cases h3 : k1 = k2
          · simp [List.find?, h3, h]
          · simp [List.find?, h3, h, ih]

theorem find_insert (m : QMap) (k : Int) (v : DeintCaps) (k2 : Int) :
    (m.insert k v).find k2 = if k2 = k then some v else m.find k2 := by
  unfold find insert
  rw [find?_insertEntry]
  by_cases h : k = k2
  · simp [h]
  · have h2 : ¬ k2 = k := fun hh => h hh.symm
    simp [h, h2]

theorem find_subscript (ctor : DeintCaps) (m : QMap) (k k2 : Int) :
    (subscript ctor m k).find k2 = if k2 = k then some (ref ctor m k) else m.find k2 := by
  unfold subscript ref contains
  cases hf : m.find k with
  | none =>
    simp only [Option.isSome_none, Bool.false_eq_true, if_false, find_insert, Option.getD_none]
  | some c =>
    simp only [Option.isSome_some, if_true, Option.getD_some]
    by_cases h : k2 = k
    · simp [h, hf]
    · simp [h]

theorem find_modify (ctor : DeintCaps) (m : QMap) (k : Int) (f : DeintCaps → DeintCaps)
    (k2 : Int) :
    (modify ctor m k f).find k2 = if k2 = k then some (f (ref ctor m k)) else m.find k2 := by
  unfold modify
  rw [find_insert]
  by_cases h : k2 = k
  · simp [h]
  · simp [h, find_subscript]

theorem mem_insertEntry (k : Int) (v : DeintCaps) (l : List (Int × DeintCaps))
    (x : Int × DeintCaps) (hx : x ∈ insertEntry k v l) : x = (k, v) ∨ x ∈ l := by
  induction l with
  | nil => simp [insertEntry] at hx; exact Or.inl hx
  | cons y rest ih =>
    obtain ⟨k1, v1⟩ := y
    unfold insertEntry at hx
    by_cases h1 : k < k1
    · rw [if_pos h1] at hx
      rcases List.mem_cons.mp hx with hx1 | hx1
      · exact Or.inl hx1
      · exact Or.inr hx1
    · rw [if_neg h1] at hx
      by_cases h2 : k = k1
      · rw [if_pos h2] at hx
        rcases List.mem_cons.mp hx with hx1 | hx1
        · exact Or.inl hx1
        · exact Or.inr (List.mem_cons_of_mem _ hx1)
      · rw [if_neg h2] at hx
        rcases List.mem_cons.mp hx with hx1 | hx1
        · right
          rw [hx1]
          exact List.mem_cons_self _ _
        · rcases ih hx1 with h | h
          · exact Or.inl h
          · exact Or.inr (List.mem_cons_of_mem _ h)

theorem pairwise_insertEntry (k : Int) (v : DeintCaps) (l : List (Int × DeintCaps))
    (hl : l.Pairwise (fun a b => a.1 < b.1)) :
    (insertEntry k v l).Pairwise (fun a b => a.1 < b.1) := by
  induction l with
  | nil => simp [insertEntry]
  | cons y rest ih =>
    obtain ⟨k1, v1⟩ := y
    rw [List.pairwise_cons] at hl
    unfold insertEntry
    by_cases h1 : k < k1
    · rw [if_pos h1, List.pairwise_cons]
      refine ⟨?_, List.pairwise_cons.mpr hl⟩
      intro a ha
      rcases List.mem_cons.mp ha with ha1 | ha1
      · rw [ha1]; exact h1
      · exact lt_trans h1 (hl.1 a ha1)
    · rw [if_neg h1]
      by_cases h2 : k = k1
      · rw [if_pos h2, List.pairwise_cons]
        refine ⟨?_, hl.2⟩
        intro a ha
        rw [h2]
        exact hl.1 a ha
      · rw [if_neg h2, List.pairwise_cons]
        refine ⟨?_, ih hl.2⟩
        intro a ha
        rcases mem_insertEntry k v rest a ha with h | h
        · rw [h]
          show k1 < k
          omega
        · exact hl.1 a h

theorem wf_empty : QMap.empty.WF := by
  simp [WF, empty]

theorem wf_insert (m : QMap) (k : Int) (v : DeintCaps) (h : m.WF) : (m.insert k v).WF :=
  pairwise_insertEntry k v m.entries h

theorem wf_subscript (ctor : DeintCaps) (m : QMap) (k : Int) (h : m.WF) :
    (subscript ctor m k).WF := by
  unfold subscript
  split
  · exact h
  · exact wf_insert m k ctor h

theorem wf_modify (ctor : DeintCaps) (m : QMap) (k : Int) (f : DeintCaps → DeintCaps)
    (h : m.WF) : (modify ctor m k f).WF :=
  wf_insert _ k _ (wf_subscript ctor m k h)

/-- In a well-formed map two entries with the same key are the same entry. -/
theorem entry_unique (m : QMap) (h : m.WF) (a b : Int × DeintCaps) (ha : a ∈ m.entries)
    (hb : b ∈ m.entries) (hk : a.1 = b.1) : a = b := by
  unfold WF at h
  obtain ⟨l⟩ := m
  simp only at h ha hb
  induction l with
  | nil => simp at ha
  | cons x rest ih =>
    rw [List.pairwise_cons] at h
    rcases List.mem_cons.mp ha with ha1 | ha1 <;> rcases List.mem_cons.mp hb with hb1 | hb1
    · rw [ha1, hb1]
    · have := h.1 b hb1
      rw [← ha1, hk] at this
      exact absurd this (lt_irrefl _)
    · have := h.1 a ha1
      rw [← hb1, hk] at this
      exact absurd this (lt_irrefl _)
    · exact ih h.2 ha1 hb1

/-- In a well-formed map the entry stored under a key is what `find` returns. -/
theorem find_of_mem (m : QMap) (h : m.WF) (a : Int × DeintCaps) (ha : a ∈ m.entries) :
    m.find a.1 = some a.2 := by
  unfold find
  cases hf : m.entries.find? (fun e => decide (e.1 = a.1)) with
  | none =>
    rw [List.find?_eq_none] at hf
    exact absurd (by simp) (hf a ha)
  | some b =>
    have hb := List.mem_of_find?_eq_some hf
    have hk : b.1 = a.1 := by simpa using List.find?_some hf
    have := entry_unique m h b a hb ha hk
    simp [this]

theorem mem_of_find (m : QMap) (k : Int) (c : DeintCaps) (h : m.find k = some c) :
    (k, c) ∈ m.entries := by
  unfold find at h
  cases hf : m.entries.find? (fun e => decide (e.1 = k)) with
  | none => rw [hf] at h; simp at h
  | some b =>
    rw [hf] at h
    have hb := List.mem_of_find?_eq_some hf
    have hk : b.1 = k := by simpa using List.find?_some hf
    have hc : b.2 = c := by simpa using h
    rw [← hk, ← hc]
    exact hb

end QMap

/-! ## Theorems: the constructor loops -/

namespace DeintWidget

theorem accepts_iff (env : Decls) (hwdec : Bool) (c : DeintCaps) :
    accepts env hwdec c = true ↔
      env.isAvailable c = true ∧ (if hwdec = true then env.hwdec c else env.swdec c) = true := by
  unfold accepts
  cases env.isAvailable c <;> cases hwdec <;> cases env.hwdec c <;> cases env.swdec c <;> simp

theorem load_find (env : Decls) (tokens : List QString) (m : QMap) (k : Int) :
    (load env tokens m).find k = (lastAvailable env tokens k).or (m.find k) := by
  induction tokens generalizing m with
  | nil => simp [load, lastAvailable]
  | cons tok rest ih =>
    have hstep : load env (tok :: rest) m =
        load env rest (if env.isAvailable (env.fromString tok) then
          m.insert (env.fromString tok).method (env.fromString tok) else m) := by
      simp [load, List.foldl_cons]
    rw [hstep, ih]
    unfold lastAvailable
    by_cases ha : env.isAvailable (env.fromString tok) = true
    · simp only [ha, if_true, List.map_cons, List.filter_cons, List.reverse_cons,
        List.find?_append, QMap.find_insert]
      cases hfind : List.find? (fun c => decide (c.method = k))
          (List.filter env.isAvailable (List.map env.fromString rest)).reverse with
      | some c => simp
      | none =>
        by_cases hk : (env.fromString tok).method = k
        · simp [List.find?, hk]
        · have hk2 : ¬ k = (env.fromString tok).method := fun hh => hk hh.symm
          simp [List.find?, hk, hk2]
    · simp only [ha, if_false, List.map_cons, List.filter_cons, Bool.false_eq_true]

theorem load_wf (env : Decls) (tokens : List QString) (m : QMap) (h : m.WF) :
    (load env tokens m).WF := by
  induction tokens generalizing m with
  | nil => simpa [load] using h
  | cons tok rest ih =>
    have hstep : load env (tok :: rest) m =
        load env rest (if env.isAvailable (env.fromString tok) then
          m.insert (env.fromString tok).method (env.fromString tok) else m) := by
      simp [load, List.foldl_cons]
    rw [hstep]
    apply ih
    split
    · exact QMap.wf_insert _ _ _ h
    · exact h

theorem mergeStep_eq (env : Decls) (d : Data) (c : DeintCaps) :
    mergeStep env d c =
      if accepts env d.hwdec c = true then
        { d with
          combo := d.combo.addItem (env.DeintMethodInfo_name c.method) c.method,
          caps := ((if !d.caps.contains c.method then d.caps.insert c.method c else d.caps).modify
            env.ctor c.method (fun x => { x with m_decoder := d.decoder })) }
      else d := by
  unfold mergeStep accepts
  cases env.isAvailable c <;> cases d.hwdec <;> cases env.hwdec c <;> cases env.swdec c <;> simp

theorem mergeStep_fields (env : Decls) (d : Data) (c : DeintCaps) :
    (mergeStep env d c).hwdec = d.hwdec ∧ (mergeStep env d c).decoder = d.decoder
    ∧ (mergeStep env d c).defaults = d.defaults ∧ (mergeStep env d c).updating = d.updating
    ∧ (mergeStep env d c).gl = d.gl ∧ (mergeStep env d c).gpu = d.gpu
    ∧ (mergeStep env d c).doubler = d.doubler := by
  rw [mergeStep_eq]
  split <;> simp

theorem mergeStep_find (env : Decls) (d : Data) (c : DeintCaps) (k : Int) :
    (mergeStep env d c).caps.find k =
      if accepts env d.hwdec c = true ∧ c.method = k then
        some { (d.caps.find k).getD c with m_decoder := d.decoder }
      else d.caps.find k := by
  rw [mergeStep_eq]
  by_cases ha : accepts env d.hwdec c = true
  · simp only [ha, if_true, true_and, QMap.find_modify]
    by_cases hk : c.method = k
    · subst hk
      simp only [if_true]
      unfold QMap.ref QMap.contains
      cases hf : d.caps.find c.method with
      | none => simp [QMap.find_insert]
      | some x => simp [hf]
    · have hk2 : ¬ k = c.method := fun hh => hk hh.symm
      simp only [hk, hk2, if_false]
      split
      · rw [QMap.find_insert, if_neg hk2]
      · rfl
  · simp [ha]

theorem addItem_data (c : DataComboBox) (text : QString) (data : Int) :
    (c.addItem text data).items.map Prod.snd = c.items.map Prod.snd ++ [data] := by
  simp [DataComboBox.addItem]

theorem merge_fold (env : Decls) (l : List DeintCaps) (d0 : Data) :
    (l.foldl (mergeStep env) d0).hwdec = d0.hwdec
    ∧ (l.foldl (mergeStep env) d0).decoder = d0.decoder
    ∧ (l.foldl (mergeStep env) d0).defaults = d0.defaults
    ∧ (l.foldl (mergeStep env) d0).combo.items.map Prod.snd =
        d0.combo.items.map Prod.snd ++ (l.filter (accepts env d0.hwdec)).map DeintCaps.method
    ∧ ∀ k, (l.foldl (mergeStep env) d0).caps.find k =
        match firstAccepted env d0.hwdec l k with
        | some c0 => some { (d0.caps.find k).getD c0 with m_decoder := d0.decoder }
        | none => d0.caps.find k := by
  induction l generalizing d0 with
  | nil => simp [firstAccepted]
  | cons c rest ih =>
    obtain ⟨ih1, ih2, ih3, ih4, ih5⟩ := ih (mergeStep env d0 c)
    obtain ⟨f1, f2, f3, _⟩ := mergeStep_fields env d0 c
    rw [List.foldl_cons]
    refine ⟨by rw [ih1, f1], by rw [ih2, f2], by rw [ih3, f3], ?_, ?_⟩
    · rw [ih4, f1, mergeStep_eq]
      by_cases ha : accepts env d0.hwdec c = true
      · simp [ha, addItem_data, List.filter_cons]
      · simp [ha, List.filter_cons]
    · intro k
      rw [ih5, f1, f2, mergeStep_find]
      unfold firstAccepted
      by_cases ha : accepts env d0.hwdec c = true
      · by_cases hk : c.method = k
        · simp only [ha, hk, and_self, if_true, List.filter_cons, List.find?_cons,
            decide_True, Option.getD_some]
          cases List.find? (fun c => decide (c.method = k))
            (List.filter (accepts env d0.hwdec) rest) <;> rfl
        · simp only [ha, hk, and_false, if_false, if_true, List.filter_cons, List.find?_cons,
            decide_False]
      · simp only [ha, false_and, if_false, List.filter_cons, Bool.false_eq_true]

theorem constructLoops_eq (env : Decls) (r : Record) (decoder : Int) :
    constructLoops env r decoder =
      env.list.foldl (mergeStep env)
        { updating := false, hwdec := decide (decoder = env.DecoderDevice_GPU),
          combo := ⟨[], -1⟩, gl := ⟨true, false⟩, doubler := ⟨true, false⟩,
          gpu := ⟨true, false⟩, caps := loadRecord env r decoder, defaults := env.list,
          decoder := decoder } := rfl

theorem firstAccepted_isSome (env : Decls) (hwdec : Bool) (l : List DeintCaps) (c : DeintCaps)
    (hc : c ∈ l) (ha : accepts env hwdec c = true) :
    ∃ c0, firstAccepted env hwdec l c.method = some c0 ∧ c0 ∈ l ∧ accepts env hwdec c0 = true
      ∧ c0.method = c.method := by
  unfold firstAccepted
  cases hf : List.find? (fun x => decide (x.method = c.method)) (List.filter (accepts env hwdec) l)
    with
  | none =>
    rw [List.find?_eq_none] at hf
    exact absurd (by simp) (hf c (List.mem_filter.mpr ⟨hc, ha⟩))
  | some c0 =>
    have hmem := List.mem_filter.mp (List.mem_of_find?_eq_some hf)
    have hp := List.find?_some hf
    exact ⟨c0, rfl, hmem.1, hmem.2, by simpa using hp⟩

theorem firstAccepted_eq_none (env : Decls) (hwdec : Bool) (l : List DeintCaps) (k : Int)
    (h : ∀ c ∈ l, accepts env hwdec c = true → c.method ≠ k) :
    firstAccepted env hwdec l k = none := by
  unfold firstAccepted
  rw [List.find?_eq_none]
  intro x hx
  have hmem := List.mem_filter.mp hx
  simpa using h x hmem.1 hmem.2

theorem firstAccepted_some (env : Decls) (hwdec : Bool) (l : List DeintCaps) (k : Int)
    (c0 : DeintCaps) (h : firstAccepted env hwdec l k = some c0) :
    c0 ∈ l ∧ accepts env hwdec c0 = true ∧ c0.method = k := by
  unfold firstAccepted at h
  have hmem := List.mem_filter.mp (List.mem_of_find?_eq_some h)
  have hp := List.find?_some h
  exact ⟨hmem.1, hmem.2, by simpa using hp⟩

theorem constructLoops_find (env : Decls) (r : Record) (decoder : Int) (k : Int) :
    (constructLoops env r decoder).caps.find k =
      match firstAccepted env (decide (decoder = env.DecoderDevice_GPU)) env.list k with
      | some c0 => some { ((loadRecord env r decoder).find k).getD c0 with m_decoder := decoder }
      | none => (loadRecord env r decoder).find k := by
  rw [constructLoops_eq]
  exact (merge_fold env env.list _).2.2.2.2 k

/-- The loops for an arbitrary `list()`: tokens that parse to an unavailable capability are
discarded and the last available token of a method wins; every default `c` that is available
and matches the decoder has its method offered, and the map holds for `c.method()` the
persisted record if one was loaded, otherwise the first available matching default with that
method, with `m_decoder` set to the widget's decoder; a method without an available matching
default is not offered and keeps what was loaded. -/
theorem merge_loops_general (env : Decls) (r : Record) (decoder : Int) :
    ((constructLoops env r decoder).decoder = decoder
      ∧ (constructLoops env r decoder).hwdec = decide (decoder = env.DecoderDevice_GPU)
      ∧ (constructLoops env r decoder).defaults = env.list)
    ∧ (∀ c, accepts env (decide (decoder = env.DecoderDevice_GPU)) c = true ↔
        env.isAvailable c = true ∧
        (if decoder = env.DecoderDevice_GPU then env.hwdec c else env.swdec c) = true)
    ∧ (∀ k, (loadRecord env r decoder).find k =
        lastAvailable env (Record.value r (env.DecoderDeviceInfo_name decoder)) k)
    ∧ ((constructLoops env r decoder).combo.items.map Prod.snd =
        (env.list.filter (accepts env (decide (decoder = env.DecoderDevice_GPU)))).map
          DeintCaps.method)
    ∧ (∀ c ∈ env.list, accepts env (decide (decoder = env.DecoderDevice_GPU)) c = true →
        c.method ∈ (constructLoops env r decoder).combo.items.map Prod.snd
        ∧ ∃ c0, firstAccepted env (decide (decoder = env.DecoderDevice_GPU)) env.list c.method
              = some c0
            ∧ (constructLoops env r decoder).caps.find c.method =
                some { ((loadRecord env r decoder).find c.method).getD c0 with
                        m_decoder := decoder })
    ∧ (∀ c ∈ env.list, accepts env (decide (decoder = env.DecoderDevice_GPU)) c = true →
        (∀ c2 ∈ env.list, accepts env (decide (decoder = env.DecoderDevice_GPU)) c2 = true →
          c2.method = c.method → c2 = c) →
        (constructLoops env r decoder).caps.find c.method =
          some { ((loadRecord env r decoder).find c.method).getD c with m_decoder := decoder })
    ∧ (∀ (c : DeintCaps) (d0 : Data), accepts env d0.hwdec c = false → mergeStep env d0 c = d0)
    ∧ (∀ k, (∀ c ∈ env.list, accepts env (decide (decoder = env.DecoderDevice_GPU)) c = true →
          c.method ≠ k) →
        k ∉ (constructLoops env r decoder).combo.items.map Prod.snd
        ∧ (constructLoops env r decoder).caps.find k = (loadRecord env r decoder).find k) := by
  obtain ⟨m1, m2, m3, m4, m5⟩ := merge_fold env env.list
    { updating := false, hwdec := decide (decoder = env.DecoderDevice_GPU),
      combo := ⟨[], -1⟩, gl := ⟨true, false⟩, doubler := ⟨true, false⟩,
      gpu := ⟨true, false⟩, caps := loadRecord env r decoder, defaults := env.list,
      decoder := decoder }
  rw [← constructLoops_eq] at m1 m2 m3 m4 m5
  simp only [List.map_nil, List.nil_append] at m4
  have hstored : ∀ c ∈ env.list,
      accepts env (decide (decoder = env.DecoderDevice_GPU)) c = true →
      ∃ c0, firstAccepted env (decide (decoder = env.DecoderDevice_GPU)) env.list c.method
            = some c0
          ∧ c0 ∈ env.list ∧ accepts env (decide (decoder = env.DecoderDevice_GPU)) c0 = true
          ∧ c0.method = c.method
          ∧ (constructLoops env r decoder).caps.find c.method =
              some { ((loadRecord env r decoder).find c.method).getD c0 with
                      m_decoder := decoder } := by
    intro c hc ha
    obtain ⟨c0, h0, hmem, hacc, hmeth⟩ := firstAccepted_isSome env _ env.list c hc ha
    refine ⟨c0, h0, hmem, hacc, hmeth, ?_⟩
    rw [m5, h0]
  refine ⟨⟨m2, m1, m3⟩, ?_, ?_, m4, ?_, ?_, ?_, ?_⟩
  · intro c
    rw [accepts_iff]
    simp
  · intro k
    unfold loadRecord
    rw [load_find]
    simp [QMap.find, QMap.empty]
  · intro c hc ha
    refine ⟨?_, ?_⟩
    · rw [m4]
      exact List.mem_map_of_mem _ (List.mem_filter.mpr ⟨hc, ha⟩)
    · obtain ⟨c0, h0, _, _, _, hfind⟩ := hstored c hc ha
      exact ⟨c0, h0, hfind⟩
  · intro c hc ha huniq
    obtain ⟨c0, _, hmem, hacc, hmeth, hfind⟩ := hstored c hc ha
    rw [hfind, huniq c0 hmem hacc hmeth]
  · intro c d0 ha
    rw [mergeStep_eq]
    simp [ha]
  · intro k hk
    refine ⟨?_, ?_⟩
    · rw [m4]
      intro hmem
      obtain ⟨c, hc, hck⟩ := List.mem_map.mp hmem
      have := List.mem_filter.mp hc
      exact hk c this.1 this.2 hck
    · rw [m5, firstAccepted_eq_none env _ env.list k hk]

/-- In a list indexed by method, a method determines the element. -/
theorem method_indexed_unique (l : List DeintCaps)
    (hidx : ∀ (i : Nat) (h : i < l.length), (l.get ⟨i, h⟩).method = (i : Int))
    (c c2 : DeintCaps) (hc : c ∈ l) (hc2 : c2 ∈ l) (hm : c2.method = c.method) : c2 = c := by
  obtain ⟨i, hi⟩ := List.get_of_mem hc
  obtain ⟨j, hj⟩ := List.get_of_mem hc2
  have h1 := hidx i.1 i.2
  have h2 := hidx j.1 j.2
  rw [hi] at h1
  rw [hj] at h2
  have hij : j.1 = i.1 := by
    have : (j.1 : Int) = (i.1 : Int) := by rw [← h1, ← h2, hm]
    exact_mod_cast this
  have hfin : j = i := Fin.ext hij
  rw [← hi, ← hj, hfin]

/-- C8: with `DeintCaps::list()` indexed by method, as `update` reads it
(`d->defaults[(int)method]`), after the load and merge loops: tokens that parse to an
unavailable capability are discarded and the last available token of a method wins; every
default `c` of `list()` that is available and matches the decoder (`c.hwdec()` for the GPU
decoder, `c.swdec()` otherwise) has its method offered in the combo, and the map holds for
`c.method()` the persisted record if one was loaded for that method, otherwise `c` itself, in
both cases with `m_decoder` set to the widget's decoder; a default that is unavailable or does
not match the decoder is not offered and not inserted: the map holds under its method what was
loaded. -/
theorem constructLoops_merges_defaults (env : Decls) (r : Record) (decoder : Int)
    (hidx : ∀ (i : Nat) (h : i < env.list.length), (env.list.get ⟨i, h⟩).method = (i : Int)) :
    ((constructLoops env r decoder).decoder = decoder
      ∧ (constructLoops env r decoder).hwdec = decide (decoder = env.DecoderDevice_GPU)
      ∧ (constructLoops env r decoder).defaults = env.list)
    ∧ (∀ c, accepts env (decide (decoder = env.DecoderDevice_GPU)) c = true ↔
        env.isAvailable c = true ∧
        (if decoder = env.DecoderDevice_GPU then env.hwdec c else env.swdec c) = true)
    ∧ (∀ k, (loadRecord env r decoder).find k =
        lastAvailable env (Record.value r (env.DecoderDeviceInfo_name decoder)) k)
    ∧ ((constructLoops env r decoder).combo.items.map Prod.snd =
        (env.list.filter (accepts env (decide (decoder = env.DecoderDevice_GPU)))).map
          DeintCaps.method)
    ∧ (∀ c ∈ env.list, accepts env (decide (decoder = env.DecoderDevice_GPU)) c = true →
        c.method ∈ (constructLoops env r decoder).combo.items.map Prod.snd
        ∧ (constructLoops env r decoder).caps.find c.method =
            some { ((loadRecord env r decoder).find c.method).getD c with m_decoder := decoder })
    ∧ (∀ c ∈ env.list, accepts env (decide (decoder = env.DecoderDevice_GPU)) c = false →
        c.method ∉ (constructLoops env r decoder).combo.items.map Prod.snd
        ∧ (constructLoops env r decoder).caps.find c.method
            = (loadRecord env r decoder).find c.method
        ∧ ∀ d0 : Data, d0.hwdec = decide (decoder = env.DecoderDevice_GPU) →
            mergeStep env d0 c = d0) := by
  obtain ⟨g1, g2, g3, g4, g5, g6, g7, g8⟩ := merge_loops_general env r decoder
  refine ⟨g1, g2, g3, g4, ?_, ?_⟩
  · intro c hc ha
    refine ⟨(g5 c hc ha).1, g6 c hc ha ?_⟩
    intro c2 hc2 _ hm
    exact method_indexed_unique env.list hidx c c2 hc hc2 hm
  · intro c hc ha
    have hk : ∀ c2 ∈ env.list,
        accepts env (decide (decoder = env.DecoderDevice_GPU)) c2 = true →
        c2.method ≠ c.method := by
      intro c2 hc2 ha2 hm
      have := method_indexed_unique env.list hidx c c2 hc hc2 hm
      rw [this, ha] at ha2
      exact absurd ha2 (by decide)
    obtain ⟨h1, h2⟩ := g8 c.method hk
    refine ⟨h1, h2, ?_⟩
    intro d0 hd0
    apply g7
    rw [hd0]
    exact ha

/-- Evaluation of C8 on the sample declarations, whose `list()` is indexed by method, for
software decoding and a record that holds a token for method `2`: the persisted record of
method `2` is kept with the widget's decoder, the default of method `3` is stored itself with
the widget's decoder, and the `Bob` default, for hardware decoding only, is not offered. -/
theorem constructLoops_merges_defaults_witness :
    (∀ (i : Nat) (h : i < sampleDecls.list.length),
        (sampleDecls.list.get ⟨i, h⟩).method = (i : Int))
    ∧ (loadRecord sampleDecls sampleRecord 1).find 2 = some ⟨2, 1, 4, false⟩
    ∧ (loadRecord sampleDecls sampleRecord 1).find 3 = none
    ∧ (constructLoops sampleDecls sampleRecord 1).caps.find 2 = some ⟨2, 1, 4, false⟩
    ∧ (constructLoops sampleDecls sampleRecord 1).caps.find 3 = some ⟨3, 1, 7, true⟩
    ∧ (1 : Int) ∉ (constructLoops sampleDecls sampleRecord 1).combo.items.map Prod.snd
    ∧ (constructLoops sampleDecls sampleRecord 1).caps.find
          (⟨2, 3, 5, false⟩ : DeintCaps).method
        = some { ((loadRecord sampleDecls sampleRecord 1).find
                    (⟨2, 3, 5, false⟩ : DeintCaps).method).getD ⟨2, 3, 5, false⟩ with
                  m_decoder := 1 }
    ∧ (constructLoops sampleDecls sampleRecord 1).caps.find
          (⟨3, 3, 7, true⟩ : DeintCaps).method
        = some { ((loadRecord sampleDecls sampleRecord 1).find
                    (⟨3, 3, 7, true⟩ : DeintCaps).method).getD ⟨3, 3, 7, true⟩ with
                  m_decoder := 1 }
    ∧ (⟨1, 2, 3, true⟩ : DeintCaps).method
        ∉ (constructLoops sampleDecls sampleRecord 1).combo.items.map Prod.snd :=
  ⟨by decide, by decide, by decide, by decide, by decide, by decide,
    ((constructLoops_merges_defaults sampleDecls sampleRecord 1 (by decide)).2.2.2.2.1
      ⟨2, 3, 5, false⟩ (by decide) (by decide)).2,
    ((constructLoops_merges_defaults sampleDecls sampleRecord 1 (by decide)).2.2.2.2.1
      ⟨3, 3, 7, true⟩ (by decide) (by decide)).2,
    ((constructLoops_merges_defaults sampleDecls sampleRecord 1 (by decide)).2.2.2.2.2
      ⟨1, 2, 3, true⟩ (by decide) (by decide)).1⟩

/-! ## Theorems: what the constructor loops establish -/

theorem keyed_insert (m : QMap) (k : Int) (v : DeintCaps) (h : m.Keyed) (hv : v.method = k) :
    (m.insert k v).Keyed := by
  intro e he
  rcases QMap.mem_insertEntry k v m.entries e he with h1 | h1
  · rw [h1]; exact hv
  · exact h e h1

theorem load_keyed (env : Decls) (tokens : List QString) (m : QMap) (h : m.Keyed) :
    (load env tokens m).Keyed := by
  induction tokens generalizing m with
  | nil => simpa [load] using h
  | cons tok rest ih =>
    have hstep : load env (tok :: rest) m =
        load env rest (if env.isAvailable (env.fromString tok) then
          m.insert (env.fromString tok).method (env.fromString tok) else m) := by
      simp [load, List.foldl_cons]
    rw [hstep]
    apply ih
    split
    · exact keyed_insert _ _ _ h rfl
    · exact h

theorem keyed_modify (ctor : DeintCaps) (m : QMap) (k : Int) (f : DeintCaps → DeintCaps)
    (h : m.Keyed) (hc : m.contains k = true) (hf : ∀ c, (f c).method = c.method) :
    (QMap.modify ctor m k f).Keyed := by
  unfold QMap.modify QMap.subscript
  rw [if_pos hc]
  apply keyed_insert _ _ _ h
  rw [hf]
  unfold QMap.contains at hc
  unfold QMap.ref
  cases hfind : m.find k with
  | none => rw [hfind] at hc; simp at hc
  | some x =>
    simp only [Option.getD_some]
    exact h (k, x) (QMap.mem_of_find m k x hfind)

theorem mergeStep_invariants (env : Decls) (d : Data) (c : DeintCaps)
    (hwf : d.caps.WF) (hk : d.caps.Keyed) :
    (mergeStep env d c).caps.WF ∧ (mergeStep env d c).caps.Keyed := by
  rw [mergeStep_eq]
  split
  · refine ⟨?_, ?_⟩
    · apply QMap.wf_modify
      split
      · exact QMap.wf_insert _ _ _ hwf
      · exact hwf
    · apply keyed_modify
      · split
        · exact keyed_insert _ _ _ hk rfl
        · exact hk
      · cases hcont : d.caps.contains c.method with
        | true => simp [hcont]
        | false =>
          simp only [Bool.not_false, if_true]
          unfold QMap.contains
          rw [QMap.find_insert, if_pos rfl]
          rfl
      · intro x; rfl
  · exact ⟨hwf, hk⟩

theorem merge_fold_invariants (env : Decls) (l : List DeintCaps) (d0 : Data)
    (hwf : d0.caps.WF) (hk : d0.caps.Keyed) :
    (l.foldl (mergeStep env) d0).caps.WF ∧ (l.foldl (mergeStep env) d0).caps.Keyed := by
  induction l generalizing d0 with
  | nil => exact ⟨hwf, hk⟩
  | cons c rest ih =>
    rw [List.foldl_cons]
    obtain ⟨h1, h2⟩ := mergeStep_invariants env d0 c hwf hk
    exact ih _ h1 h2

/-- After the constructor loops the map is well formed, every entry is stored under its own
method, and every entry whose method has an available matching default carries the widget's
decoder. -/
theorem constructLoops_invariants (env : Decls) (r : Record) (decoder : Int) :
    (constructLoops env r decoder).caps.WF
    ∧ (constructLoops env r decoder).caps.Keyed
    ∧ ∀ e ∈ (constructLoops env r decoder).caps.entries,
        (∀ c0 ∈ env.list, accepts env (decide (decoder = env.DecoderDevice_GPU)) c0 = true →
          c0.method = e.2.method → e.2.m_decoder = decoder) := by
  have hload_wf : (loadRecord env r decoder).WF := load_wf env _ _ QMap.wf_empty
  have hload_keyed : (loadRecord env r decoder).Keyed :=
    load_keyed env _ _ (by intro e he; simp [QMap.empty] at he)
  have hinv := merge_fold_invariants env env.list
    { updating := false, hwdec := decide (decoder = env.DecoderDevice_GPU),
      combo := ⟨[], -1⟩, gl := ⟨true, false⟩, doubler := ⟨true, false⟩,
      gpu := ⟨true, false⟩, caps := loadRecord env r decoder, defaults := env.list,
      decoder := decoder } hload_wf hload_keyed
  rw [← constructLoops_eq] at hinv
  refine ⟨hinv.1, hinv.2, ?_⟩
  intro e he c0 hc0 hacc hmeth
  have hfind := QMap.find_of_mem _ hinv.1 e he
  rw [constructLoops_find] at hfind
  have hkey : e.2.method = e.1 := hinv.2 e he
  obtain ⟨c1, h1, _, _, _⟩ := firstAccepted_isSome env _ env.list c0 hc0 hacc
  rw [hmeth, hkey] at h1
  rw [h1] at hfind
  have := Option.some.inj hfind
  rw [← this]

/-! ## Theorems: `update` -/

theorem onGpuToggled_updating (env : Decls) (d : Data) (b : Bool) (h : d.updating = true) :
    onGpuToggled env d b = d := by
  simp [onGpuToggled, h]

theorem onGlToggled_updating (env : Decls) (d : Data) (b : Bool) (h : d.updating = true) :
    onGlToggled env d b = d := by
  simp [onGlToggled, h]

theorem onDoublerToggled_updating (env : Decls) (d : Data) (b : Bool) (h : d.updating = true) :
    onDoublerToggled env d b = d := by
  simp [onDoublerToggled, h]

theorem gpuSetChecked_updating (env : Decls) (d : Data) (b : Bool) (h : d.updating = true) :
    gpuSetChecked env d b = { d with gpu := { d.gpu with checked := b } } := by
  unfold gpuSetChecked
  split
  · rename_i hc
    rw [← hc]
  · rw [onGpuToggled_updating]
    exact h

theorem glSetChecked_updating (env : Decls) (d : Data) (b : Bool) (h : d.updating = true) :
    glSetChecked env d b = { d with gl := { d.gl with checked := b } } := by
  unfold glSetChecked
  split
  · rename_i hc
    rw [← hc]
  · rw [onGlToggled_updating]
    exact h

theorem doublerSetChecked_updating (env : Decls) (d : Data) (b : Bool) (h : d.updating = true) :
    doublerSetChecked env d b = { d with doubler := { d.doubler with checked := b } } := by
  unfold doublerSetChecked
  split
  · rename_i hc
    rw [← hc]
  · rw [onDoublerToggled_updating]
    exact h

theorem ref_subscript (ctor : DeintCaps) (m : QMap) (k : Int) :
    (QMap.subscript ctor m k).ref ctor k = m.ref ctor k := by
  unfold QMap.ref
  rw [QMap.find_subscript]
  simp [QMap.ref]

theorem ref_modify (ctor : DeintCaps) (m : QMap) (k : Int) (f : DeintCaps → DeintCaps) :
    (QMap.modify ctor m k f).ref ctor k = f (m.ref ctor k) := by
  unfold QMap.ref
  rw [QMap.find_modify]
  simp [QMap.ref]

theorem update_eq (env : Decls) (d : Data) (method : Int) (h0 : 0 ≤ method)
    (hlt : method.toNat < d.defaults.length) :
    ∃ d2, update env d method = some d2
      ∧ d2.updating = false ∧ d2.hwdec = d.hwdec ∧ d2.decoder = d.decoder
      ∧ d2.defaults = d.defaults ∧ d2.combo = d.combo
      ∧ d2.gpu = ⟨d.hwdec && (d.defaults.get ⟨method.toNat, hlt⟩).supports env.GPU,
                  d.hwdec && (d.caps.ref env.ctor method).supports env.GPU⟩
      ∧ d2.gl = ⟨(d.defaults.get ⟨method.toNat, hlt⟩).supports
                    (if d.hwdec then env.GPU else env.CPU)
                  && (d.defaults.get ⟨method.toNat, hlt⟩).supports env.OpenGL,
                 !(d.defaults.get ⟨method.toNat, hlt⟩).supports
                    (if d.hwdec then env.GPU else env.CPU)
                  || (d.caps.ref env.ctor method).supports env.OpenGL⟩
      ∧ d2.doubler = ⟨(d.defaults.get ⟨method.toNat, hlt⟩).doubler,
                      (d.caps.ref env.ctor method).doubler⟩
      ∧ ∀ k, d2.caps.find k =
          if k = method then
            some (updatedCaps env d.hwdec (d.defaults.get ⟨method.toNat, hlt⟩)
              (d.caps.ref env.ctor method))
          else d.caps.find k := by
  unfold update
  simp only [gpuSetChecked_updating, glSetChecked_updating, doublerSetChecked_updating]
  rw [dif_pos ⟨h0, hlt⟩]
  refine ⟨_, rfl, ?_⟩
  simp only [ref_subscript]
  generalize hG : (!((d.defaults.get ⟨method.toNat, hlt⟩).supports
      (if d.hwdec = true then env.GPU else env.CPU))
      || (QMap.ref env.ctor d.caps method).supports env.OpenGL) = glc
  generalize hP : (d.hwdec && (QMap.ref env.ctor d.caps method).supports env.GPU) = gpuc
  cases glc <;> cases gpuc <;>
    simp only [updatedCaps, hG, hP, QMap.find_modify, ref_modify, ref_subscript,
      QMap.find_subscript, Bool.not_false, Bool.not_true, if_true, if_false,
      Bool.false_eq_true, true_and, and_self, and_true] <;>
    (intro k; by_cases hk : k = method <;> simp [hk])

/-! ## Theorems: writing twice through the same reference -/

theorem insertEntry_insertEntry (k : Int) (v w : DeintCaps) (l : List (Int × DeintCaps)) :
    QMap.insertEntry k v (QMap.insertEntry k w l) = QMap.insertEntry k v l := by
  induction l with
  | nil => simp [QMap.insertEntry]
  | cons x rest ih =>
    obtain ⟨k1, v1⟩ := x
    by_cases h1 : k < k1
    · simp [QMap.insertEntry, h1]
    · by_cases h2 : k = k1
      · subst h2
        simp [QMap.insertEntry]
      · simp [QMap.insertEntry, h1, h2, ih]

theorem insert_insert (m : QMap) (k : Int) (v w : DeintCaps) :
    (m.insert k w).insert k v = m.insert k v := by
  unfold QMap.insert
  simp only [insertEntry_insertEntry]

theorem contains_insert (m : QMap) (k : Int) (v : DeintCaps) :
    (m.insert k v).contains k = true := by
  unfold QMap.contains
  rw [QMap.find_insert, if_pos rfl]
  rfl

theorem contains_modify (ctor : DeintCaps) (m : QMap) (k : Int) (f : DeintCaps → DeintCaps) :
    (QMap.modify ctor m k f).contains k = true :=
  contains_insert _ _ _

theorem subscript_of_contains (ctor : DeintCaps) (m : QMap) (k : Int)
    (h : m.contains k = true) : QMap.subscript ctor m k = m := by
  unfold QMap.subscript
  rw [if_pos h]

theorem contains_subscript (ctor : DeintCaps) (m : QMap) (k : Int) :
    (QMap.subscript ctor m k).contains k = true := by
  unfold QMap.subscript
  split
  · assumption
  · exact contains_insert _ _ _

theorem modify_congr (ctor : DeintCaps) (m : QMap) (k : Int) (f g : DeintCaps → DeintCaps)
    (h : f (m.ref ctor k) = g (m.ref ctor k)) : QMap.modify ctor m k f = QMap.modify ctor m k g := by
  unfold QMap.modify
  rw [h]

theorem modify_modify (ctor : DeintCaps) (m : QMap) (k : Int) (f g : DeintCaps → DeintCaps) :
    QMap.modify ctor (QMap.modify ctor m k f) k g = QMap.modify ctor m k (fun c => g (f c)) := by
  have h1 : QMap.modify ctor (QMap.modify ctor m k f) k g
      = (QMap.modify ctor m k f).insert k (g ((QMap.modify ctor m k f).ref ctor k)) := by
    show (QMap.subscript ctor (QMap.modify ctor m k f) k).insert k _ = _
    rw [subscript_of_contains ctor _ k (contains_modify ctor m k f)]
  rw [h1, ref_modify]
  unfold QMap.modify
  rw [insert_insert]

theorem modify_subscript (ctor : DeintCaps) (m : QMap) (k : Int) (f : DeintCaps → DeintCaps) :
    QMap.modify ctor (QMap.subscript ctor m k) k f = QMap.modify ctor m k f := by
  unfold QMap.modify
  rw [subscript_of_contains ctor _ k (contains_subscript ctor m k), ref_subscript]

theorem modify_of_find (ctor : DeintCaps) (m : QMap) (k : Int) (c : DeintCaps)
    (f : DeintCaps → DeintCaps) (h : m.find k = some c) :
    QMap.modify ctor m k f = m.insert k (f c) := by
  unfold QMap.modify
  rw [subscript_of_contains ctor m k (by unfold QMap.contains; rw [h]; rfl)]
  unfold QMap.ref
  rw [h]
  rfl

/-- The closed form of `update` on the whole state. -/
theorem update_state (env : Decls) (d : Data) (method : Int) (h0 : 0 ≤ method)
    (hlt : method.toNat < d.defaults.length) :
    update env d method = some
      { updating := false, hwdec := d.hwdec, combo := d.combo,
        gl := ⟨(d.defaults.get ⟨method.toNat, hlt⟩).supports
                  (if d.hwdec then env.GPU else env.CPU)
                && (d.defaults.get ⟨method.toNat, hlt⟩).supports env.OpenGL,
               !(d.defaults.get ⟨method.toNat, hlt⟩).supports
                  (if d.hwdec then env.GPU else env.CPU)
                || (d.caps.ref env.ctor method).supports env.OpenGL⟩,
        doubler := ⟨(d.defaults.get ⟨method.toNat, hlt⟩).doubler,
                    (d.caps.ref env.ctor method).doubler⟩,
        gpu := ⟨d.hwdec && (d.defaults.get ⟨method.toNat, hlt⟩).supports env.GPU,
                d.hwdec && (d.caps.ref env.ctor method).supports env.GPU⟩,
        caps := d.caps.modify env.ctor method
          (updatedCaps env d.hwdec (d.defaults.get ⟨method.toNat, hlt⟩)),
        defaults := d.defaults, decoder := d.decoder } := by
  unfold update
  simp only [gpuSetChecked_updating, glSetChecked_updating, doublerSetChecked_updating]
  rw [dif_pos ⟨h0, hlt⟩]
  simp only [ref_subscript]
  generalize hG : (!((d.defaults.get ⟨method.toNat, hlt⟩).supports
      (if d.hwdec = true then env.GPU else env.CPU))
      || (QMap.ref env.ctor d.caps method).supports env.OpenGL) = glc
  generalize hP : (d.hwdec && (QMap.ref env.ctor d.caps method).supports env.GPU) = gpuc
  have hmod : QMap.modify env.ctor d.caps method
        (updatedCaps env d.hwdec (d.defaults.get ⟨method.toNat, hlt⟩))
      = QMap.modify env.ctor d.caps method (fun c =>
          (if !gpuc then
            (fun c2 : DeintCaps =>
              { c2 with m_device := CInt.and c2.m_device (CInt.not env.GPU) })
          else id)
          ((if !glc then
            (fun c1 : DeintCaps =>
              { c1 with m_device := CInt.and c1.m_device (CInt.not env.OpenGL) })
          else id)
          { c with m_device := (d.defaults.get ⟨method.toNat, hlt⟩).m_device })) := by
    apply modify_congr
    unfold updatedCaps
    simp only [hG, hP]
    cases glc <;> cases gpuc <;> simp
  rw [hmod]
  cases glc <;> cases gpuc <;>
    simp only [Bool.not_false, Bool.not_true, if_true, if_false, Bool.false_eq_true,
      modify_modify, modify_subscript, id]

theorem update_wf (env : Decls) (d d2 : Data) (method : Int)
    (h : update env d method = some d2) (hwf : d.caps.WF) : d2.caps.WF := by
  by_cases hc : 0 ≤ method ∧ method.toNat < d.defaults.length
  · have hsub := QMap.wf_subscript env.ctor d.caps method hwf
    unfold update at h
    simp only [gpuSetChecked_updating, glSetChecked_updating, doublerSetChecked_updating] at h
    rw [dif_pos hc] at h
    simp only [ref_subscript] at h
    generalize (!((d.defaults.get ⟨method.toNat, hc.2⟩).supports
        (if d.hwdec = true then env.GPU else env.CPU))
        || (QMap.ref env.ctor d.caps method).supports env.OpenGL) = glc at h
    generalize (d.hwdec && (QMap.ref env.ctor d.caps method).supports env.GPU) = gpuc at h
    cases glc <;> cases gpuc <;>
      simp only [Bool.not_false, Bool.not_true, if_true, if_false, Bool.false_eq_true] at h <;>
      rw [← Option.some.inj h] <;>
      first
      | exact QMap.wf_modify _ _ _ _ (QMap.wf_modify _ _ _ _ (QMap.wf_modify _ _ _ _ hsub))
      | exact QMap.wf_modify _ _ _ _ (QMap.wf_modify _ _ _ _ hsub)
      | exact QMap.wf_modify _ _ _ _ hsub
  · unfold update at h
    rw [dif_neg hc] at h
    simp at h

/-- The map of a constructed widget is well formed. -/
theorem construct_wf (env : Decls) (r : Record) (decoder : Int) (d : Data)
    (h : construct env r decoder = some d) : d.caps.WF :=
  update_wf env _ d env.Bob h (constructLoops_invariants env r decoder).1

theorem and_eq_zero_bits (a b : Int) (h : CInt.and a b = 0) (k : Nat) :
    (Int.testBit a k && Int.testBit b k) = false := by
  rw [← CInt.testBit_and, h, CInt.testBit_zero]

theorem updatedCaps_device (env : Decls) (hwdec : Bool) (def_ cap : DeintCaps) :
    (updatedCaps env hwdec def_ cap).m_device =
      if (hwdec && cap.supports env.GPU) = true then
        (if (!def_.supports (if hwdec then env.GPU else env.CPU) || cap.supports env.OpenGL) = true
          then def_.m_device else CInt.and def_.m_device (CInt.not env.OpenGL))
      else
        CInt.and
          (if (!def_.supports (if hwdec then env.GPU else env.CPU) || cap.supports env.OpenGL)
              = true
            then def_.m_device else CInt.and def_.m_device (CInt.not env.OpenGL))
          (CInt.not env.GPU) := by
  unfold updatedCaps
  simp only
  generalize (!def_.supports (if hwdec then env.GPU else env.CPU) || cap.supports env.OpenGL)
    = glc
  generalize (hwdec && cap.supports env.GPU) = gpuc
  cases glc <;> cases gpuc <;> simp

/-- C9: for a method that indexes `defaults`, `update(method)` returns and leaves under
`method` a record whose `m_device` is the default's `m_device`, with the OpenGL bit cleared
unless (not `def.supports(dev)` or `cap.supports(OpenGL)`) and the GPU bit cleared unless (the
decoder is GPU and `cap.supports(GPU)`), where `cap` is the record the reference `caps[method]`
denotes before the call and `dev` is GPU for the GPU decoder and CPU otherwise. The result is a
subset of the default's mask, and, CPU being a flag that shares no bit with OpenGL or GPU, its
CPU bit is the default's. -/
theorem update_device_mask (env : Decls) (d : Data) (method : Int) (h0 : 0 ≤ method)
    (hlt : method.toNat < d.defaults.length)
    (hhw : d.hwdec = decide (d.decoder = env.DecoderDevice_GPU)) :
    ∃ d2 rec2, update env d method = some d2 ∧ d2.caps.find method = some rec2
      ∧ rec2.m_device =
          (if d.decoder = env.DecoderDevice_GPU ∧
              (d.caps.ref env.ctor method).supports env.GPU = true then
            (if (d.defaults.get ⟨method.toNat, hlt⟩).supports
                  (if d.decoder = env.DecoderDevice_GPU then env.GPU else env.CPU) = false
                ∨ (d.caps.ref env.ctor method).supports env.OpenGL = true then
              (d.defaults.get ⟨method.toNat, hlt⟩).m_device
            else CInt.and (d.defaults.get ⟨method.toNat, hlt⟩).m_device (CInt.not env.OpenGL))
          else
            CInt.and
              (if (d.defaults.get ⟨method.toNat, hlt⟩).supports
                    (if d.decoder = env.DecoderDevice_GPU then env.GPU else env.CPU) = false
                  ∨ (d.caps.ref env.ctor method).supports env.OpenGL = true then
                (d.defaults.get ⟨method.toNat, hlt⟩).m_device
              else CInt.and (d.defaults.get ⟨method.toNat, hlt⟩).m_device (CInt.not env.OpenGL))
              (CInt.not env.GPU))
      ∧ CInt.and rec2.m_device (CInt.not (d.defaults.get ⟨method.toNat, hlt⟩).m_device) = 0
      ∧ (CInt.and env.CPU env.OpenGL = 0 → CInt.and env.CPU env.GPU = 0 →
          CInt.and rec2.m_device env.CPU
            = CInt.and (d.defaults.get ⟨method.toNat, hlt⟩).m_device env.CPU
          ∧ rec2.supports env.CPU = (d.defaults.get ⟨method.toNat, hlt⟩).supports env.CPU) := by
  obtain ⟨d2, hupd, _, _, _, _, _, _, _, _, hfind⟩ := update_eq env d method h0 hlt
  have hrec := hfind method
  rw [if_pos rfl] at hrec
  clear hfind
  generalize d.defaults.get ⟨method.toNat, hlt⟩ = def_ at hrec ⊢
  generalize d.caps.ref env.ctor method = cap at hrec ⊢
  refine ⟨d2, _, hupd, hrec, ?_, ?_, ?_⟩
  · rw [updatedCaps_device, hhw]
    by_cases hg : d.decoder = env.DecoderDevice_GPU
    · cases h1 : def_.supports env.GPU <;> cases h2 : cap.supports env.OpenGL <;>
        cases h3 : cap.supports env.GPU <;>
        simp [hg, h1, h2, h3]
    · cases h1 : def_.supports env.CPU <;> cases h2 : cap.supports env.OpenGL <;>
        simp [hg, h1, h2]
  · apply CInt.eq_of_testBit_eq
    intro k
    rw [updatedCaps_device]
    split_ifs <;>
      simp only [CInt.testBit_and, CInt.testBit_not, CInt.testBit_zero] <;>
      cases Int.testBit def_.m_device k <;>
      simp
  · intro hO hG
    have hmask : CInt.and (updatedCaps env d.hwdec def_ cap).m_device env.CPU
        = CInt.and def_.m_device env.CPU := by
      apply CInt.eq_of_testBit_eq
      intro k
      have hOk := and_eq_zero_bits _ _ hO k
      have hGk := and_eq_zero_bits _ _ hG k
      rw [updatedCaps_device]
      split_ifs <;>
        simp only [CInt.testBit_and, CInt.testBit_not] <;>
        cases Int.testBit def_.m_device k <;>
        cases hc : Int.testBit env.CPU k <;>
        simp_all
    refine ⟨hmask, ?_⟩
    unfold DeintCaps.supports
    rw [hmask]

/-- Evaluation of C9 on the sample widget state at method `2`: the default mask `5`
(CPU and OpenGL) is kept, the persisted record supporting OpenGL. -/
theorem update_device_mask_witness :
    (0 : Int) ≤ 2
    ∧ (2 : Int).toNat < sampleData.defaults.length
    ∧ sampleData.hwdec = decide (sampleData.decoder = sampleDecls.DecoderDevice_GPU)
    ∧ CInt.and sampleDecls.CPU sampleDecls.OpenGL = 0
    ∧ CInt.and sampleDecls.CPU sampleDecls.GPU = 0
    ∧ ∃ d2 rec2, update sampleDecls sampleData 2 = some d2 ∧ d2.caps.find 2 = some rec2
        ∧ rec2.m_device = 5
        ∧ CInt.and rec2.m_device (CInt.not 5) = 0
        ∧ CInt.and rec2.m_device sampleDecls.CPU = CInt.and 5 sampleDecls.CPU := by
  refine ⟨by decide, by decide, by decide, by decide, by decide, ?_⟩
  obtain ⟨d2, rec2, h1, h2, h3, h4, h5⟩ :=
    update_device_mask sampleDecls sampleData 2 (by decide) (by decide) (by decide)
  refine ⟨d2, rec2, h1, h2, ?_, h4, (h5 (by decide) (by decide)).1⟩
  rw [h3]
  decide

/-! ## Theorems: `update` under software decoding, its frame and its repetition -/

theorem updatedCaps_fields (env : Decls) (hwdec : Bool) (def_ cap : DeintCaps) :
    updatedCaps env hwdec def_ cap
      = { cap with m_device := (updatedCaps env hwdec def_ cap).m_device } := by
  unfold updatedCaps
  simp only
  generalize (!def_.supports (if hwdec then env.GPU else env.CPU) || cap.supports env.OpenGL)
    = glc
  generalize (hwdec && cap.supports env.GPU) = gpuc
  cases glc <;> cases gpuc <;> rfl

theorem and_not_and_self (a g : Int) : CInt.and (CInt.and a (CInt.not g)) g = 0 := by
  apply CInt.eq_of_testBit_eq
  intro k
  simp only [CInt.testBit_and, CInt.testBit_not, CInt.testBit_zero]
  cases Int.testBit a k <;> cases Int.testBit g k <;> rfl

/-- C12: when the widget's decoder is not `DecoderDevice::GPU`, for every method that indexes
`defaults`, whatever the default and the stored record, `update(method)` returns and leaves
the GPU bit of the record's `m_device` clear and the hardware-acceleration check box disabled
and unchecked. -/
theorem update_without_hwdec_clears_gpu (env : Decls) (d : Data) (method : Int)
    (h0 : 0 ≤ method) (hlt : method.toNat < d.defaults.length)
    (hhw : d.hwdec = decide (d.decoder = env.DecoderDevice_GPU))
    (hsw : d.decoder ≠ env.DecoderDevice_GPU) :
    ∃ d2 rec2, update env d method = some d2 ∧ d2.caps.find method = some rec2
      ∧ CInt.and rec2.m_device env.GPU = 0
      ∧ rec2.supports env.GPU = false
      ∧ d2.gpu.enabled = false ∧ d2.gpu.checked = false := by
  have hfalse : d.hwdec = false := by rw [hhw]; simp [hsw]
  have hupd := update_state env d method h0 hlt
  have hdev : CInt.and (updatedCaps env d.hwdec (d.defaults.get ⟨method.toNat, hlt⟩)
      (d.caps.ref env.ctor method)).m_device env.GPU = 0 := by
    rw [updatedCaps_device, hfalse]
    simp only [Bool.false_and, Bool.false_eq_true, if_false]
    exact and_not_and_self _ _
  refine ⟨_, _, hupd, ?_, hdev, ?_, ?_, ?_⟩
  · simp only [QMap.find_modify, if_true]
  · unfold DeintCaps.supports
    rw [hdev]
    rfl
  · simp [hfalse]
  · simp [hfalse]

/-- Evaluation of C12 on the sample widget state (software decoder) at method `3`, whose
default and stored record both have the GPU bit. -/
theorem update_without_hwdec_clears_gpu_witness :
    (0 : Int) ≤ 3
    ∧ (3 : Int).toNat < sampleData.defaults.length
    ∧ sampleData.hwdec = decide (sampleData.decoder = sampleDecls.DecoderDevice_GPU)
    ∧ sampleData.decoder ≠ sampleDecls.DecoderDevice_GPU
    ∧ sampleData.caps.find 3 = some ⟨3, 1, 7, true⟩
    ∧ ∃ d2 rec2, update sampleDecls sampleData 3 = some d2 ∧ d2.caps.find 3 = some rec2
        ∧ CInt.and rec2.m_device sampleDecls.GPU = 0
        ∧ rec2.supports sampleDecls.GPU = false
        ∧ d2.gpu.enabled = false ∧ d2.gpu.checked = false :=
  ⟨by decide, by decide, by decide, by decide, by decide,
    update_without_hwdec_clears_gpu sampleDecls sampleData 3 (by decide) (by decide)
      (by decide) (by decide)⟩

theorem ref_of_find (ctor : DeintCaps) (m : QMap) (k : Int) (c : DeintCaps)
    (h : m.find k = some c) : m.ref ctor k = c := by
  unfold QMap.ref
  rw [h]
  rfl

/-- C14: for every method that indexes `defaults`, `update(method)` returns and changes, in
the map, only the `m_device` field of the record under `method` (the record the reference
`caps[method]` denotes before the call, which is the stored one when there is one): its
`m_doubler`, `m_method` and `m_decoder` and the records of all other methods are unchanged; the
`setChecked` calls made while `updating` is set change no record, and `updating` is false on
exit. In particular a doubler flag that is set stays set, whether or not the default supports
the doubler. -/
theorem update_frame (env : Decls) (d : Data) (method : Int)
    (h0 : 0 ≤ method) (hlt : method.toNat < d.defaults.length) :
    ∃ d2 rec2, update env d method = some d2 ∧ d2.caps.find method = some rec2
      ∧ rec2 = { d.caps.ref env.ctor method with m_device := rec2.m_device }
      ∧ rec2.m_doubler = (d.caps.ref env.ctor method).m_doubler
      ∧ rec2.m_method = (d.caps.ref env.ctor method).m_method
      ∧ rec2.m_decoder = (d.caps.ref env.ctor method).m_decoder
      ∧ (∀ cap, d.caps.find method = some cap →
          d.caps.ref env.ctor method = cap ∧ rec2 = { cap with m_device := rec2.m_device })
      ∧ (∀ k, k ≠ method → d2.caps.find k = d.caps.find k)
      ∧ ((d.caps.ref env.ctor method).m_doubler = true → rec2.m_doubler = true)
      ∧ (∀ cap, d.caps.find method = some cap → cap.m_doubler = true →
          (d.defaults.get ⟨method.toNat, hlt⟩).doubler = false → rec2.m_doubler = true)
      ∧ d2.updating = false
      ∧ (d2.hwdec = d.hwdec ∧ d2.decoder = d.decoder ∧ d2.defaults = d.defaults
          ∧ d2.combo = d.combo)
      ∧ (∀ (d1 : Data) (b : Bool), d1.updating = true →
          (gpuSetChecked env d1 b).caps = d1.caps ∧ (glSetChecked env d1 b).caps = d1.caps
          ∧ (doublerSetChecked env d1 b).caps = d1.caps) := by
  have hupd := update_state env d method h0 hlt
  have hfields := updatedCaps_fields env d.hwdec (d.defaults.get ⟨method.toNat, hlt⟩)
    (d.caps.ref env.ctor method)
  refine ⟨_, updatedCaps env d.hwdec (d.defaults.get ⟨method.toNat, hlt⟩)
    (d.caps.ref env.ctor method), hupd, ?_, hfields, ?_, ?_, ?_, ?_, ?_, ?_, ?_, rfl,
    ⟨rfl, rfl, rfl, rfl⟩, ?_⟩
  · simp only [QMap.find_modify, if_true]
  · rw [hfields]
  · rw [hfields]
  · rw [hfields]
  · intro cap hcap
    have href := ref_of_find env.ctor d.caps method cap hcap
    refine ⟨href, ?_⟩
    rw [← href]
    exact hfields
  · intro k hk
    simp only [QMap.find_modify, if_neg hk]
  · intro hd
    rw [hfields]
    exact hd
  · intro cap hcap hd _
    rw [hfields, ref_of_find env.ctor d.caps method cap hcap]
    exact hd
  · intro d1 b hu
    rw [gpuSetChecked_updating env d1 b hu, glSetChecked_updating env d1 b hu,
      doublerSetChecked_updating env d1 b hu]
    exact ⟨rfl, rfl, rfl⟩

/-- Evaluation of C14 on the sample widget state at method `3`: the stored record has the
doubler set and keeps it. -/
theorem update_frame_witness :
    (0 : Int) ≤ 3
    ∧ (3 : Int).toNat < sampleData.defaults.length
    ∧ sampleData.caps.find 3 = some ⟨3, 1, 7, true⟩
    ∧ ∃ d2 rec2, update sampleDecls sampleData 3 = some d2 ∧ d2.caps.find 3 = some rec2
        ∧ rec2 = { (⟨3, 1, 7, true⟩ : DeintCaps) with m_device := rec2.m_device }
        ∧ (∀ k, k ≠ 3 → d2.caps.find k = sampleData.caps.find k)
        ∧ d2.updating = false := by
  refine ⟨by decide, by decide, by decide, ?_⟩
  obtain ⟨d2, rec2, h1, h2, _, _, _, _, h7, h8, _, _, h11, _, _⟩ :=
    update_frame sampleDecls sampleData 3 (by decide) (by decide)
  exact ⟨d2, rec2, h1, h2, (h7 ⟨3, 1, 7, true⟩ (by decide)).2, h8, h11⟩

/-- The mask left by the two conditional clears of `update`. -/
theorem cleared_idem (D O G : Int) (sup hw a b : Bool) (ha : a = false → sup = true)
    (hb : b = true → hw = true) :
    (if (hw && decide (CInt.and
          (if b = true then (if a = true then D else CInt.and D (CInt.not O))
            else CInt.and (if a = true then D else CInt.and D (CInt.not O)) (CInt.not G)) G ≠ 0))
          = true then
        (if (!sup || decide (CInt.and
            (if b = true then (if a = true then D else CInt.and D (CInt.not O))
              else CInt.and (if a = true then D else CInt.and D (CInt.not O)) (CInt.not G)) O
              ≠ 0)) = true
          then D else CInt.and D (CInt.not O))
      else
        CInt.and
          (if (!sup || decide (CInt.and
            (if b = true then (if a = true then D else CInt.and D (CInt.not O))
              else CInt.and (if a = true then D else CInt.and D (CInt.not O)) (CInt.not G)) O
              ≠ 0)) = true
          then D else CInt.and D (CInt.not O))
          (CInt.not G))
    = (if b = true then (if a = true then D else CInt.and D (CInt.not O))
        else CInt.and (if a = true then D else CInt.and D (CInt.not O)) (CInt.not G)) := by
  generalize hm : (if b = true then (if a = true then D else CInt.and D (CInt.not O))
        else CInt.and (if a = true then D else CInt.and D (CInt.not O)) (CInt.not G)) = m1
  have hmk : ∀ k, Int.testBit m1 k =
      ((Int.testBit D k && (a || !Int.testBit O k)) && (b || !Int.testBit G k)) := by
    intro k
    rw [← hm]
    cases a <;> cases b <;>
      simp only [CInt.testBit_and, CInt.testBit_not, if_true, if_false, Bool.false_eq_true,
        Bool.true_or, Bool.false_or, Bool.and_true]
  have hO : a = false → CInt.and m1 O = 0 := by
    intro h
    apply CInt.eq_of_testBit_eq
    intro k
    rw [CInt.testBit_and, hmk, h, CInt.testBit_zero]
    cases Int.testBit D k <;> cases Int.testBit O k <;> cases Int.testBit G k <;> cases b <;> rfl
  have hG : b = false → CInt.and m1 G = 0 := by
    intro h
    apply CInt.eq_of_testBit_eq
    intro k
    rw [CInt.testBit_and, hmk, h, CInt.testBit_zero]
    cases Int.testBit D k <;> cases Int.testBit O k <;> cases Int.testBit G k <;> cases a <;> rfl
  by_cases hzO : CInt.and m1 O = 0 <;> by_cases hzG : CInt.and m1 G = 0
  all_goals
    apply CInt.eq_of_testBit_eq
    intro k
    have hkO : CInt.and m1 O = 0 → (Int.testBit m1 k && Int.testBit O k) = false :=
      fun h => and_eq_zero_bits _ _ h k
    have hkG : CInt.and m1 G = 0 → (Int.testBit m1 k && Int.testBit G k) = false :=
      fun h => and_eq_zero_bits _ _ h k
    rw [hmk] at hkO hkG
    rw [hmk]
    cases a <;> cases b <;> cases sup <;> cases hw <;>
      simp only [hzO, hzG, ne_eq, not_true_eq_false, not_false_eq_true, decide_True,
        decide_False, Bool.and_true, Bool.and_false, Bool.or_true, Bool.or_false,
        Bool.not_true, Bool.not_false, Bool.true_and, Bool.false_and, Bool.true_or,
        Bool.false_or, if_true, if_false, Bool.false_eq_true, CInt.testBit_and,
        CInt.testBit_not] at ha hb hO hG hkO hkG ⊢ <;>
      cases hD : Int.testBit D k <;> cases hOk : Int.testBit O k <;>
      cases hGk : Int.testBit G k <;> simp_all

theorem updatedCaps_idem (env : Decls) (hwdec : Bool) (def_ cap : DeintCaps) :
    updatedCaps env hwdec def_ (updatedCaps env hwdec def_ cap)
      = updatedCaps env hwdec def_ cap := by
  have hdev : (updatedCaps env hwdec def_ (updatedCaps env hwdec def_ cap)).m_device
      = (updatedCaps env hwdec def_ cap).m_device := by
    have hs1 : ∀ dev, (updatedCaps env hwdec def_ cap).supports dev
        = decide (CInt.and (updatedCaps env hwdec def_ cap).m_device dev ≠ 0) := fun _ => rfl
    rw [updatedCaps_device env hwdec def_ (updatedCaps env hwdec def_ cap), hs1, hs1]
    rw [updatedCaps_device env hwdec def_ cap]
    apply cleared_idem
    · intro h
      cases hs : def_.supports (if hwdec = true then env.GPU else env.CPU)
      · rw [hs] at h
        simp at h
      · rfl
    · intro h
      cases hwdec
      · simp at h
      · rfl
  have h1 := updatedCaps_fields env hwdec def_ (updatedCaps env hwdec def_ cap)
  rw [hdev] at h1
  rw [h1]

theorem updatedCaps_testBit (env : Decls) (hwdec : Bool) (def_ cap : DeintCaps) (k : Nat) :
    Int.testBit (updatedCaps env hwdec def_ cap).m_device k =
      ((Int.testBit def_.m_device k
        && ((!def_.supports (if hwdec then env.GPU else env.CPU) || cap.supports env.OpenGL)
            || !Int.testBit env.OpenGL k))
        && ((hwdec && cap.supports env.GPU) || !Int.testBit env.GPU k)) := by
  rw [updatedCaps_device]
  generalize (!def_.supports (if hwdec then env.GPU else env.CPU) || cap.supports env.OpenGL)
    = a
  generalize (hwdec && cap.supports env.GPU) = b
  cases a <;> cases b <;>
    simp only [CInt.testBit_and, CInt.testBit_not, if_true, if_false, Bool.false_eq_true,
      Bool.true_or, Bool.false_or, Bool.and_true]

theorem exists_testBit_of_ne_zero (x : Int) (h : x ≠ 0) : ∃ k, Int.testBit x k = true := by
  by_contra hne
  apply h
  apply CInt.eq_of_testBit_eq
  intro k
  rw [CInt.testBit_zero]
  cases hk : Int.testBit x k
  · rfl
  · exact absurd ⟨k, hk⟩ hne

theorem supports_iff_exists_bit (c : DeintCaps) (dev : Int) :
    c.supports dev = true ↔ ∃ k, Int.testBit c.m_device k = true ∧ Int.testBit dev k = true := by
  unfold DeintCaps.supports
  rw [decide_eq_true_eq]
  constructor
  · intro h
    obtain ⟨k, hk⟩ := exists_testBit_of_ne_zero _ h
    rw [CInt.testBit_and] at hk
    exact ⟨k, by simpa using hk⟩
  · rintro ⟨k, h1, h2⟩ hz
    have := and_eq_zero_bits _ _ hz k
    rw [h1, h2] at this
    simp at this

/-- When the stored mask lies within the default's and the OpenGL and GPU flags share no bit,
the record `update` leaves supports OpenGL, resp. GPU, exactly when the check box was
checked for the stored record. -/
theorem updatedCaps_checks (env : Decls) (hwdec : Bool) (def_ cap : DeintCaps)
    (hsub : CInt.and cap.m_device (CInt.not def_.m_device) = 0)
    (hdisj : CInt.and env.GPU env.OpenGL = 0) :
    (!def_.supports (if hwdec then env.GPU else env.CPU)
        || (updatedCaps env hwdec def_ cap).supports env.OpenGL)
      = (!def_.supports (if hwdec then env.GPU else env.CPU) || cap.supports env.OpenGL)
    ∧ (hwdec && (updatedCaps env hwdec def_ cap).supports env.GPU)
      = (hwdec && cap.supports env.GPU) := by
  have hsubk : ∀ k, Int.testBit cap.m_device k = true → Int.testBit def_.m_device k = true := by
    intro k hk
    have := and_eq_zero_bits _ _ hsub k
    rw [CInt.testBit_not, hk] at this
    simpa using this
  have hdisjk : ∀ k, (Int.testBit env.GPU k && Int.testBit env.OpenGL k) = false :=
    fun k => and_eq_zero_bits _ _ hdisj k
  have key : ∀ dev : Int,
      (updatedCaps env hwdec def_ cap).supports dev = true ↔
        ∃ k, Int.testBit (updatedCaps env hwdec def_ cap).m_device k = true
          ∧ Int.testBit dev k = true := fun dev => supports_iff_exists_bit _ dev
  constructor
  · cases hs : def_.supports (if hwdec then env.GPU else env.CPU)
    · simp
    · simp only [Bool.not_true, Bool.false_or]
      apply Bool.eq_iff_iff.mpr
      rw [key, supports_iff_exists_bit]
      constructor
      · rintro ⟨k, h1, h2⟩
        rw [updatedCaps_testBit, hs] at h1
        cases hc : cap.supports env.OpenGL
        · rw [hc, h2] at h1
          simp at h1
        · exact (supports_iff_exists_bit _ _).mp hc
      · rintro ⟨k, h1, h2⟩
        refine ⟨k, ?_, h2⟩
        have hc : cap.supports env.OpenGL = true := (supports_iff_exists_bit _ _).mpr ⟨k, h1, h2⟩
        have hg := hdisjk k
        rw [h2] at hg
        rw [updatedCaps_testBit, hs, hc, hsubk k h1]
        cases hgk : Int.testBit env.GPU k
        · simp
        · rw [hgk] at hg
          simp at hg
  · cases hwdec
    · simp
    · simp only [Bool.true_and]
      apply Bool.eq_iff_iff.mpr
      rw [key, supports_iff_exists_bit]
      constructor
      · rintro ⟨k, h1, h2⟩
        rw [updatedCaps_testBit] at h1
        cases hc : cap.supports env.GPU
        · rw [hc, h2] at h1
          simp at h1
        · exact (supports_iff_exists_bit _ _).mp hc
      · rintro ⟨k, h1, h2⟩
        refine ⟨k, ?_, h2⟩
        have hc : cap.supports env.GPU = true := (supports_iff_exists_bit _ _).mpr ⟨k, h1, h2⟩
        have hg := hdisjk k
        rw [h2] at hg
        rw [updatedCaps_testBit, hc, hsubk k h1]
        cases hok : Int.testBit env.OpenGL k
        · simp
        · rw [hok] at hg
          simp at hg

/-- C15 as stated fails: for the GPU decoder and a persisted `Bob` record whose mask has the
OpenGL bit that the `Bob` default lacks, the `update(DeintMethod::Bob)` of the constructor
checks the OpenGL box and clears the bit from the record; a second `update` finds the bit
cleared and unchecks the box, while the record stays the same. -/
theorem second_update_unchecks_opengl :
    ∃ d1 d2, construct sampleDecls openglRecord 2 = some d1
      ∧ update sampleDecls (constructLoops sampleDecls openglRecord 2) sampleDecls.Bob = some d1
      ∧ update sampleDecls d1 sampleDecls.Bob = some d2
      ∧ (constructLoops sampleDecls openglRecord 2).caps.find sampleDecls.Bob
          = some ⟨1, 2, 7, false⟩
      ∧ d1.caps.find sampleDecls.Bob = some ⟨1, 2, 3, false⟩
      ∧ d2.caps.find sampleDecls.Bob = some ⟨1, 2, 3, false⟩
      ∧ d1.gl.checked = true
      ∧ d2.gl.checked = false
      ∧ ¬ (∀ (env : Decls) (d e1 e2 : Data) (method : Int),
            update env d method = some e1 → update env e1 method = some e2 →
            e2.caps.find method = e1.caps.find method
            ∧ e2.gl.checked = e1.gl.checked ∧ e2.gpu.checked = e1.gpu.checked) := by
  refine ⟨_, _, rfl, rfl, rfl, by decide, by decide, by decide, by decide, by decide, ?_⟩
  intro h
  have := (h sampleDecls (constructLoops sampleDecls openglRecord 2) _ _ sampleDecls.Bob
    rfl rfl).2.1
  revert this
  decide

/-- The result of `update` depends on the state only through `hwdec`, `combo`, `caps`,
`defaults` and `decoder`. -/
theorem update_congr (env : Decls) (d e : Data) (method : Int)
    (h1 : e.hwdec = d.hwdec) (h2 : e.combo = d.combo) (h3 : e.caps = d.caps)
    (h4 : e.defaults = d.defaults) (h5 : e.decoder = d.decoder) :
    update env e method = update env d method := by
  obtain ⟨u, hw, combo, gl, doubler, gpu, caps, defaults, decoder⟩ := d
  obtain ⟨u2, hw2, combo2, gl2, doubler2, gpu2, caps2, defaults2, decoder2⟩ := e
  simp only at h1 h2 h3 h4 h5
  subst h1 h2 h3 h4 h5
  by_cases hc : 0 ≤ method ∧ method.toNat < defaults2.length
  · rw [update_state env _ method hc.1 hc.2, update_state env _ method hc.1 hc.2]
  · unfold update
    rw [dif_neg hc, dif_neg hc]

/-- C15, amended: for every method that indexes `defaults`, applying `update(method)` twice
leaves the map, hence the record, the same as applying it once, as well as every other part of
the state except possibly the checked states of the OpenGL and GPU boxes; these are the same
too when the stored record's device mask lies within the default's and the OpenGL and GPU
flags share no bit; and in every case a further `update(method)` changes nothing. -/
theorem update_twice (env : Decls) (d : Data) (method : Int)
    (h0 : 0 ≤ method) (hlt : method.toNat < d.defaults.length) :
    ∃ d1 d2, update env d method = some d1 ∧ update env d1 method = some d2
      ∧ d2.caps = d1.caps
      ∧ d2.caps.find method = d1.caps.find method
      ∧ (d2.updating = d1.updating ∧ d2.hwdec = d1.hwdec ∧ d2.combo = d1.combo
          ∧ d2.defaults = d1.defaults ∧ d2.decoder = d1.decoder ∧ d2.doubler = d1.doubler
          ∧ d2.gl.enabled = d1.gl.enabled ∧ d2.gpu.enabled = d1.gpu.enabled)
      ∧ (CInt.and (d.caps.ref env.ctor method).m_device
            (CInt.not (d.defaults.get ⟨method.toNat, hlt⟩).m_device) = 0 →
          CInt.and env.GPU env.OpenGL = 0 →
          d2.gl.checked = d1.gl.checked ∧ d2.gpu.checked = d1.gpu.checked ∧ d2 = d1)
      ∧ update env d2 method = some d2 := by
  have hupd1 := update_state env d method h0 hlt
  obtain ⟨d1, hd1⟩ : ∃ d1, update env d method = some d1 := ⟨_, hupd1⟩
  rw [hd1] at hupd1
  have hd1 := (Option.some.inj hupd1).symm
  have hupd1 := update_state env d method h0 hlt
  rw [hd1] at hupd1
  have e1 : d1.hwdec = d.hwdec := by rw [← hd1]
  have e2 : d1.defaults = d.defaults := by rw [← hd1]
  have e3 : d1.caps = d.caps.modify env.ctor method
      (updatedCaps env d.hwdec (d.defaults.get ⟨method.toNat, hlt⟩)) := by rw [← hd1]
  have hlt1 : method.toNat < d1.defaults.length := by rw [e2]; exact hlt
  have hdef : d1.defaults.get ⟨method.toNat, hlt1⟩ = d.defaults.get ⟨method.toNat, hlt⟩ := by
    exact List.get_of_eq e2 ⟨method.toNat, hlt1⟩
  have href : d1.caps.ref env.ctor method
      = updatedCaps env d.hwdec (d.defaults.get ⟨method.toNat, hlt⟩)
          (d.caps.ref env.ctor method) := by
    rw [e3, ref_modify]
  have hcaps : d1.caps.modify env.ctor method
        (updatedCaps env d1.hwdec (d1.defaults.get ⟨method.toNat, hlt1⟩)) = d1.caps := by
    rw [hdef, e1, e3, modify_modify]
    apply modify_congr
    exact updatedCaps_idem _ _ _ _
  have hupd2 := update_state env d1 method h0 hlt1
  rw [hcaps, hdef, e1, href] at hupd2
  have hdoubler : (updatedCaps env d.hwdec (d.defaults.get ⟨method.toNat, hlt⟩)
      (d.caps.ref env.ctor method)).doubler = (d.caps.ref env.ctor method).doubler := by
    rw [updatedCaps_fields]
    rfl
  rw [hdoubler] at hupd2
  refine ⟨d1, _, hupd1, hupd2, rfl, rfl, ?_, ?_, ?_⟩
  · subst hd1
    exact ⟨rfl, rfl, rfl, rfl, rfl, rfl, rfl, rfl⟩
  · intro hsub hdisj
    obtain ⟨c1, c2⟩ := updatedCaps_checks env d.hwdec (d.defaults.get ⟨method.toNat, hlt⟩)
      (d.caps.ref env.ctor method) hsub hdisj
    subst hd1
    simp only [c1, c2]
    exact ⟨trivial, trivial, trivial⟩
  · rw [← hupd2]
    apply update_congr
    · subst hd1; rfl
    · subst hd1; rfl
    · rfl
    · subst hd1; rfl
    · subst hd1; rfl

/-- Evaluation of the amended C15 on the sample widget state at method `3`, whose stored mask
`7` equals the default's. -/
theorem update_twice_witness :
    (0 : Int) ≤ 3
    ∧ (3 : Int).toNat < sampleData.defaults.length
    ∧ CInt.and (sampleData.caps.ref sampleDecls.ctor 3).m_device (CInt.not 7) = 0
    ∧ CInt.and sampleDecls.GPU sampleDecls.OpenGL = 0
    ∧ ∃ d1 d2, update sampleDecls sampleData 3 = some d1 ∧ update sampleDecls d1 3 = some d2
        ∧ d2.caps = d1.caps ∧ d2 = d1 ∧ update sampleDecls d2 3 = some d2 := by
  refine ⟨by decide, by decide, by decide, by decide, ?_⟩
  obtain ⟨d1, d2, h1, h2, h3, _, _, h6, h7⟩ :=
    update_twice sampleDecls sampleData 3 (by decide) (by decide)
  exact ⟨d1, d2, h1, h2, h3, (h6 (by decide) (by decide)).2.2, h7⟩

/-! ## Theorems: the slots of the check boxes -/

theorem DeintCaps_ext (a b : DeintCaps) (h1 : a.m_method = b.m_method)
    (h2 : a.m_decoder = b.m_decoder) (h3 : a.m_device = b.m_device)
    (h4 : a.m_doubler = b.m_doubler) : a = b := by
  cases a
  cases b
  simp only at h1 h2 h3 h4
  subst h1 h2 h3 h4
  rfl

theorem toggledDevice_testBit (flag : Int) (on_ : Bool) (c : DeintCaps) (k : Nat) :
    Int.testBit (toggledDevice flag on_ c).m_device k
      = if Int.testBit flag k then on_ else Int.testBit c.m_device k := by
  cases on_
  · show Int.testBit (CInt.and c.m_device (CInt.not flag)) k = _
    rw [CInt.testBit_and, CInt.testBit_not]
    cases Int.testBit flag k <;> simp
  · show Int.testBit (CInt.or c.m_device flag) k = _
    rw [CInt.testBit_or]
    cases Int.testBit flag k <;> simp

theorem toggledDevice_others (flag : Int) (on_ : Bool) (c : DeintCaps) :
    (toggledDevice flag on_ c).m_method = c.m_method
    ∧ (toggledDevice flag on_ c).m_decoder = c.m_decoder
    ∧ (toggledDevice flag on_ c).m_doubler = c.m_doubler := by
  cases on_ <;> exact ⟨rfl, rfl, rfl⟩

theorem toggledDevice_idem (flag : Int) (on_ : Bool) (c : DeintCaps) :
    toggledDevice flag on_ (toggledDevice flag on_ c) = toggledDevice flag on_ c := by
  obtain ⟨h1, h2, h3⟩ := toggledDevice_others flag on_ (toggledDevice flag on_ c)
  refine DeintCaps_ext _ _ h1 h2 ?_ h3
  apply CInt.eq_of_testBit_eq
  intro k
  rw [toggledDevice_testBit, toggledDevice_testBit]
  cases Int.testBit flag k <;> simp

theorem toggledDevice_comm (f g : Int) (a b : Bool) (c : DeintCaps)
    (h : CInt.and f g = 0) :
    toggledDevice f a (toggledDevice g b c) = toggledDevice g b (toggledDevice f a c) := by
  obtain ⟨h1, h2, h3⟩ := toggledDevice_others f a (toggledDevice g b c)
  obtain ⟨h4, h5, h6⟩ := toggledDevice_others g b c
  obtain ⟨k1, k2, k3⟩ := toggledDevice_others g b (toggledDevice f a c)
  obtain ⟨k4, k5, k6⟩ := toggledDevice_others f a c
  refine DeintCaps_ext _ _ (by rw [h1, h4, k1, k4]) (by rw [h2, h5, k2, k5]) ?_
    (by rw [h3, h6, k3, k6])
  apply CInt.eq_of_testBit_eq
  intro k
  rw [toggledDevice_testBit, toggledDevice_testBit, toggledDevice_testBit,
    toggledDevice_testBit]
  have hk := and_eq_zero_bits f g h k
  revert hk
  cases Int.testBit f k <;> cases Int.testBit g k <;> simp

theorem onGlToggled_eq (env : Decls) (d : Data) (on_ : Bool) (h : d.updating = false) :
    onGlToggled env d on_
      = { d with caps := d.caps.modify env.ctor d.currentKey (toggledDevice env.OpenGL on_) } := by
  unfold onGlToggled
  rw [h]
  cases on_ <;> rfl

theorem onGpuToggled_eq (env : Decls) (d : Data) (on_ : Bool) (h : d.updating = false) :
    onGpuToggled env d on_
      = { d with caps := d.caps.modify env.ctor d.currentKey (toggledDevice env.GPU on_) } := by
  unfold onGpuToggled
  rw [h]
  cases on_ <;> rfl

theorem onDoublerToggled_eq (env : Decls) (d : Data) (on_ : Bool) (h : d.updating = false) :
    onDoublerToggled env d on_
      = { d with caps := (d.caps.modify env.ctor d.currentKey
            (fun c => { c with m_doubler := on_ })) } := by
  unfold onDoublerToggled
  rw [h]
  rfl

/-- Two writes in a row through the reference of the selected record are one write. -/
theorem slot_twice (env : Decls) (d : Data) (f g : DeintCaps → DeintCaps) :
    ({ d with caps := (QMap.modify env.ctor (d.caps.modify env.ctor d.currentKey f)
          d.currentKey g) } : Data)
      = { d with caps := d.caps.modify env.ctor d.currentKey (fun c => g (f c)) } := by
  rw [modify_modify]

/-- C13: while the widget is not updating, the slot of the OpenGL box called with `on_` stores,
under the selected method, the selected record with every bit of the OpenGL flag equal to
`on_` in `m_device` and every other bit as before; the slot of the GPU box does the same for
the GPU flag; the slot of the doubler box stores it with `m_doubler = on_`; each leaves the
other fields of that record, the records of the other methods and the rest of the state as
they were; each, called twice with the same argument, gives the same state as called once;
and, the GPU and OpenGL flags sharing no bit, the OpenGL and GPU slots give the same state in
either order. While `updating` is true, each of the three slots returns the state as it is. -/
theorem toggled_slots_change_one_flag (env : Decls) (d : Data) (on_ : Bool)
    (hu : d.updating = false) :
    (∃ c, (onGlToggled env d on_).caps.find d.currentKey = some c
        ∧ (∀ k, Int.testBit c.m_device k
            = if Int.testBit env.OpenGL k then on_
              else Int.testBit (d.caps.ref env.ctor d.currentKey).m_device k)
        ∧ c.m_method = (d.caps.ref env.ctor d.currentKey).m_method
        ∧ c.m_decoder = (d.caps.ref env.ctor d.currentKey).m_decoder
        ∧ c.m_doubler = (d.caps.ref env.ctor d.currentKey).m_doubler)
    ∧ (∃ c, (onGpuToggled env d on_).caps.find d.currentKey = some c
        ∧ (∀ k, Int.testBit c.m_device k
            = if Int.testBit env.GPU k then on_
              else Int.testBit (d.caps.ref env.ctor d.currentKey).m_device k)
        ∧ c.m_method = (d.caps.ref env.ctor d.currentKey).m_method
        ∧ c.m_decoder = (d.caps.ref env.ctor d.currentKey).m_decoder
        ∧ c.m_doubler = (d.caps.ref env.ctor d.currentKey).m_doubler)
    ∧ (∃ c, (onDoublerToggled env d on_).caps.find d.currentKey = some c
        ∧ c.m_doubler = on_
        ∧ c.m_method = (d.caps.ref env.ctor d.currentKey).m_method
        ∧ c.m_decoder = (d.caps.ref env.ctor d.currentKey).m_decoder
        ∧ c.m_device = (d.caps.ref env.ctor d.currentKey).m_device)
    ∧ (∀ k, k ≠ d.currentKey →
        (onGlToggled env d on_).caps.find k = d.caps.find k
        ∧ (onGpuToggled env d on_).caps.find k = d.caps.find k
        ∧ (onDoublerToggled env d on_).caps.find k = d.caps.find k)
    ∧ ({ onGlToggled env d on_ with caps := d.caps } = d
        ∧ { onGpuToggled env d on_ with caps := d.caps } = d
        ∧ { onDoublerToggled env d on_ with caps := d.caps } = d)
    ∧ (onGlToggled env (onGlToggled env d on_) on_ = onGlToggled env d on_
        ∧ onGpuToggled env (onGpuToggled env d on_) on_ = onGpuToggled env d on_
        ∧ onDoublerToggled env (onDoublerToggled env d on_) on_ = onDoublerToggled env d on_)
    ∧ (CInt.and env.GPU env.OpenGL = 0 → ∀ a b : Bool,
        onGpuToggled env (onGlToggled env d a) b = onGlToggled env (onGpuToggled env d b) a)
    ∧ (onGlToggled env { d with updating := true } on_ = { d with updating := true }
        ∧ onGpuToggled env { d with updating := true } on_ = { d with updating := true }
        ∧ onDoublerToggled env { d with updating := true } on_ = { d with updating := true }) := by
  have hgl := fun b => onGlToggled_eq env d b hu
  have hgpu := fun b => onGpuToggled_eq env d b hu
  have hdb := fun b => onDoublerToggled_eq env d b hu
  have ugl : ∀ b, (onGlToggled env d b).updating = false := fun b => by rw [hgl]; exact hu
  have ugpu : ∀ b, (onGpuToggled env d b).updating = false := fun b => by rw [hgpu]; exact hu
  have udb : ∀ b, (onDoublerToggled env d b).updating = false := fun b => by rw [hdb]; exact hu
  refine ⟨?_, ?_, ?_, ?_, ?_, ?_, ?_, ?_⟩
  · refine ⟨toggledDevice env.OpenGL on_ (d.caps.ref env.ctor d.currentKey), ?_,
      toggledDevice_testBit _ _ _, toggledDevice_others _ _ _⟩
    rw [hgl]
    show (d.caps.modify env.ctor d.currentKey _).find d.currentKey = _
    rw [QMap.find_modify, if_pos rfl]
  · refine ⟨toggledDevice env.GPU on_ (d.caps.ref env.ctor d.currentKey), ?_,
      toggledDevice_testBit _ _ _, toggledDevice_others _ _ _⟩
    rw [hgpu]
    show (d.caps.modify env.ctor d.currentKey _).find d.currentKey = _
    rw [QMap.find_modify, if_pos rfl]
  · refine ⟨{ d.caps.ref env.ctor d.currentKey with m_doubler := on_ }, ?_, rfl, rfl, rfl, rfl⟩
    rw [hdb]
    show (d.caps.modify env.ctor d.currentKey _).find d.currentKey = _
    rw [QMap.find_modify, if_pos rfl]
  · intro k hk
    rw [hgl, hgpu, hdb]
    refine ⟨?_, ?_, ?_⟩
    · show (d.caps.modify env.ctor d.currentKey _).find k = _
      rw [QMap.find_modify, if_neg hk]
    · show (d.caps.modify env.ctor d.currentKey _).find k = _
      rw [QMap.find_modify, if_neg hk]
    · show (d.caps.modify env.ctor d.currentKey _).find k = _
      rw [QMap.find_modify, if_neg hk]
  · rw [hgl, hgpu, hdb]
    exact ⟨rfl, rfl, rfl⟩
  · refine ⟨?_, ?_, ?_⟩
    · rw [onGlToggled_eq env _ on_ (ugl on_), hgl]
      refine (slot_twice env d _ _).trans ?_
      rw [modify_congr env.ctor d.caps d.currentKey _ (toggledDevice env.OpenGL on_)
        (toggledDevice_idem _ _ _)]
    · rw [onGpuToggled_eq env _ on_ (ugpu on_), hgpu]
      refine (slot_twice env d _ _).trans ?_
      rw [modify_congr env.ctor d.caps d.currentKey _ (toggledDevice env.GPU on_)
        (toggledDevice_idem _ _ _)]
    · rw [onDoublerToggled_eq env _ on_ (udb on_), hdb]
      exact slot_twice env d (fun c => { c with m_doubler := on_ })
        (fun c => { c with m_doubler := on_ })
  · intro hdisj a b
    rw [onGpuToggled_eq env _ b (ugl a), onGlToggled_eq env _ a (ugpu b), hgl, hgpu]
    refine (slot_twice env d _ _).trans ((congrArg (fun m => ({ d with caps := m } : Data))
      ?_).trans (slot_twice env d _ _).symm)
    apply modify_congr
    exact toggledDevice_comm _ _ _ _ _ hdisj
  · exact ⟨onGlToggled_updating env _ on_ rfl, onGpuToggled_updating env _ on_ rfl,
      onDoublerToggled_updating env _ on_ rfl⟩

/-- Evaluation of C13 on the sample widget state. -/
theorem toggled_slots_change_one_flag_witness :
    sampleData.updating = false
    ∧ CInt.and sampleDecls.GPU sampleDecls.OpenGL = 0
    ∧ onGlToggled sampleDecls (onGlToggled sampleDecls sampleData true) true
        = onGlToggled sampleDecls sampleData true
    ∧ onGpuToggled sampleDecls (onGlToggled sampleDecls sampleData true) false
        = onGlToggled sampleDecls (onGpuToggled sampleDecls sampleData false) true
    ∧ onDoublerToggled sampleDecls { sampleData with updating := true } true
        = { sampleData with updating := true } :=
  ⟨by decide, by decide,
    (toggled_slots_change_one_flag sampleDecls sampleData true (by decide)).2.2.2.2.2.1.1,
    (toggled_slots_change_one_flag sampleDecls sampleData true (by decide)).2.2.2.2.2.2.1
      (by decide) true false,
    (toggled_slots_change_one_flag sampleDecls sampleData true (by decide)).2.2.2.2.2.2.2.2.2⟩

/-! ## Theorems: `set` and `get` -/

/-- For data that some item holds, `findData` returns an index, and the item at that index
holds the data. -/
theorem findData_spec (c : DataComboBox) (data : Int) (h : data ∈ c.items.map Prod.snd) :
    0 ≤ c.findData data
    ∧ DataComboBox.currentData_toInt ⟨c.items, c.findData data⟩ = data := by
  have hex : ∃ x ∈ c.items, (fun item : QString × Int => decide (item.2 = data)) x = true := by
    obtain ⟨x, hx, hxd⟩ := List.mem_map.1 h
    exact ⟨x, hx, by simp [hxd]⟩
  have hlt := List.findIdx_lt_length_of_exists hex
  have hp := @List.findIdx_getElem _ (fun item : QString × Int => decide (item.2 = data))
    c.items hlt
  have hfd : c.findData data
      = ((c.items.findIdx (fun item => decide (item.2 = data)) : Nat) : Int) := by
    unfold DataComboBox.findData
    simp only
    rw [if_pos hlt]
  rw [hfd]
  refine ⟨Int.ofNat_nonneg _, ?_⟩
  unfold DataComboBox.currentData_toInt
  simp only
  rw [if_pos (Int.ofNat_nonneg _), Int.toNat_ofNat, List.get?_eq_get hlt]
  simp only
  exact of_decide_eq_true hp

/-- The state that `set` leaves, for a capability whose method is offered and indexes
`defaults`: the combo selects the method, and the map holds under it the capability with the
widget's decoder and some device mask. -/
theorem set_state (env : Decls) (d : Data) (c : DeintCaps)
    (hoff : c.method ∈ d.combo.items.map Prod.snd)
    (h0 : 0 ≤ c.method) (hlt : c.method.toNat < d.defaults.length) :
    ∃ d2 dev, set env d c = some d2
      ∧ d2.combo.items = d.combo.items
      ∧ d2.combo.currentData_toInt = c.method
      ∧ d2.decoder = d.decoder
      ∧ d2.caps = d.caps.modify env.ctor c.method
          (fun _ => ⟨c.m_method, d.decoder, dev, c.m_doubler⟩) := by
  obtain ⟨hnn, hcur⟩ := findData_spec d.combo c.method hoff
  unfold set comboSetCurrentData
  simp only
  rw [if_neg (not_lt.2 hnn)]
  by_cases hidx : d.combo.findData c.method = d.combo.currentIndex
  · rw [if_pos hidx]
    refine ⟨_, c.m_device, rfl, rfl, ?_, rfl, rfl⟩
    rw [hidx] at hcur
    exact hcur
  · rw [if_neg hidx, hcur]
    rw [update_state env
      { updating := d.updating, hwdec := d.hwdec,
        combo := ⟨d.combo.items, d.combo.findData c.method⟩, gl := d.gl,
        doubler := d.doubler, gpu := d.gpu,
        caps := (QMap.modify env.ctor d.caps c.method
          (fun _ => ⟨c.m_method, d.decoder, c.m_device, c.m_doubler⟩)),
        defaults := d.defaults, decoder := d.decoder } c.method h0 hlt]
    refine ⟨_, (updatedCaps env d.hwdec (d.defaults.get ⟨c.method.toNat, hlt⟩)
      { c with m_decoder := d.decoder }).m_device, rfl, rfl, hcur, rfl, ?_⟩
    show QMap.modify env.ctor (QMap.modify env.ctor d.caps c.method _) c.method _ = _
    rw [modify_modify]
    apply modify_congr
    exact updatedCaps_fields env d.hwdec _ { c with m_decoder := d.decoder }

/-- C11: for every capability `c` whose method is one of the methods the combo offers (and
indexes `defaults`, as `update` requires), `set(c)` returns, after it the combo selects
`c.method()`, and `get()` returns the record stored under `c.method()`, whose method is
`c.method()`, whose doubler flag is `c.doubler()` and whose `m_decoder` is the widget's
decoder, and leaves the state as it is; the records stored under other methods are those
from before `set`. -/
theorem set_then_get (env : Decls) (d : Data) (c : DeintCaps)
    (hoff : c.method ∈ d.combo.items.map Prod.snd)
    (h0 : 0 ≤ c.method) (hlt : c.method.toNat < d.defaults.length) :
    ∃ d2, set env d c = some d2
      ∧ d2.combo.currentData_toInt = c.method
      ∧ d2.caps.find c.method = some (get env d2).1
      ∧ (get env d2).2 = d2
      ∧ (get env d2).1.method = c.method
      ∧ (get env d2).1.doubler = c.doubler
      ∧ (get env d2).1.m_decoder = d.decoder
      ∧ (∀ k, k ≠ c.method → d2.caps.find k = d.caps.find k) := by
  obtain ⟨d2, dev, hset, _, hcur, _, hcaps⟩ := set_state env d c hoff h0 hlt
  have hfind : d2.caps.find c.method = some ⟨c.m_method, d.decoder, dev, c.m_doubler⟩ := by
    rw [hcaps, QMap.find_modify, if_pos rfl]
  have hget : (get env d2).1 = ⟨c.m_method, d.decoder, dev, c.m_doubler⟩ := by
    show d2.caps.ref env.ctor d2.currentKey = _
    unfold Data.currentKey
    rw [hcur]
    exact ref_of_find _ _ _ _ hfind
  refine ⟨d2, hset, hcur, ?_, ?_, ?_, ?_, ?_, ?_⟩
  · rw [hget]
    exact hfind
  · show ({ d2 with caps := d2.caps.subscript env.ctor d2.currentKey } : Data) = d2
    unfold Data.currentKey
    rw [hcur, subscript_of_contains env.ctor d2.caps c.method
      (by unfold QMap.contains; rw [hfind]; rfl)]
  · rw [hget]
    rfl
  · rw [hget]
    rfl
  · rw [hget]
  · intro k hk
    rw [hcaps, QMap.find_modify, if_neg hk]

/-- Evaluation of C11 on the sample widget state: `set` of a capability of method `3` with
decoder `9`, while the combo selects method `2`. -/
theorem set_then_get_witness :
    (3 : Int) ∈ sampleData.combo.items.map Prod.snd
    ∧ (0 : Int) ≤ 3
    ∧ (3 : Int).toNat < sampleData.defaults.length
    ∧ sampleData.currentKey = 2
    ∧ ∃ d2, set sampleDecls sampleData ⟨3, 9, 5, false⟩ = some d2
        ∧ d2.combo.currentData_toInt = 3
        ∧ (get sampleDecls d2).1.method = 3
        ∧ (get sampleDecls d2).1.doubler = false
        ∧ (get sampleDecls d2).1.m_decoder = 1 := by
  refine ⟨by decide, by decide, by decide, by decide, ?_⟩
  obtain ⟨d2, h1, h2, _, _, h5, h6, h7, _⟩ :=
    set_then_get sampleDecls sampleData ⟨3, 9, 5, false⟩ (by decide) (by decide) (by decide)
  exact ⟨d2, h1, h2, h5, h6, h7⟩

/-! ## Theorems: persistence -/

theorem filter_parsed_tokens (env : Decls) (l : List (Int × DeintCaps))
    (hrt : ∀ c, env.isAvailable c = true → env.fromString (env.toString c) = c)
    (hun : ∀ e ∈ l, env.isAvailable e.2 = false →
      env.isAvailable (env.fromString (env.toString e.2)) = false) :
    (((l.map (fun e => e.2)).map env.toString).map env.fromString).filter env.isAvailable
      = (l.map (fun e => e.2)).filter env.isAvailable := by
  induction l with
  | nil => rfl
  | cons x rest ih =>
    have ih2 := ih (fun e he => hun e (List.mem_cons_of_mem _ he))
    simp only [List.map_cons, List.filter_cons]
    cases hx : env.isAvailable x.2 with
    | true =>
      rw [hrt x.2 hx, hx]
      simp only [if_true]
      rw [ih2]
    | false =>
      rw [hun x (List.mem_cons_self _ _) hx]
      simp only [Bool.false_eq_true, if_false]
      exact ih2

theorem find?_of_unique {α : Type} (p : α → Bool) (l : List α) (c : α) (hc : c ∈ l)
    (hp : p c = true) (huniq : ∀ x ∈ l, p x = true → x = c) : l.find? p = some c := by
  cases hf : l.find? p with
  | none =>
    rw [List.find?_eq_none] at hf
    exact absurd hp (hf c hc)
  | some x =>
    rw [huniq x (List.mem_of_find?_eq_some hf) (List.find?_some hf)]

theorem loadRecord_destruct (env : Decls) (d : Data) (r : Record) :
    loadRecord env (destruct env d r) d.decoder
      = load env (d.caps.values.map env.toString) QMap.empty := by
  simp [loadRecord, destruct, Record.value, Record.write]

theorem persistDecls_roundtrip (c : DeintCaps) (h : persistDecls.isAvailable c = true) :
    persistDecls.fromString (persistDecls.toString c) = c := by
  obtain ⟨m, dec, dev, dbl⟩ := c
  simp only [persistDecls, Bool.and_eq_true, decide_eq_true_eq] at h
  obtain ⟨⟨h1, h2⟩, h3⟩ := h
  simp only [persistDecls, sampleDecls, DeintCaps.mk.injEq]
  refine ⟨?_, ?_, ?_, ?_⟩
  · cases dbl <;> simp [List.count_append, List.count_replicate] <;> omega
  · cases dbl <;> simp [List.count_append, List.count_replicate] <;> omega
  · cases dbl <;> simp [List.count_append, List.count_replicate] <;> omega
  · cases dbl <;> simp [List.mem_replicate]

theorem persistDecls_unavailable (c : DeintCaps) (h : persistDecls.isAvailable c = false) :
    persistDecls.isAvailable (persistDecls.fromString (persistDecls.toString c)) = false := by
  obtain ⟨m, dec, dev, dbl⟩ := c
  simp only [persistDecls, Bool.and_eq_false_iff, decide_eq_false_iff_not, not_lt] at h
  simp only [persistDecls, sampleDecls, Bool.and_eq_false_iff, decide_eq_false_iff_not, not_lt]
  cases dbl <;> simp [List.count_append, List.count_replicate] <;> omega

/-- The destructor and the loops of a later constructor, for an arbitrary state: on destruction
the widget writes, under `DecoderDeviceInfo::name(decoder)`, one token per entry of the map,
the `toString` of each entry in ascending key order, and leaves the other keys alone; an
available entry that is stored under its own method, and carries the widget's decoder when a
default of its method is available and matches the decoder, is found unchanged under its method
after the loops of a constructor for the same decoder, provided the available entries
round-trip through their tokens, the tokens of unavailable entries parse to unavailable
capabilities and every available entry is stored under its method. -/
theorem reload_general (env : Decls) (d : Data) (r : Record) :
    (destruct env d r (env.DecoderDeviceInfo_name d.decoder)
        = d.caps.entries.map (fun e => env.toString e.2)
      ∧ (destruct env d r (env.DecoderDeviceInfo_name d.decoder)).length = d.caps.entries.length
      ∧ (d.caps.WF → (d.caps.entries.map Prod.fst).Pairwise (fun a b => a < b))
      ∧ (∀ key, key ≠ env.DecoderDeviceInfo_name d.decoder → destruct env d r key = r key)
      ∧ loadRecord env (destruct env d r) d.decoder
          = load env (d.caps.entries.map (fun e => env.toString e.2)) QMap.empty)
    ∧ (d.caps.WF →
        (∀ c, env.isAvailable c = true → env.fromString (env.toString c) = c) →
        (∀ e ∈ d.caps.entries, env.isAvailable e.2 = false →
          env.isAvailable (env.fromString (env.toString e.2)) = false) →
        (∀ e ∈ d.caps.entries, env.isAvailable e.2 = true → e.2.method = e.1) →
        ∀ e ∈ d.caps.entries, env.isAvailable e.2 = true →
          (∀ c0 ∈ env.list, accepts env (decide (d.decoder = env.DecoderDevice_GPU)) c0 = true →
            c0.method = e.2.method → e.2.m_decoder = d.decoder) →
          (constructLoops env (destruct env d r) d.decoder).caps.find e.2.method = some e.2) := by
  have htokens : destruct env d r (env.DecoderDeviceInfo_name d.decoder)
      = d.caps.entries.map (fun e => env.toString e.2) := by
    simp [destruct, Record.write, QMap.values]
  have hload : loadRecord env (destruct env d r) d.decoder
      = load env (d.caps.entries.map (fun e => env.toString e.2)) QMap.empty := by
    rw [loadRecord_destruct]
    simp only [QMap.values, List.map_map]
    rfl
  refine ⟨⟨htokens, by rw [htokens, List.length_map], ?_, ?_, hload⟩, ?_⟩
  · intro hwf
    rw [List.pairwise_map]
    exact hwf
  · intro key hkey
    simp [destruct, Record.write, hkey]
  · intro hwf hrt hun hkeyed e he hav hdec
    have hloaded : (loadRecord env (destruct env d r) d.decoder).find e.2.method = some e.2 := by
      rw [hload, load_find]
      have hmap : d.caps.entries.map (fun e => env.toString e.2)
          = (d.caps.entries.map (fun e => e.2)).map env.toString := by
        simp [List.map_map]
      unfold lastAvailable
      rw [hmap, filter_parsed_tokens env d.caps.entries hrt hun]
      rw [find?_of_unique (fun c => decide (c.method = e.2.method)) _ e.2]
      · simp
      · rw [List.mem_reverse, List.mem_filter]
        exact ⟨List.mem_map_of_mem _ he, hav⟩
      · simp
      · intro x hx hpx
        rw [List.mem_reverse, List.mem_filter] at hx
        obtain ⟨e2, he2, hx2⟩ := List.mem_map.mp hx.1
        have hm : x.method = e.2.method := by simpa using hpx
        have hk2 : e2.1 = e.1 := by
          rw [← hkeyed e2 he2 (by rw [hx2]; exact hx.2), ← hkeyed e he hav, hx2, hm]
        have := QMap.entry_unique d.caps hwf e2 e he2 he hk2
        rw [← hx2, this]
    rw [constructLoops_find, hloaded]
    cases hfa : firstAccepted env (decide (d.decoder = env.DecoderDevice_GPU)) env.list
        e.2.method with
    | none => rfl
    | some c0 =>
      obtain ⟨hmem, hacc, hmeth⟩ := firstAccepted_some env _ env.list _ c0 hfa
      have := hdec c0 hmem hacc hmeth
      simp only [Option.getD_some]
      rw [← this]

theorem settled_congr (env : Decls) (decoder : Int) (k : Int) (c c2 : DeintCaps)
    (h : Settled env decoder (k, c)) (h1 : c2.m_method = c.m_method)
    (h2 : c2.m_decoder = c.m_decoder) : Settled env decoder (k, c2) := by
  rcases h with ⟨hk, hdec⟩ | ⟨hm, hd⟩
  · left
    refine ⟨?_, ?_⟩
    · show c2.m_method = k
      rw [h1]
      exact hk
    · intro c0 hc0 ha hmeth
      show c2.m_decoder = decoder
      rw [h2]
      apply hdec c0 hc0 ha
      show c0.method = c.m_method
      rw [← h1]
      exact hmeth
  · right
    exact ⟨by show c2.m_method = _; rw [h1]; exact hm, by show c2.m_decoder = _; rw [h2]; exact hd⟩

theorem settled_subscript (env : Decls) (decoder : Int) (m : QMap) (k : Int)
    (hall : ∀ e ∈ m.entries, Settled env decoder e) :
    ∀ e ∈ (m.subscript env.ctor k).entries, Settled env decoder e := by
  intro e he
  unfold QMap.subscript at he
  split at he
  · exact hall e he
  · rcases QMap.mem_insertEntry k env.ctor m.entries e he with h1 | h1
    · rw [h1]
      exact Or.inr ⟨rfl, rfl⟩
    · exact hall e h1

theorem settled_ref (env : Decls) (decoder : Int) (m : QMap) (k : Int)
    (hall : ∀ e ∈ m.entries, Settled env decoder e) :
    Settled env decoder (k, m.ref env.ctor k) := by
  unfold QMap.ref
  cases hf : m.find k with
  | none => exact Or.inr ⟨rfl, rfl⟩
  | some c => exact hall (k, c) (QMap.mem_of_find m k c hf)

theorem settled_modify (env : Decls) (decoder : Int) (m : QMap) (k : Int)
    (f : DeintCaps → DeintCaps) (hall : ∀ e ∈ m.entries, Settled env decoder e)
    (hf : Settled env decoder (k, m.ref env.ctor k) →
      Settled env decoder (k, f (m.ref env.ctor k))) :
    ∀ e ∈ (m.modify env.ctor k f).entries, Settled env decoder e := by
  intro e he
  rcases QMap.mem_insertEntry k _ _ e he with h1 | h1
  · rw [h1]
    exact hf (settled_ref env decoder m k hall)
  · exact settled_subscript env decoder m k hall e h1

theorem consistent_modify (env : Decls) (decoder : Int) (d d2 : Data) (k : Int)
    (f : DeintCaps → DeintCaps) (h : Consistent env decoder d) (hdec : d2.decoder = d.decoder)
    (hcaps : d2.caps = d.caps.modify env.ctor k f)
    (hf : Settled env decoder (k, d.caps.ref env.ctor k) →
      Settled env decoder (k, f (d.caps.ref env.ctor k))) :
    Consistent env decoder d2 := by
  obtain ⟨h1, h2, h3⟩ := h
  refine ⟨by rw [hdec, h1], ?_, ?_⟩
  · rw [hcaps]
    exact QMap.wf_modify _ _ _ _ h2
  · rw [hcaps]
    exact settled_modify env decoder d.caps k f h3 hf

theorem consistent_update (env : Decls) (decoder : Int) (d d2 : Data) (method : Int)
    (h : Consistent env decoder d) (hu : update env d method = some d2) :
    Consistent env decoder d2 := by
  by_cases hc : 0 ≤ method ∧ method.toNat < d.defaults.length
  · rw [update_state env d method hc.1 hc.2] at hu
    have hd2 := Option.some.inj hu
    apply consistent_modify env decoder d d2 method
      (updatedCaps env d.hwdec (d.defaults.get ⟨method.toNat, hc.2⟩)) h
    · rw [← hd2]
    · rw [← hd2]
    · intro hs
      have hfields := updatedCaps_fields env d.hwdec (d.defaults.get ⟨method.toNat, hc.2⟩)
        (d.caps.ref env.ctor method)
      apply settled_congr env decoder method _ _ hs
      · rw [hfields]
      · rw [hfields]
  · unfold update at hu
    simp only at hu
    rw [dif_neg hc] at hu
    cases hu

theorem consistent_construct (env : Decls) (r : Record) (decoder : Int) (d : Data)
    (h : construct env r decoder = some d) : Consistent env decoder d := by
  apply consistent_update env decoder (constructLoops env r decoder) d env.Bob _ h
  obtain ⟨hwf, hkeyed, hdec⟩ := constructLoops_invariants env r decoder
  refine ⟨?_, hwf, ?_⟩
  · rw [constructLoops_eq]
    exact (merge_fold env env.list _).2.1
  · intro e he
    exact Or.inl ⟨hkeyed e he, hdec e he⟩

theorem consistent_slot (env : Decls) (decoder : Int) (d d2 : Data)
    (f : DeintCaps → DeintCaps) (h : Consistent env decoder d)
    (hd2 : d2.decoder = d.decoder)
    (hcaps : d2.caps = d.caps ∨ d2.caps = d.caps.modify env.ctor d.currentKey f)
    (hf1 : ∀ c, (f c).m_method = c.m_method) (hf2 : ∀ c, (f c).m_decoder = c.m_decoder) :
    Consistent env decoder d2 := by
  rcases hcaps with hc | hc
  · obtain ⟨h1, h2, h3⟩ := h
    exact ⟨by rw [hd2, h1], by rw [hc]; exact h2, by rw [hc]; exact h3⟩
  · apply consistent_modify env decoder d d2 d.currentKey f h hd2 hc
    intro hs
    exact settled_congr env decoder _ _ _ hs (hf1 _) (hf2 _)

theorem consistent_onGlToggled (env : Decls) (decoder : Int) (d : Data) (on_ : Bool)
    (h : Consistent env decoder d) : Consistent env decoder (onGlToggled env d on_) := by
  cases hu : d.updating
  · rw [onGlToggled_eq env d on_ hu]
    exact consistent_slot env decoder d _ (toggledDevice env.OpenGL on_) h rfl (Or.inr rfl)
      (fun c => (toggledDevice_others _ _ c).1) (fun c => (toggledDevice_others _ _ c).2.1)
  · rw [onGlToggled_updating env d on_ hu]
    exact h

theorem consistent_onGpuToggled (env : Decls) (decoder : Int) (d : Data) (on_ : Bool)
    (h : Consistent env decoder d) : Consistent env decoder (onGpuToggled env d on_) := by
  cases hu : d.updating
  · rw [onGpuToggled_eq env d on_ hu]
    exact consistent_slot env decoder d _ (toggledDevice env.GPU on_) h rfl (Or.inr rfl)
      (fun c => (toggledDevice_others _ _ c).1) (fun c => (toggledDevice_others _ _ c).2.1)
  · rw [onGpuToggled_updating env d on_ hu]
    exact h

theorem consistent_onDoublerToggled (env : Decls) (decoder : Int) (d : Data) (on_ : Bool)
    (h : Consistent env decoder d) : Consistent env decoder (onDoublerToggled env d on_) := by
  cases hu : d.updating
  · rw [onDoublerToggled_eq env d on_ hu]
    exact consistent_slot env decoder d _ (fun c => { c with m_doubler := on_ }) h rfl
      (Or.inr rfl) (fun _ => rfl) (fun _ => rfl)
  · rw [onDoublerToggled_updating env d on_ hu]
    exact h

theorem consistent_set (env : Decls) (decoder : Int) (d d2 : Data) (caps : DeintCaps)
    (h : Consistent env decoder d) (hp : set env d caps = some d2) :
    Consistent env decoder d2 := by
  have hstore : ∀ combo : DataComboBox, Consistent env decoder
      { d with
        combo := combo,
        caps := (d.caps.modify env.ctor caps.method
          (fun _ => { caps with m_decoder := d.decoder })) } := by
    intro combo
    refine consistent_modify env decoder d _ caps.method
      (fun _ => { caps with m_decoder := d.decoder }) h rfl rfl ?_
    intro _
    exact Or.inl ⟨rfl, fun _ _ _ _ => h.1⟩
  unfold set comboSetCurrentData at hp
  simp only at hp
  split at hp
  · rw [← Option.some.inj hp]
    exact hstore d.combo
  · split at hp
    · rw [← Option.some.inj hp]
      exact hstore d.combo
    · exact consistent_update env decoder _ d2 _ (hstore _) hp

theorem consistent_perform (env : Decls) (decoder : Int) (d d2 : Data) (a : Action)
    (h : Consistent env decoder d) (hp : perform env d a = some d2) :
    Consistent env decoder d2 := by
  cases a with
  | callSet caps => exact consistent_set env decoder d d2 caps h hp
  | callGet =>
    have hd2 : (get env d).2 = d2 := Option.some.inj hp
    rw [← hd2]
    exact ⟨h.1, QMap.wf_subscript _ _ _ h.2.1, settled_subscript env decoder _ _ h.2.2⟩
  | select index =>
    have hp2 : update env { d with combo := { d.combo with currentIndex := index } }
        ({ d.combo with currentIndex := index } : DataComboBox).currentData_toInt = some d2 := hp
    refine consistent_update env decoder _ d2 _ ?_ hp2
    exact ⟨h.1, h.2.1, h.2.2⟩
  | toggleGl on_ =>
    have hd2 : onGlToggled env { d with gl := { d.gl with checked := on_ } } on_ = d2 :=
      Option.some.inj hp
    rw [← hd2]
    exact consistent_onGlToggled env decoder _ on_ ⟨h.1, h.2.1, h.2.2⟩
  | toggleGpu on_ =>
    have hd2 : onGpuToggled env { d with gpu := { d.gpu with checked := on_ } } on_ = d2 :=
      Option.some.inj hp
    rw [← hd2]
    exact consistent_onGpuToggled env decoder _ on_ ⟨h.1, h.2.1, h.2.2⟩
  | toggleDoubler on_ =>
    have hd2 : onDoublerToggled env { d with doubler := { d.doubler with checked := on_ } } on_
        = d2 := Option.some.inj hp
    rw [← hd2]
    exact consistent_onDoublerToggled env decoder _ on_ ⟨h.1, h.2.1, h.2.2⟩

theorem consistent_performAll (env : Decls) (decoder : Int) (actions : List Action)
    (d d2 : Data) (h : Consistent env decoder d) (hp : performAll env d actions = some d2) :
    Consistent env decoder d2 := by
  induction actions generalizing d with
  | nil =>
    rw [← Option.some.inj hp]
    exact h
  | cons a rest ih =>
    unfold performAll at hp
    cases hq : perform env d a with
    | none => rw [hq] at hp; cases hp
    | some d1 =>
      rw [hq] at hp
      exact ih d1 (consistent_perform env decoder d d1 a h hq) hp

/-- C10: for a widget constructed for `decoder` and then driven by any calls of `set` and `get`,
selections in the combo and toggles of the check boxes, the destructor writes, under
`DecoderDeviceInfo::name(decoder)` (the key the constructor reads), exactly one token per entry
of the caps map, the `toString` of each entry in ascending key order, and leaves the other keys
alone; hence, given `fromString(toString(c)) = c` for available `c`, that the token of an
unavailable capability parses to an unavailable capability, and that a default-constructed
`DeintCaps()` is unavailable whatever its device mask and doubler flag, a widget later
constructed for the same decoder has, after its load and merge loops, every available entry of
the old map present unchanged under its method. -/
theorem destruct_then_constructLoops (env : Decls) (r0 r : Record) (decoder : Int)
    (d0 d : Data) (actions : List Action)
    (hcons : construct env r0 decoder = some d0)
    (hact : performAll env d0 actions = some d)
    (hrt : ∀ c, env.isAvailable c = true → env.fromString (env.toString c) = c)
    (hun : ∀ c, env.isAvailable c = false →
      env.isAvailable (env.fromString (env.toString c)) = false)
    (hctor : ∀ (dev : Int) (dbl : Bool),
      env.isAvailable ⟨env.ctor.m_method, env.ctor.m_decoder, dev, dbl⟩ = false) :
    d.decoder = decoder
    ∧ destruct env d r (env.DecoderDeviceInfo_name decoder)
        = d.caps.entries.map (fun e => env.toString e.2)
    ∧ (destruct env d r (env.DecoderDeviceInfo_name decoder)).length = d.caps.entries.length
    ∧ (d.caps.entries.map Prod.fst).Pairwise (fun a b => a < b)
    ∧ (∀ key, key ≠ env.DecoderDeviceInfo_name decoder → destruct env d r key = r key)
    ∧ loadRecord env (destruct env d r) decoder
        = load env (d.caps.entries.map (fun e => env.toString e.2)) QMap.empty
    ∧ (∀ e ∈ d.caps.entries, env.isAvailable e.2 = true →
        e.2.method = e.1
        ∧ (constructLoops env (destruct env d r) decoder).caps.find e.2.method = some e.2) := by
  obtain ⟨hdec, hwf, hsettled⟩ := consistent_performAll env decoder actions d0 d
    (consistent_construct env r0 decoder d0 hcons) hact
  obtain ⟨⟨g1, g2, g3, g4, g5⟩, g6⟩ := reload_general env d r
  rw [hdec] at g1 g2 g4 g5 g6
  have hleft : ∀ e ∈ d.caps.entries, env.isAvailable e.2 = true →
      e.2.method = e.1
      ∧ ∀ c0 ∈ env.list, accepts env (decide (decoder = env.DecoderDevice_GPU)) c0 = true →
          c0.method = e.2.method → e.2.m_decoder = decoder := by
    intro e he hav
    rcases hsettled e he with hl | ⟨hm, hd⟩
    · exact hl
    · have := hctor e.2.m_device e.2.m_doubler
      rw [← hm, ← hd] at this
      rw [this] at hav
      cases hav
  refine ⟨hdec, g1, g2, g3 hwf, g4, g5, ?_⟩
  intro e he hav
  refine ⟨(hleft e he hav).1, ?_⟩
  exact g6 hwf hrt (fun e2 _ h2 => hun e2.2 h2) (fun e2 he2 h2 => (hleft e2 he2 h2).1) e he hav
    (hleft e he hav).2

/-- Evaluation of C10 on a widget constructed for the software decoder from `sampleRecord`,
after a toggle of the doubler box, a `set` for method `3` and a call of `get`: the entries of
methods `2` and `3` are available and are found unchanged after destruction and the loops of
a new constructor, while the record that `update(Bob)` default-inserted is unavailable. -/
theorem destruct_then_constructLoops_witness :
    ∃ d0 d, construct persistDecls sampleRecord 1 = some d0
      ∧ performAll persistDecls d0
          [Action.toggleDoubler true, Action.callSet ⟨3, 9, 5, true⟩, Action.callGet] = some d
      ∧ (∀ c, persistDecls.isAvailable c = true →
          persistDecls.fromString (persistDecls.toString c) = c)
      ∧ (∀ c, persistDecls.isAvailable c = false →
          persistDecls.isAvailable (persistDecls.fromString (persistDecls.toString c)) = false)
      ∧ (∀ (dev : Int) (dbl : Bool), persistDecls.isAvailable
          ⟨persistDecls.ctor.m_method, persistDecls.ctor.m_decoder, dev, dbl⟩ = false)
      ∧ d.caps.entries
          = [(1, ⟨0, 0, 1, false⟩), (2, ⟨2, 1, 4, true⟩), (3, ⟨3, 1, 5, true⟩)]
      ∧ persistDecls.isAvailable ⟨0, 0, 1, false⟩ = false
      ∧ persistDecls.isAvailable ⟨2, 1, 4, true⟩ = true
      ∧ persistDecls.isAvailable ⟨3, 1, 5, true⟩ = true
      ∧ destruct persistDecls d sampleRecord "CPU" = ["v", "mmdvvvvx", "mmmdvvvvvx"]
      ∧ (constructLoops persistDecls (destruct persistDecls d sampleRecord) 1).caps.find
          (⟨2, 1, 4, true⟩ : DeintCaps).method = some ⟨2, 1, 4, true⟩
      ∧ (constructLoops persistDecls (destruct persistDecls d sampleRecord) 1).caps.find
          (⟨3, 1, 5, true⟩ : DeintCaps).method = some ⟨3, 1, 5, true⟩ :=
  ⟨_, _, rfl, rfl, persistDecls_roundtrip, persistDecls_unavailable,
    fun _ _ => rfl, by decide, by decide, by decide, by decide, by decide,
    ((destruct_then_constructLoops persistDecls sampleRecord sampleRecord 1 _ _
      [Action.toggleDoubler true, Action.callSet ⟨3, 9, 5, true⟩, Action.callGet] rfl rfl
      persistDecls_roundtrip persistDecls_unavailable (fun _ _ => rfl)).2.2.2.2.2.2
      ((2 : Int), (⟨2, 1, 4, true⟩ : DeintCaps)) (by decide) (by decide)).2,
    ((destruct_then_constructLoops persistDecls sampleRecord sampleRecord 1 _ _
      [Action.toggleDoubler true, Action.callSet ⟨3, 9, 5, true⟩, Action.callGet] rfl rfl
      persistDecls_roundtrip persistDecls_unavailable (fun _ _ => rfl)).2.2.2.2.2.2
      ((3 : Int), (⟨3, 1, 5, true⟩ : DeintCaps)) (by decide) (by decide)).2⟩

end DeintWidget

end Bomi
